import Mathlib

/-!
# LASzip: the integer compressor and the version-1 item writers

A shallow embedding of `src/arithmeticintegercompressor.cpp` and of
`src/laswriteitemcompressed_v1.cpp`.

Conventions of the embedding.

* `I32` values are integers of `[-2^31, 2^31)`; every arithmetic operation of the
  source on `I32` is followed by `toI32` (two's complement wraparound).  `U32`
  values are naturals below `2^32`; a mixed `I32`/`U32` operation is done modulo
  `2^32` as in C++ and converted back with `toI32`.
* `>>` on a signed value is the arithmetic shift (`Int.shiftRight`, the floor of the
  division by a power of two).  `<<` is the product with a power of two, wrapped to 32
  bits; the source never shifts by 32 or more except when a value model of index 32 is
  allocated with `bits_high ≥ 32`.
* The entropy coder (`ArithmeticEncoder`, `ArithmeticDecoder`) is not part of the
  sources.  It is a faithful channel: an encoder call appends an `Event` to the
  output, the matching decoder call takes the first event of the input and fails
  when it is not of the kind (model and context) the decoder asks for.
-/

namespace LASzip

/-! ## Machine integers -/

def I32_MIN : Int := -2147483648

def I32_MAX : Int := 2147483647

/-- Conversion to `I32`: the representative of `x` modulo `2^32` in `[-2^31, 2^31)`. -/
def toI32 (x : Int) : Int := (x + 2147483648) % 4294967296 - 2147483648

/-- Conversion to `U32`: the representative of `x` modulo `2^32` in `[0, 2^32)`. -/
def toU32 (x : Int) : Nat := (x % 4294967296).toNat

/-- The expression `x << n` on `U32`: the product with `2^n` modulo `2^32`. -/
def shlU32 (x : Nat) (n : Nat) : Nat := (x * 2 ^ n) % 4294967296

/-- The expression `x << n` on `int`: the product with `2^n`, wrapped to 32 bits. -/
def shl32 (x : Int) (n : Nat) : Int := toI32 (x * (2 ^ n : Nat))

/-! ## Coder events -/

/-- One call of the entropy coder made by the integer compressor. -/
inductive Event where
  /-- The call `enc->encode(mBits[context], k)`. -/
  | encodeBits (context : Nat) (sym : Nat)
  /-- The call `enc->encode((ArithmeticBitModel*)mCorrector[0], c)`. -/
  | encodeBit (sym : Nat)
  /-- The call `enc->encode(mCorrector[index], c)`. -/
  | encodeCorrector (index : Nat) (sym : Nat)
  /-- The call `enc->writeBits(bits, sym)`. -/
  | writeBits (bits : Nat) (sym : Nat)
  deriving DecidableEq, Repr

/-! ## ArithmeticIntegerCompressor -/

/-- The arguments of `new ArithmeticModel(n, 0, compress)`: the alphabet size and the
flag that tells an encoder model (1) from a decoder model (0). -/
structure ArithmeticModel where
  n : Nat
  compress : Nat
  deriving DecidableEq, Repr

/-- The members of `ArithmeticIntegerCompressor`.  `mBits` lists the magnitude models
`mBits[0 .. contexts-1]`, `mCorrector` the value models `mCorrector[1 .. corr_bits]`
(`mCorrector[0]` is the bit model, which has no parameter). -/
structure ArithmeticIntegerCompressor where
  k : Nat
  contexts : Nat
  bits_high : Nat
  bits : Nat
  range : Nat
  corr_bits : Nat
  corr_range : Nat
  corr_min : Int
  corr_max : Int
  mBits : List ArithmeticModel
  mCorrector : List ArithmeticModel
  deriving DecidableEq, Repr

/-- The constructor: `bits = 16`, `range = 0`, `k = 0`, no models.  The members the
constructor leaves unset are given the value 0. -/
def ArithmeticIntegerCompressor.new : ArithmeticIntegerCompressor :=
  { k := 0, contexts := 0, bits_high := 0, bits := 16, range := 0, corr_bits := 0,
    corr_range := 0, corr_min := 0, corr_max := 0, mBits := [], mCorrector := [] }

/-- The loop `while (range) { range = range >> 1; corr_bits++; }` of the two setup
functions; it returns the final `range` and `corr_bits`.  The first argument bounds the
number of iterations: the setup functions pass 32, which a `U32` cannot exceed (see
`rangeLoop_exit`). -/
def rangeLoop : Nat → Nat → Nat → Nat × Nat
  | 0, range, corr_bits => (range, corr_bits)
  | fuel + 1, range, corr_bits =>
    if range = 0 then (range, corr_bits)
    else rangeLoop fuel (range >>> 1) ((corr_bits + 1) % 4294967296)

/-- The value models `mCorrector[1 .. corr_bits]` allocated by a setup function. -/
def allocCorrector (corr_bits bits_high compress : Nat) : List ArithmeticModel :=
  (List.range corr_bits).map fun j =>
    let i := j + 1
    if i ≤ bits_high then
      { n := toU32 (shl32 1 i), compress := compress }
    else
      { n := toU32 (shl32 1 bits_high), compress := compress }

def SetupCompressor (s : ArithmeticIntegerCompressor) (contexts bits_high : Nat) :
    ArithmeticIntegerCompressor :=
  let s := { s with contexts := contexts, bits_high := bits_high }
  let s :=
    if s.range ≠ 0 then
      let corr_range := s.range
      let (range, corr_bits) := rangeLoop 32 s.range 0
      let corr_bits :=
        if corr_range = shlU32 1 (corr_bits - 1) then corr_bits - 1 else corr_bits
      let corr_min := toI32 (-(toI32 (corr_range / 2 : Nat)))
      let corr_max := toI32 (corr_min + corr_range - 1)
      { s with range := range, corr_bits := corr_bits, corr_range := corr_range,
               corr_min := corr_min, corr_max := corr_max }
    else if s.bits ≠ 0 ∧ s.bits < 32 then
      let corr_bits := s.bits
      let corr_range := shlU32 1 s.bits
      let corr_min := toI32 (-(toI32 (corr_range / 2 : Nat)))
      let corr_max := toI32 (corr_min + corr_range - 1)
      { s with corr_bits := corr_bits, corr_range := corr_range,
               corr_min := corr_min, corr_max := corr_max }
    else
      { s with corr_bits := 32, corr_range := 0, corr_min := I32_MIN, corr_max := I32_MAX }
  { s with
    mBits := List.replicate s.contexts { n := (s.corr_bits + 1) % 4294967296, compress := 1 },
    mCorrector := allocCorrector s.corr_bits s.bits_high 1 }

def SetupDecompressor (s : ArithmeticIntegerCompressor) (contexts bits_high : Nat) :
    ArithmeticIntegerCompressor :=
  let s := { s with contexts := contexts, bits_high := bits_high }
  let s :=
    if s.range ≠ 0 then
      let corr_range := s.range
      let (range, corr_bits) := rangeLoop 32 s.range 0
      let corr_bits :=
        if corr_range = shlU32 1 (corr_bits - 1) then corr_bits - 1 else corr_bits
      let corr_min := toI32 (-(toI32 (corr_range / 2 : Nat)))
      let corr_max := toI32 (corr_min + corr_range - 1)
      { s with range := range, corr_bits := corr_bits, corr_range := corr_range,
               corr_min := corr_min, corr_max := corr_max }
    else if s.bits ≠ 0 ∧ s.bits < 32 then
      let corr_bits := s.bits
      let corr_range := shlU32 1 s.bits
      let corr_min := toI32 (-(toI32 (corr_range / 2 : Nat)))
      let corr_max := toI32 (corr_min + corr_range - 1)
      { s with corr_bits := corr_bits, corr_range := corr_range,
               corr_min := corr_min, corr_max := corr_max }
    else
      { s with corr_bits := 32, corr_range := 0, corr_min := I32_MIN, corr_max := I32_MAX }
  { s with
    mBits := List.replicate s.contexts { n := (s.corr_bits + 1) % 4294967296, compress := 0 },
    mCorrector := allocCorrector s.corr_bits s.bits_high 0 }

/-- The loop `while (c1) { c1 = c1 >> 1; k = k + 1; }` of `writeCorrector`, with `c1`
an `I32` and `k` a `U32`.  `fuel` bounds the number of iterations; the result is
`none` when the loop has not ended within that bound. -/
def magnitudeLoop : Nat → Int → Nat → Option (Int × Nat)
  | 0, c1, k => if c1 = 0 then some (c1, k) else none
  | fuel + 1, c1, k =>
    if c1 = 0 then some (c1, k)
    else magnitudeLoop fuel (c1 >>> (1 : Nat)) ((k + 1) % 4294967296)

/-- The adjusted absolute value `(c <= 0 ? -c : c - 1)` of a corrector, over the
integers (no wraparound). -/
def abs_adj (c : Int) : Int := if c ≤ 0 then -c else c - 1

/-- The magnitude of a corrector as the specification words it: the bit length of
`abs_adj`. -/
def bitLength (c : Int) : Nat := Nat.size (abs_adj c).toNat

/-- The function `writeCorrector(c, mBits[context])` (the build without
`COMPRESS_ONLY_K`): the events it emits and the compressor with the new `k`. -/
def writeCorrector (fuel : Nat) (s : ArithmeticIntegerCompressor) (c : Int) (context : Nat) :
    Option (List Event × ArithmeticIntegerCompressor) :=
  let c1 := if c ≤ 0 then toI32 (-c) else toI32 (c - 1)
  match magnitudeLoop fuel c1 0 with
  | none => none
  | some (_, k) =>
    let s := { s with k := k }
    if k ≠ 0 then
      let c :=
        if c < 0 then toI32 (c + toI32 (shl32 1 k - 1))
        else toI32 (c - 1)
      if k ≤ s.bits_high then
        some ([Event.encodeBits context k, Event.encodeCorrector k (toU32 c)], s)
      else
        -- here bits_high < k, so the U32 difference is the difference of naturals
        let k1 := k - s.bits_high
        let c1 := Int.land c (toI32 (shl32 1 k1 - 1))
        let c := c >>> k1
        some ([Event.encodeBits context k, Event.encodeCorrector k (toU32 c),
               Event.writeBits k1 (toU32 c1)], s)
    else
      some ([Event.encodeBits context k, Event.encodeBit (toU32 c)], s)

/-- The corrector `Compress` hands to `writeCorrector`: `real - pred`, folded once. -/
def foldCorrector (s : ArithmeticIntegerCompressor) (pred real : Int) : Int :=
  let corr := toI32 (real - pred)
  if corr < s.corr_min then toI32 (corr + s.corr_range)
  else if corr > s.corr_max then toI32 (corr - s.corr_range)
  else corr

def Compress (fuel : Nat) (s : ArithmeticIntegerCompressor) (pred real : Int) (context : Nat) :
    Option (List Event × ArithmeticIntegerCompressor) :=
  writeCorrector fuel s (foldCorrector s pred real) context

/-- The function `readCorrector(mBits[context])` (the build without `COMPRESS_ONLY_K`)
on the events still to be read: the corrector, the decompressor with the new `k` and
the events left. -/
def readCorrector (s : ArithmeticIntegerCompressor) (context : Nat) (input : List Event) :
    Option (Int × ArithmeticIntegerCompressor × List Event) :=
  match input with
  | Event.encodeBits ctx sym :: rest =>
    if ctx ≠ context then none else
    let k := sym
    let s := { s with k := k }
    let translate (c : Int) : Int :=
      if c ≥ shl32 1 (k - 1) then toI32 (c + 1)
      else toI32 (c - toI32 (shl32 1 k - 1))
    if k ≠ 0 then
      if k ≤ s.bits_high then
        match rest with
        | Event.encodeCorrector index sym :: rest =>
          if index ≠ k then none else
          let c := toI32 sym
          some (translate c, s, rest)
        | _ => none
      else
        let k1 := k - s.bits_high
        match rest with
        | Event.encodeCorrector index sym :: Event.writeBits bits raw :: rest =>
          if index ≠ k ∨ bits ≠ k1 then none else
          let c := toI32 sym
          let c1 := toI32 raw
          let c := Int.lor (shl32 c k1) c1
          some (translate c, s, rest)
        | _ => none
    else
      match rest with
      | Event.encodeBit sym :: rest => some (toI32 sym, s, rest)
      | _ => none
  | _ => none

/-- The tail of `Decompress`: `real = pred + corr`, folded back once. -/
def unfoldCorrector (s : ArithmeticIntegerCompressor) (pred corr : Int) : Int :=
  let real := toI32 (pred + corr)
  if real < 0 then toI32 (real + s.corr_range)
  else if toU32 real ≥ s.corr_range then toI32 (real - s.corr_range)
  else real

def Decompress (s : ArithmeticIntegerCompressor) (pred : Int) (context : Nat)
    (input : List Event) : Option (Int × ArithmeticIntegerCompressor × List Event) :=
  match readCorrector s context input with
  | none => none
  | some (corr, s, rest) => some (unfoldCorrector s pred corr, s, rest)

/-! ## The item writers: coder calls

The item writers of `laswriteitemcompressed_v1.cpp` call integer compressors
(`ic->compress(pred, real, context)`, then `ic->getK()`) and the entropy coder
(`enc->encodeSymbol`, `enc->encodeBit`, `enc->writeInt64`).  A writer is embedded as the
tree of the calls it makes (`Prog`): a `compress` node is followed by one subtree for each
magnitude `k` that the compressor may expose.  Two readings of such a tree are given:
`Prog.calls` lists the calls for a given answer of `getK`, and `Prog.run` executes the
`compress` calls with `Compress` of the integer compressor above and lists the coder
events. -/

/-- The integer compressors owned by the item writers. -/
inductive IC where
  | ic_dx | ic_dy | ic_z | ic_intensity | ic_scan_angle_rank | ic_point_source_ID
  | ic_gpstime | ic_rgb | ic_offset_diff | ic_packet_size | ic_return_point | ic_xyz
  | ic_byte
  deriving DecidableEq, Repr

/-- The symbol models owned by the item writers. -/
inductive SymbolModel where
  | m_changed_values | m_bit_byte | m_classification | m_user_data
  | m_gpstime_multi | m_gpstime_0diff | m_byte_used | m_packet_index
  deriving DecidableEq, Repr

/-- The bit models owned by the item writers. -/
inductive BitModel where
  | m_small_offset_diff
  deriving DecidableEq, Repr

/-- The calls an item writer makes, as a tree. -/
inductive Prog (α : Type) where
  /-- Return. -/
  | ret (a : α) : Prog α
  /-- The call `ic->compress(pred, real, context)`; `next k` is what the writer does when
  `ic->getK()` is `k` afterwards. -/
  | compress (ic : IC) (pred real : Int) (context : Nat) (next : Nat → Prog α) : Prog α
  /-- The call `enc->encodeSymbol(m, sym)`. -/
  | encodeSymbol (m : SymbolModel) (sym : Nat) (next : Prog α) : Prog α
  /-- The call `enc->encodeBit(m, bit)`. -/
  | encodeBit (m : BitModel) (bit : Nat) (next : Prog α) : Prog α
  /-- The call `enc->writeInt64(v)`. -/
  | writeInt64 (v : Int) (next : Prog α) : Prog α

/-- Sequencing of call trees. -/
def Prog.bind {α β : Type} : Prog α → (α → Prog β) → Prog β
  | Prog.ret a, f => f a
  | Prog.compress ic pred real context next, f =>
    Prog.compress ic pred real context (fun k => (next k).bind f)
  | Prog.encodeSymbol m sym next, f => Prog.encodeSymbol m sym (next.bind f)
  | Prog.encodeBit m bit next, f => Prog.encodeBit m bit (next.bind f)
  | Prog.writeInt64 v next, f => Prog.writeInt64 v (next.bind f)

instance : Monad Prog where
  pure := Prog.ret
  bind := Prog.bind

/-- The statement `ic->compress(pred, real, context)`; its value is `ic->getK()`. -/
def compress (ic : IC) (pred real : Int) (context : Nat) : Prog Nat :=
  Prog.compress ic pred real context Prog.ret

/-- The statement `enc->encodeSymbol(m, sym)`. -/
def encodeSymbol (m : SymbolModel) (sym : Nat) : Prog Unit :=
  Prog.encodeSymbol m sym (Prog.ret ())

/-- The statement `enc->encodeBit(m, bit)`. -/
def encodeBit (m : BitModel) (bit : Nat) : Prog Unit :=
  Prog.encodeBit m bit (Prog.ret ())

/-- The statement `enc->writeInt64(v)`. -/
def writeInt64 (v : Int) : Prog Unit :=
  Prog.writeInt64 v (Prog.ret ())

/-- The statement `if (c) p;`. -/
def Prog.when (c : Prop) [Decidable c] (p : Prog Unit) : Prog Unit :=
  if c then p else Prog.ret ()

/-- The statement `ic->compress(pred, real, context)` when `ic->getK()` is not read
afterwards. -/
def compress_ (ic : IC) (pred real : Int) (context : Nat) : Prog Unit :=
  Prog.compress ic pred real context (fun _ => Prog.ret ())

/-- One call of an item writer. -/
inductive ItemOp where
  | compress (ic : IC) (pred real : Int) (context : Nat)
  | encodeSymbol (m : SymbolModel) (sym : Nat)
  | encodeBit (m : BitModel) (bit : Nat)
  | writeInt64 (v : Int)
  deriving DecidableEq, Repr

/-- The calls of a writer in order, when `getK ic pred real context` is the magnitude
that compressor `ic` exposes after `compress(pred, real, context)`. -/
def Prog.calls {α : Type} (getK : IC → Int → Int → Nat → Nat) : Prog α → List ItemOp × α
  | Prog.ret a => ([], a)
  | Prog.compress ic pred real context next =>
    let r := (next (getK ic pred real context)).calls getK
    (ItemOp.compress ic pred real context :: r.1, r.2)
  | Prog.encodeSymbol m sym next =>
    let r := next.calls getK
    (ItemOp.encodeSymbol m sym :: r.1, r.2)
  | Prog.encodeBit m bit next =>
    let r := next.calls getK
    (ItemOp.encodeBit m bit :: r.1, r.2)
  | Prog.writeInt64 v next =>
    let r := next.calls getK
    (ItemOp.writeInt64 v :: r.1, r.2)

/-- One call of the entropy coder made during an item write: an event of one of the
integer compressors, or a call made by the writer itself. -/
inductive CoderEvent where
  | ic (c : IC) (e : Event)
  | encodeSymbol (m : SymbolModel) (sym : Nat)
  | encodeBit (m : BitModel) (bit : Nat)
  | writeInt64 (v : Int)
  deriving DecidableEq, Repr

/-- The coder events of a writer, when compressor `ic` is the integer compressor
`cfg ic`; `none` when a `compress` call does not return within `fuel` iterations of its
magnitude loop. -/
def Prog.run {α : Type} (fuel : Nat) (cfg : IC → ArithmeticIntegerCompressor) :
    Prog α → Option (List CoderEvent × α)
  | Prog.ret a => some ([], a)
  | Prog.compress ic pred real context next =>
    match Compress fuel (cfg ic) pred real context with
    | none => none
    | some (ev, s) =>
      match (next s.k).run fuel cfg with
      | none => none
      | some (evs, a) => some (ev.map (CoderEvent.ic ic) ++ evs, a)
  | Prog.encodeSymbol m sym next =>
    match next.run fuel cfg with
    | none => none
    | some (evs, a) => some (CoderEvent.encodeSymbol m sym :: evs, a)
  | Prog.encodeBit m bit next =>
    match next.run fuel cfg with
    | none => none
    | some (evs, a) => some (CoderEvent.encodeBit m bit :: evs, a)
  | Prog.writeInt64 v next =>
    match next.run fuel cfg with
    | none => none
    | some (evs, a) => some (CoderEvent.writeInt64 v :: evs, a)

/-- Modelled from the spec: the class `IntegerCompressor` that the item writers
instantiate is not among the sources.  Section 4.2 describes one integer compressor,
whose code is `ArithmeticIntegerCompressor`; `new IntegerCompressor(enc, bits, contexts)`
followed by `initCompressor()` is taken to be that class with `bits` bits, set up with
`contexts` contexts and the split threshold `bits_high` (the default of the absent
constructor, a parameter here). -/
def IntegerCompressor (bits contexts bits_high : Nat) : ArithmeticIntegerCompressor :=
  SetupCompressor { ArithmeticIntegerCompressor.new with bits := bits } contexts bits_high

/-- Modelled from the spec: the decoder side of the absent class `IntegerCompressor`
(`initDecompressor()`), taken to be `ArithmeticIntegerCompressor` set up by
`SetupDecompressor` with the same parameters. -/
def IntegerDecompressor (bits contexts bits_high : Nat) : ArithmeticIntegerCompressor :=
  SetupDecompressor { ArithmeticIntegerCompressor.new with bits := bits } contexts bits_high

/-! ## Byte buffers -/

abbrev U8 := Fin 256

/-- A byte buffer, addressed by offset. -/
abbrev Bytes := Nat → U8

/-- A `U16` field at offset `off` (little-endian). -/
def getU16 (b : Bytes) (off : Nat) : Nat := (b off).val + 256 * (b (off + 1)).val

/-- An `I32` field at offset `off` (little-endian, two's complement). -/
def getI32 (b : Bytes) (off : Nat) : Int :=
  toI32 (((b off).val + 256 * (b (off + 1)).val + 65536 * (b (off + 2)).val
    + 16777216 * (b (off + 3)).val : Nat) : Int)

/-- An `I8` field at offset `off` (two's complement). -/
def getI8 (b : Bytes) (off : Nat) : Int :=
  if (b off).val < 128 then ((b off).val : Int) else ((b off).val : Int) - 256

/-- The call `memcpy(dst, src, n)`. -/
def memcpy (dst src : Bytes) (n : Nat) : Bytes := fun i => if i < n then src i else dst i

/-! ## LASwriteItemCompressed_POINT10_v1 -/

/-- The fields of `struct LASpoint10` read through the cast `(LASpoint10*)item`. -/
structure LASpoint10 where
  x : Int
  y : Int
  z : Int
  intensity : Nat
  return_number : Nat
  number_of_returns_of_given_pulse : Nat
  scan_direction_flag : Nat
  edge_of_flight_line : Nat
  classification : Nat
  scan_angle_rank : Int
  user_data : Nat
  point_source_ID : Nat

/-- The cast `(LASpoint10*)item`: the 20 bytes as a little-endian record, the bit fields
of the byte at offset 14 allocated from its low bits. -/
def asLASpoint10 (item : Bytes) : LASpoint10 :=
  { x := getI32 item 0
    y := getI32 item 4
    z := getI32 item 8
    intensity := getU16 item 12
    return_number := (item 14).val % 8
    number_of_returns_of_given_pulse := (item 14).val / 8 % 8
    scan_direction_flag := (item 14).val / 64 % 2
    edge_of_flight_line := (item 14).val / 128
    classification := (item 15).val
    scan_angle_rank := getI8 item 16
    user_data := (item 17).val
    point_source_ID := getU16 item 18 }

/-- The members of `LASwriteItemCompressed_POINT10_v1` that `write` reads and updates. -/
structure LASwriteItemCompressed_POINT10_v1 where
  last_item : Bytes
  last_x_diff : Nat → Nat → Int
  last_y_diff : Nat → Nat → Int
  last_incr : Nat → Nat
  last_dir : Nat

namespace LASwriteItemCompressed_POINT10_v1

/-- The integer compressors created by the constructor: `ic_dx` (32 bits, 2 contexts),
`ic_dy` and `ic_z` (32 bits, 33 contexts), `ic_intensity` and `ic_point_source_ID`
(16 bits), `ic_scan_angle_rank` (8 bits, 2 contexts); a compressor created without a
number of contexts has one. -/
def compressors (bits_high : Nat) : IC → ArithmeticIntegerCompressor
  | IC.ic_dx => IntegerCompressor 32 2 bits_high
  | IC.ic_dy => IntegerCompressor 32 33 bits_high
  | IC.ic_z => IntegerCompressor 32 33 bits_high
  | IC.ic_intensity => IntegerCompressor 16 1 bits_high
  | IC.ic_scan_angle_rank => IntegerCompressor 8 2 bits_high
  | IC.ic_point_source_ID => IntegerCompressor 16 1 bits_high
  | _ => IntegerCompressor 16 1 bits_high

def init (item : Bytes) : LASwriteItemCompressed_POINT10_v1 :=
  { last_dir := 0
    last_x_diff := fun _ _ => 0
    last_y_diff := fun _ _ => 0
    last_incr := fun _ => 0
    last_item := memcpy (fun _ => 0) item 20 }

/-- The comparison tree of `write` that selects `median_x` (and `median_y`) among the
three entries `a = diff[last_dir][0]`, `b = diff[last_dir][1]`, `c = diff[last_dir][2]`. -/
def median (a b c : Int) : Int :=
  if a < b then
    if b < c then b
    else if a < c then c
    else a
  else
    if a < c then a
    else if b < c then c
    else b

def median_x (s : LASwriteItemCompressed_POINT10_v1) : Int :=
  median (s.last_x_diff s.last_dir 0) (s.last_x_diff s.last_dir 1) (s.last_x_diff s.last_dir 2)

def median_y (s : LASwriteItemCompressed_POINT10_v1) : Int :=
  median (s.last_y_diff s.last_dir 0) (s.last_y_diff s.last_dir 1) (s.last_y_diff s.last_dir 2)

/-- The value of `changed_values` in `write`. -/
def changed_values (last item : Bytes) : Nat :=
  ((if (asLASpoint10 last).intensity ≠ (asLASpoint10 item).intensity then 1 else 0) <<< 5) |||
  ((if last 14 ≠ item 14 then 1 else 0) <<< 4) |||
  ((if (asLASpoint10 last).classification ≠ (asLASpoint10 item).classification
      then 1 else 0) <<< 3) |||
  ((if (asLASpoint10 last).scan_angle_rank ≠ (asLASpoint10 item).scan_angle_rank
      then 1 else 0) <<< 2) |||
  ((if (asLASpoint10 last).user_data ≠ (asLASpoint10 item).user_data then 1 else 0) <<< 1) |||
  (if (asLASpoint10 last).point_source_ID ≠ (asLASpoint10 item).point_source_ID then 1 else 0)

/-- The update of the predictor at the end of `write`. -/
def record (s : LASwriteItemCompressed_POINT10_v1) (item : Bytes) (x_diff y_diff : Int) :
    LASwriteItemCompressed_POINT10_v1 :=
  let s :=
    if s.last_dir = (asLASpoint10 item).scan_direction_flag then
      let s := { s with
        last_x_diff := Function.update s.last_x_diff s.last_dir
          (Function.update (s.last_x_diff s.last_dir) (s.last_incr s.last_dir) x_diff) }
      let s := { s with
        last_y_diff := Function.update s.last_y_diff s.last_dir
          (Function.update (s.last_y_diff s.last_dir) (s.last_incr s.last_dir) y_diff) }
      let s := { s with
        last_incr := Function.update s.last_incr s.last_dir (s.last_incr s.last_dir + 1) }
      if s.last_incr s.last_dir > 2 then
        { s with last_incr := Function.update s.last_incr s.last_dir 0 }
      else s
    else
      { s with last_dir := (asLASpoint10 item).scan_direction_flag }
  { s with last_item := memcpy s.last_item item 20 }

def write (s : LASwriteItemCompressed_POINT10_v1) (item : Bytes) :
    Prog LASwriteItemCompressed_POINT10_v1 := do
  -- find median difference for x and y from 3 preceding differences
  let median_x := s.median_x
  let median_y := s.median_y
  -- compress x y z coordinates
  let x_diff := toI32 ((asLASpoint10 item).x - (asLASpoint10 s.last_item).x)
  let y_diff := toI32 ((asLASpoint10 item).y - (asLASpoint10 s.last_item).y)
  let k_bits ← compress IC.ic_dx median_x x_diff s.last_dir
  let k_dy ← compress IC.ic_dy median_y y_diff k_bits
  let k_bits := (k_bits + k_dy) % 4294967296 / 2
  compress_ IC.ic_z (asLASpoint10 s.last_item).z (asLASpoint10 item).z k_bits
  -- compress which other values have changed
  let changed_values := changed_values s.last_item item
  encodeSymbol SymbolModel.m_changed_values changed_values
  Prog.when (changed_values &&& 32 ≠ 0)
    (compress_ IC.ic_intensity (asLASpoint10 s.last_item).intensity
      (asLASpoint10 item).intensity 0)
  Prog.when (changed_values &&& 16 ≠ 0)
    (encodeSymbol SymbolModel.m_bit_byte (item 14).val)
  Prog.when (changed_values &&& 8 ≠ 0)
    (encodeSymbol SymbolModel.m_classification (asLASpoint10 item).classification)
  Prog.when (changed_values &&& 4 ≠ 0)
    (compress_ IC.ic_scan_angle_rank (asLASpoint10 s.last_item).scan_angle_rank
      (asLASpoint10 item).scan_angle_rank (if k_bits < 3 then 1 else 0))
  Prog.when (changed_values &&& 2 ≠ 0)
    (encodeSymbol SymbolModel.m_user_data (asLASpoint10 item).user_data)
  Prog.when (changed_values &&& 1 ≠ 0)
    (compress_ IC.ic_point_source_ID (asLASpoint10 s.last_item).point_source_ID
      (asLASpoint10 item).point_source_ID 0)
  -- only record the difference if the scan direction has not changed; copy the last item
  pure (record s item x_diff y_diff)

end LASwriteItemCompressed_POINT10_v1

/-! ## LASwriteItemCompressed_BYTE_v1 -/

/-- The members of `LASwriteItemCompressed_BYTE_v1`. -/
structure LASwriteItemCompressed_BYTE_v1 where
  number : Nat
  last_item : Bytes

namespace LASwriteItemCompressed_BYTE_v1

/-- The integer compressor created by the constructor: `ic_byte`, 8 bits, `number`
contexts. -/
def compressors (number bits_high : Nat) : IC → ArithmeticIntegerCompressor :=
  fun _ => IntegerCompressor 8 number bits_high

def init (number : Nat) (item : Bytes) : LASwriteItemCompressed_BYTE_v1 :=
  { number := number, last_item := memcpy (fun _ => 0) item number }

/-- The loop `for (i = ...; i < number; i++) ic_byte->compress(last_item[i], item[i], i)`
of `write`, with `n` iterations left before `i` reaches `number`. -/
def writeLoop (s : LASwriteItemCompressed_BYTE_v1) (item : Bytes) : Nat → Nat → Prog Unit
  | 0, _ => pure ()
  | n + 1, i => do
    compress_ IC.ic_byte (s.last_item i).val (item i).val i
    writeLoop s item n (i + 1)

/-- Modelled from the spec: the reader `LASreadItemCompressed_BYTE_v1::read` is not among
the sources; decoding mirrors encoding (sections 4.3 and 4.7), that is the loop
`for (i = ...; i < number; i++) item[i] = ic_byte->decompress(last_item[i], i)`, here
with `n` iterations left and on the events of `ic_byte` still to be read.  It returns the
values decoded, in order, and the events left. -/
def readLoop (d : ArithmeticIntegerCompressor) (last_item : Bytes) :
    Nat → Nat → List Event → Option (List Int × List Event)
  | 0, _, input => some ([], input)
  | n + 1, i, input =>
    match Decompress d (last_item i).val i input with
    | none => none
    | some (v, _, rest) =>
      match readLoop d last_item n (i + 1) rest with
      | none => none
      | some (vs, rest) => some (v :: vs, rest)

def write (s : LASwriteItemCompressed_BYTE_v1) (item : Bytes) :
    Prog LASwriteItemCompressed_BYTE_v1 := do
  writeLoop s item s.number 0
  pure { s with last_item := memcpy s.last_item item s.number }

end LASwriteItemCompressed_BYTE_v1

/-! ## Symbol models and 64-bit integers -/

/-- The alphabet size that the constructor of the owning writer gives
`enc->createSymbolModel`. -/
def SymbolModel.size : SymbolModel → Nat
  | SymbolModel.m_changed_values => 64
  | SymbolModel.m_bit_byte => 256
  | SymbolModel.m_classification => 256
  | SymbolModel.m_user_data => 256
  | SymbolModel.m_gpstime_multi => 512
  | SymbolModel.m_gpstime_0diff => 3
  | SymbolModel.m_byte_used => 64
  | SymbolModel.m_packet_index => 256

/-- Conversion to `I64`: the representative of `x` modulo `2^64` in `[-2^63, 2^63)`. -/
def toI64 (x : Int) : Int :=
  (x + 9223372036854775808) % 18446744073709551616 - 9223372036854775808

/-- Conversion to `U64`: the representative of `x` modulo `2^64` in `[0, 2^64)`. -/
def toU64 (x : Int) : Nat := (x % 18446744073709551616).toNat

/-- A `U32` field at offset `off` (little-endian). -/
def getU32 (b : Bytes) (off : Nat) : Nat :=
  (b off).val + 256 * (b (off + 1)).val + 65536 * (b (off + 2)).val
    + 16777216 * (b (off + 3)).val

/-- A `U64` field at offset `off` (little-endian). -/
def getU64 (b : Bytes) (off : Nat) : Nat :=
  getU32 b off + 4294967296 * getU32 b (off + 4)

/-- An `I64` field at offset `off` (little-endian, two's complement); also the member
`i64` of the union `I64F64` after its member `f64` has been assigned the `F64` at that
offset (the assignment keeps the 64 bits). -/
def getI64 (b : Bytes) (off : Nat) : Int := toI64 (getU64 b off)

namespace LASwriteItemCompressed_POINT10_v1

/-- The writer after `write` has been called on each item of a list, in order. -/
def writes (getK : IC → Int → Int → Nat → Nat) :
    LASwriteItemCompressed_POINT10_v1 → List Bytes → LASwriteItemCompressed_POINT10_v1
  | s, [] => s
  | s, item :: items => writes getK ((write s item).calls getK).2 items

end LASwriteItemCompressed_POINT10_v1

/-! ## LASwriteItemCompressed_GPSTIME11_v1 -/

/-- The members of `LASwriteItemCompressed_GPSTIME11_v1`: `last_gpstime` is the member
`i64` of the union, `last_gpstime_diff` an `I32`, `multi_extreme_counter` a `U32` (the
header that declares them is not among the sources; section 4.4 of the specification
gives these types). -/
structure LASwriteItemCompressed_GPSTIME11_v1 where
  last_gpstime : Int
  last_gpstime_diff : Int
  multi_extreme_counter : Nat

namespace LASwriteItemCompressed_GPSTIME11_v1

def LASZIP_GPSTIME_MULTIMAX : Nat := 512

/-- The integer compressor created by the constructor: `ic_gpstime`, 32 bits, 6
contexts. -/
def compressors (bits_high : Nat) : IC → ArithmeticIntegerCompressor :=
  fun _ => IntegerCompressor 32 6 bits_high

def init (item : Bytes) : LASwriteItemCompressed_GPSTIME11_v1 :=
  { last_gpstime_diff := 0
    multi_extreme_counter := 0
    last_gpstime := getI64 item 0 }

/-- The statements of `write` that limit the multiplier into its bounds. -/
def limit (multi : Int) : Int :=
  if multi ≥ (LASZIP_GPSTIME_MULTIMAX : Int) - 3 then (LASZIP_GPSTIME_MULTIMAX : Int) - 3
  else if multi ≤ 0 then 0
  else multi

/-- The statements `multi_extreme_counter++; if (multi_extreme_counter > 3)
{ last_gpstime_diff = curr_gpstime_diff; multi_extreme_counter = 0; }` of `write`. -/
def extreme (s : LASwriteItemCompressed_GPSTIME11_v1) (curr_gpstime_diff : Int) :
    LASwriteItemCompressed_GPSTIME11_v1 :=
  let s := { s with multi_extreme_counter := (s.multi_extreme_counter + 1) % 4294967296 }
  if s.multi_extreme_counter > 3 then
    { s with last_gpstime_diff := curr_gpstime_diff, multi_extreme_counter := 0 }
  else s

/-- The function `write`.  Single-precision arithmetic is not modelled: `f32multi a b` is
the value of the expression `(I32)(((F32)a / (F32)b) + 0.5f)`, and `write` is defined for
every such function.  The quotient `last_gpstime_diff/4` is the integer quotient rounded
toward zero (`Int.tdiv`), which cannot overflow. -/
def write (f32multi : Int → Int → Int) (s : LASwriteItemCompressed_GPSTIME11_v1)
    (item : Bytes) : Prog LASwriteItemCompressed_GPSTIME11_v1 :=
  let this_gpstime := getI64 item 0
  if s.last_gpstime_diff = 0 then
    -- the last integer difference was zero
    if this_gpstime = s.last_gpstime then do
      encodeSymbol SymbolModel.m_gpstime_0diff 0
      pure s
    else
      let curr_gpstime_diff_64 := toI64 (this_gpstime - s.last_gpstime)
      let curr_gpstime_diff := toI32 curr_gpstime_diff_64
      if curr_gpstime_diff_64 = curr_gpstime_diff then do
        encodeSymbol SymbolModel.m_gpstime_0diff 1
        compress_ IC.ic_gpstime 0 curr_gpstime_diff 0
        pure { s with last_gpstime_diff := curr_gpstime_diff, last_gpstime := this_gpstime }
      else do
        encodeSymbol SymbolModel.m_gpstime_0diff 2
        writeInt64 this_gpstime
        pure { s with last_gpstime := this_gpstime }
  else
    -- the last integer difference was not zero
    if this_gpstime = s.last_gpstime then do
      encodeSymbol SymbolModel.m_gpstime_multi (LASZIP_GPSTIME_MULTIMAX - 1)
      pure s
    else
      let curr_gpstime_diff_64 := toI64 (this_gpstime - s.last_gpstime)
      let curr_gpstime_diff := toI32 curr_gpstime_diff_64
      if curr_gpstime_diff_64 = curr_gpstime_diff then do
        -- compute multiplier between current and last integer difference
        let multi := limit (f32multi curr_gpstime_diff s.last_gpstime_diff)
        -- compress this multiplier
        encodeSymbol SymbolModel.m_gpstime_multi (toU32 multi)
        -- compress the residual curr_gpstime_diff in dependance on the multiplier
        if multi = 1 then do
          compress_ IC.ic_gpstime s.last_gpstime_diff curr_gpstime_diff 1
          pure { s with last_gpstime_diff := curr_gpstime_diff, multi_extreme_counter := 0,
                        last_gpstime := this_gpstime }
        else if multi = 0 then do
          compress_ IC.ic_gpstime (Int.tdiv s.last_gpstime_diff 4) curr_gpstime_diff 2
          pure { extreme s curr_gpstime_diff with last_gpstime := this_gpstime }
        else if multi < 10 then do
          compress_ IC.ic_gpstime (toI32 (multi * s.last_gpstime_diff)) curr_gpstime_diff 3
          pure { s with last_gpstime := this_gpstime }
        else if multi < 50 then do
          compress_ IC.ic_gpstime (toI32 (multi * s.last_gpstime_diff)) curr_gpstime_diff 4
          pure { s with last_gpstime := this_gpstime }
        else do
          compress_ IC.ic_gpstime (toI32 (multi * s.last_gpstime_diff)) curr_gpstime_diff 5
          if multi = (LASZIP_GPSTIME_MULTIMAX : Int) - 3 then
            pure { extreme s curr_gpstime_diff with last_gpstime := this_gpstime }
          else
            pure { s with last_gpstime := this_gpstime }
      else do
        encodeSymbol SymbolModel.m_gpstime_multi (LASZIP_GPSTIME_MULTIMAX - 2)
        writeInt64 this_gpstime
        pure { s with last_gpstime := this_gpstime }

/-- The writer after `write` has been called on each item of a list, in order. -/
def writes (f32multi : Int → Int → Int) (getK : IC → Int → Int → Nat → Nat) :
    LASwriteItemCompressed_GPSTIME11_v1 → List Bytes → LASwriteItemCompressed_GPSTIME11_v1
  | s, [] => s
  | s, item :: items => writes f32multi getK ((write f32multi s item).calls getK).2 items

end LASwriteItemCompressed_GPSTIME11_v1

/-! ## LASwriteItemCompressed_RGB12_v1 -/

/-- The members of `LASwriteItemCompressed_RGB12_v1`. -/
structure LASwriteItemCompressed_RGB12_v1 where
  last_item : Bytes

namespace LASwriteItemCompressed_RGB12_v1

/-- The integer compressor created by the constructor: `ic_rgb`, 8 bits, 6 contexts. -/
def compressors (bits_high : Nat) : IC → ArithmeticIntegerCompressor :=
  fun _ => IntegerCompressor 8 6 bits_high

def init (item : Bytes) : LASwriteItemCompressed_RGB12_v1 :=
  { last_item := memcpy (fun _ => 0) item 6 }

/-- The value of `sym` in `write`; `((U16*)item)[j]` is the `U16` at offset `2 * j`. -/
def sym (last_item item : Bytes) : Nat :=
  let sym := (if getU16 last_item 0 &&& 0x00FF ≠ getU16 item 0 &&& 0x00FF then 1 else 0) <<< 0
  let sym := sym |||
    ((if getU16 last_item 0 &&& 0xFF00 ≠ getU16 item 0 &&& 0xFF00 then 1 else 0) <<< 1)
  let sym := sym |||
    ((if getU16 last_item 2 &&& 0x00FF ≠ getU16 item 2 &&& 0x00FF then 1 else 0) <<< 2)
  let sym := sym |||
    ((if getU16 last_item 2 &&& 0xFF00 ≠ getU16 item 2 &&& 0xFF00 then 1 else 0) <<< 3)
  let sym := sym |||
    ((if getU16 last_item 4 &&& 0x00FF ≠ getU16 item 4 &&& 0x00FF then 1 else 0) <<< 4)
  let sym := sym |||
    ((if getU16 last_item 4 &&& 0xFF00 ≠ getU16 item 4 &&& 0xFF00 then 1 else 0) <<< 5)
  sym

def write (s : LASwriteItemCompressed_RGB12_v1) (item : Bytes) :
    Prog LASwriteItemCompressed_RGB12_v1 := do
  let sym := sym s.last_item item
  encodeSymbol SymbolModel.m_byte_used sym
  Prog.when (sym &&& (1 <<< 0) ≠ 0)
    (compress_ IC.ic_rgb ((getU16 s.last_item 0 &&& 255 : Nat) : Int)
      ((getU16 item 0 &&& 255 : Nat) : Int) 0)
  Prog.when (sym &&& (1 <<< 1) ≠ 0)
    (compress_ IC.ic_rgb ((getU16 s.last_item 0 >>> 8 : Nat) : Int)
      ((getU16 item 0 >>> 8 : Nat) : Int) 1)
  Prog.when (sym &&& (1 <<< 2) ≠ 0)
    (compress_ IC.ic_rgb ((getU16 s.last_item 2 &&& 255 : Nat) : Int)
      ((getU16 item 2 &&& 255 : Nat) : Int) 2)
  Prog.when (sym &&& (1 <<< 3) ≠ 0)
    (compress_ IC.ic_rgb ((getU16 s.last_item 2 >>> 8 : Nat) : Int)
      ((getU16 item 2 >>> 8 : Nat) : Int) 3)
  Prog.when (sym &&& (1 <<< 4) ≠ 0)
    (compress_ IC.ic_rgb ((getU16 s.last_item 4 &&& 255 : Nat) : Int)
      ((getU16 item 4 &&& 255 : Nat) : Int) 4)
  Prog.when (sym &&& (1 <<< 5) ≠ 0)
    (compress_ IC.ic_rgb ((getU16 s.last_item 4 >>> 8 : Nat) : Int)
      ((getU16 item 4 >>> 8 : Nat) : Int) 5)
  pure { s with last_item := memcpy s.last_item item 6 }

end LASwriteItemCompressed_RGB12_v1

/-! ## LASwriteItemCompressed_WAVEPACKET13_v1 -/

/-- The fields of `struct LASwavepacket13` read through the cast
`(LASwavepacket13*)item`; of the unions `I32F32` the member `i32` is read. -/
structure LASwavepacket13 where
  offset : Nat
  packet_size : Nat
  return_point : Int
  x : Int
  y : Int
  z : Int

/-- The cast `(LASwavepacket13*)item`: the 28 bytes as a little-endian record. -/
def asLASwavepacket13 (item : Bytes) : LASwavepacket13 :=
  { offset := getU64 item 0
    packet_size := getU32 item 8
    return_point := getI32 item 12
    x := getI32 item 16
    y := getI32 item 20
    z := getI32 item 24 }

/-- The members of `LASwriteItemCompressed_WAVEPACKET13_v1` that `write` reads and
updates; `last_diff_32` is an `I32`. -/
structure LASwriteItemCompressed_WAVEPACKET13_v1 where
  last_item : Bytes
  last_diff_32 : Int

namespace LASwriteItemCompressed_WAVEPACKET13_v1

/-- The integer compressors created by the constructor: `ic_offset_diff`,
`ic_packet_size` and `ic_return_point` (32 bits), `ic_xyz` (32 bits, 3 contexts); a
compressor created without a number of contexts has one. -/
def compressors (bits_high : Nat) : IC → ArithmeticIntegerCompressor
  | IC.ic_offset_diff => IntegerCompressor 32 1 bits_high
  | IC.ic_packet_size => IntegerCompressor 32 1 bits_high
  | IC.ic_return_point => IntegerCompressor 32 1 bits_high
  | IC.ic_xyz => IntegerCompressor 32 3 bits_high
  | _ => IntegerCompressor 32 1 bits_high

def init (item : Bytes) : LASwriteItemCompressed_WAVEPACKET13_v1 :=
  let item : Bytes := fun i => item (i + 1)
  { last_diff_32 := 0
    last_item := memcpy (fun _ => 0) item 28 }

def write (s : LASwriteItemCompressed_WAVEPACKET13_v1) (item0 : Bytes) :
    Prog LASwriteItemCompressed_WAVEPACKET13_v1 := do
  encodeSymbol SymbolModel.m_packet_index (item0 0).val
  -- the statement `item++`
  let item : Bytes := fun i => item0 (i + 1)
  -- calculate the difference between the two offsets
  let curr_diff_64 := toI64 (toU64
    ((asLASwavepacket13 item).offset - (asLASwavepacket13 s.last_item).offset : Int))
  let curr_diff_32 := toI32 curr_diff_64
  let last_diff_32 ←
    (if curr_diff_64 = curr_diff_32 then do
      encodeBit BitModel.m_small_offset_diff 1
      compress_ IC.ic_offset_diff s.last_diff_32 curr_diff_32 0
      pure curr_diff_32
    else do
      encodeBit BitModel.m_small_offset_diff 0
      writeInt64 (asLASwavepacket13 item).offset
      pure s.last_diff_32)
  compress_ IC.ic_packet_size (toI32 (asLASwavepacket13 s.last_item).packet_size)
    (toI32 (asLASwavepacket13 item).packet_size) 0
  compress_ IC.ic_return_point (asLASwavepacket13 s.last_item).return_point
    (asLASwavepacket13 item).return_point 0
  compress_ IC.ic_xyz (asLASwavepacket13 s.last_item).x (asLASwavepacket13 item).x 0
  compress_ IC.ic_xyz (asLASwavepacket13 s.last_item).y (asLASwavepacket13 item).y 1
  compress_ IC.ic_xyz (asLASwavepacket13 s.last_item).z (asLASwavepacket13 item).z 2
  pure { last_diff_32 := last_diff_32, last_item := memcpy s.last_item item 28 }

end LASwriteItemCompressed_WAVEPACKET13_v1

/-! ## Scenario streams of the specification -/

/-- Scenario of the specification (monotone-x stream), not a function of the sources:
point `i` of the stream with `x = d * i` (an `I32`, little-endian in bytes 0 to 3) and
all other bytes 0, so that `y = 0`, `z = 0`, the scan direction flag is 0 and all other
fields are constant. -/
def monotone_x_point (d : Int) (i : Nat) : Bytes := fun j =>
  if j < 4 then Fin.ofNat (toU32 (d * i) / 256 ^ j % 256) else 0

/-! ## Machine integers: basic facts -/

theorem toI32_of_mem {x : Int} (h1 : -2147483648 ≤ x) (h2 : x < 2147483648) : toI32 x = x := by
  unfold toI32; omega

theorem toI32_lower (x : Int) : -2147483648 ≤ toI32 x := by
  unfold toI32; omega

theorem toI32_upper (x : Int) : toI32 x < 2147483648 := by
  unfold toI32; omega

theorem toU32_of_mem {x : Int} (h1 : 0 ≤ x) (h2 : x < 4294967296) : (toU32 x : Int) = x := by
  unfold toU32; omega

theorem toU32_natCast {n : Nat} (h : n < 4294967296) : toU32 (n : Int) = n := by
  unfold toU32; omega

theorem two_pow_le_of_le {a b : Nat} (h : a ≤ b) : 2 ^ a ≤ 2 ^ b :=
  Nat.pow_le_pow_right (by decide) h

theorem two_pow_pred {k : Nat} (h : 1 ≤ k) : 2 ^ k = 2 * 2 ^ (k - 1) := by
  obtain ⟨j, rfl⟩ : ∃ j, k = j + 1 := ⟨k - 1, by omega⟩
  simp [pow_succ, Nat.mul_comm]

theorem two_pow_le_31 {k : Nat} (h : k ≤ 31) : 2 ^ k ≤ 2147483648 := by
  have := two_pow_le_of_le h
  simpa using this

theorem two_pow_pos (k : Nat) : 0 < 2 ^ k := Nat.pos_of_ne_zero (by simp)

theorem shl32_one {k : Nat} (h : k ≤ 30) : shl32 1 k = (2 ^ k : Nat) := by
  have h1 : 2 ^ k ≤ 2 ^ 30 := two_pow_le_of_le h
  unfold shl32
  rw [one_mul]
  generalize 2 ^ k = P at *
  apply toI32_of_mem <;> omega

theorem shl32_one_sub_one {k : Nat} (h : k ≤ 31) :
    toI32 (shl32 1 k - 1) = ((2 ^ k : Nat) : Int) - 1 := by
  have h1 := two_pow_le_31 h
  have h0 := two_pow_pos k
  unfold shl32
  rw [one_mul]
  generalize 2 ^ k = P at *
  unfold toI32; omega

/-! ## The magnitude loop -/

theorem magnitudeLoop_zero (fuel k : Nat) : magnitudeLoop fuel 0 k = some (0, k) := by
  cases fuel <;> simp [magnitudeLoop]

theorem natCast_shiftRight_one (n : Nat) : ((n : Int) >>> (1 : Nat)) = ((n / 2 : Nat) : Int) := by
  rw [Int.shiftRight_eq_div_pow]
  norm_num

/-- On a non-negative `c1` below `2^m` the loop ends within `m` iterations and has
counted the bit length of `c1`. -/
theorem magnitudeLoop_nonneg (m : Nat) : ∀ (fuel n k0 : Nat), m ≤ fuel → n < 2 ^ m →
    k0 + m < 4294967296 →
    ∃ j, j ≤ m ∧ magnitudeLoop fuel (n : Int) k0 = some (0, k0 + j) ∧ n < 2 ^ j ∧
      (j = 0 ∨ 2 ^ (j - 1) ≤ n) := by
  induction m with
  | zero =>
    intro fuel n k0 _ hn _
    have hn0 : n = 0 := by simpa using hn
    subst hn0
    exact ⟨0, le_refl _, by simpa using magnitudeLoop_zero fuel k0, by simp, Or.inl rfl⟩
  | succ m ih =>
    intro fuel n k0 hf hn hk
    obtain ⟨f, rfl⟩ : ∃ f, fuel = f + 1 := ⟨fuel - 1, by omega⟩
    by_cases hn0 : n = 0
    · subst hn0
      exact ⟨0, by omega, by simpa using magnitudeLoop_zero (f + 1) k0, by simp, Or.inl rfl⟩
    · have hhalf : n / 2 < 2 ^ m := by
        rw [pow_succ] at hn
        omega
      obtain ⟨j, hj, hloop, hlt, hge⟩ := ih f (n / 2) (k0 + 1) (by omega) hhalf (by omega)
      refine ⟨j + 1, by omega, ?_, ?_, Or.inr ?_⟩
      · have hne : (n : Int) ≠ 0 := by exact_mod_cast hn0
        rw [magnitudeLoop, if_neg hne, natCast_shiftRight_one,
          Nat.mod_eq_of_lt (by omega), hloop]
        simp [Nat.add_assoc, Nat.add_comm 1 j]
      · rw [pow_succ]; omega
      · rcases hge with h0 | hge
        · subst h0; simp; omega
        · have := two_pow_pred (show 1 ≤ j by
            rcases Nat.eq_zero_or_pos j with h | h
            · subst h; simp at hge hlt; omega
            · exact h)
          simp only [Nat.add_sub_cancel]
          omega

/-- The count of the loop is the bit length. -/
theorem size_eq_of_bounds {n j : Nat} (hlt : n < 2 ^ j) (hge : j = 0 ∨ 2 ^ (j - 1) ≤ n) :
    Nat.size n = j := by
  apply le_antisymm
  · exact Nat.size_le.mpr hlt
  · rcases hge with h | h
    · omega
    · have : j - 1 < Nat.size n := Nat.lt_size.mpr h
      omega

/-- On a negative `c1` the loop never ends: the arithmetic shift keeps the sign. -/
theorem magnitudeLoop_neg (fuel : Nat) : ∀ (c1 : Int) (k : Nat), c1 < 0 →
    magnitudeLoop fuel c1 k = none := by
  induction fuel with
  | zero =>
    intro c1 k h
    have : c1 ≠ 0 := by omega
    simp [magnitudeLoop, this]
  | succ f ih =>
    intro c1 k h
    have hne : c1 ≠ 0 := by omega
    rw [magnitudeLoop, if_neg hne]
    apply ih
    rw [Int.shiftRight_eq_div_pow]
    norm_num
    omega

/-! ## Bit operations on non-negative values -/

theorem toI32_toU32 {x : Int} (h1 : 0 ≤ x) (h2 : x < 2147483648) :
    toI32 ((toU32 x : Nat) : Int) = x := by
  unfold toI32 toU32; omega

theorem land_mask (t k1 : Nat) (hk1 : k1 ≤ 31) :
    Int.land (t : Int) (toI32 (shl32 1 k1 - 1)) = ((t % 2 ^ k1 : Nat) : Int) := by
  rw [shl32_one_sub_one hk1]
  have h0 := two_pow_pos k1
  have : ((2 ^ k1 : Nat) : Int) - 1 = ((2 ^ k1 - 1 : Nat) : Int) := by omega
  rw [this, ← Nat.and_pow_two_sub_one_eq_mod]
  rfl

theorem shiftRight_natCast (t k1 : Nat) : ((t : Int) >>> k1) = ((t / 2 ^ k1 : Nat) : Int) := by
  rw [Int.shiftRight_eq_div_pow]
  norm_cast

theorem lor_join (hi lo k1 : Nat) (hlo : lo < 2 ^ k1) (h : hi * 2 ^ k1 + lo < 2147483648) :
    Int.lor (shl32 (hi : Int) k1) (lo : Int) = ((hi * 2 ^ k1 + lo : Nat) : Int) := by
  have hs : shl32 (hi : Int) k1 = ((2 ^ k1 * hi : Nat) : Int) := by
    unfold shl32
    have : (hi : Int) * ((2 ^ k1 : Nat) : Int) = ((2 ^ k1 * hi : Nat) : Int) := by
      push_cast; ring
    rw [this]
    apply toI32_of_mem
    · omega
    · have : 2 ^ k1 * hi = hi * 2 ^ k1 := Nat.mul_comm _ _
      omega
  rw [hs, Nat.mul_comm hi, Nat.mul_add_lt_is_or hlo]
  rfl

/-! ## writeCorrector and readCorrector -/

/-- For every corrector other than `I32_MIN`, `writeCorrector` returns, exposes the
bit length of `abs_adj` (at most 31), and `readCorrector` gets the corrector back from
the events (whatever follows them in the input). -/
theorem readCorrector_writeCorrector (fuel : Nat) (s d : ArithmeticIntegerCompressor)
    (c : Int) (ctx : Nat) (rest : List Event) (hf : 31 ≤ fuel)
    (hb : d.bits_high = s.bits_high) (h1 : -2147483648 < c) (h2 : c < 2147483648) :
    bitLength c ≤ 31 ∧
    ∃ ev, writeCorrector fuel s c ctx = some (ev, { s with k := bitLength c }) ∧
      readCorrector d ctx (ev ++ rest) = some (c, { d with k := bitLength c }, rest) := by
  obtain ⟨n, hn⟩ : ∃ n : Nat, (n : Int) = abs_adj c := by
    refine ⟨(abs_adj c).toNat, ?_⟩
    unfold abs_adj
    split <;> omega
  have hn31 : n < 2 ^ 31 := by
    unfold abs_adj at hn
    norm_num
    split at hn <;> omega
  have hc1 : (if c ≤ 0 then toI32 (-c) else toI32 (c - 1)) = (n : Int) := by
    unfold abs_adj at hn
    split at hn <;> rename_i hc
    · rw [if_pos hc, toI32_of_mem (by omega) (by omega)]; omega
    · rw [if_neg hc, toI32_of_mem (by omega) (by omega)]; omega
  obtain ⟨j, hj, hloop, hlt, hge⟩ := magnitudeLoop_nonneg 31 fuel n 0 hf hn31 (by norm_num)
  have hsize : bitLength c = j := by
    unfold bitLength
    rw [← hn]
    exact size_eq_of_bounds hlt hge
  rw [hsize]
  refine ⟨hj, ?_⟩
  rw [Nat.zero_add] at hloop
  unfold writeCorrector
  simp only [hc1, hloop]
  by_cases hj0 : j = 0
  · -- the corrector is 0 or 1
    subst hj0
    have hn0 : n = 0 := by simpa using hlt
    subst hn0
    have hc01 : c = 0 ∨ c = 1 := by
      unfold abs_adj at hn
      split at hn <;> omega
    refine ⟨_, rfl, ?_⟩
    rcases hc01 with rfl | rfl <;> simp [readCorrector, toU32, toI32]
  · have hj1 : 1 ≤ j := by omega
    have hP := two_pow_pred hj1
    have hP31 := two_pow_le_31 hj
    have hH : 2 ^ (j - 1) ≤ n := by
      rcases hge with h | h
      · exact absurd h hj0
      · exact h
    -- the translated corrector, a natural below 2^j
    obtain ⟨t, ht, htlt, htc⟩ : ∃ t : Nat,
        (if c < 0 then toI32 (c + toI32 (shl32 1 j - 1)) else toI32 (c - 1)) = (t : Int) ∧
        t < 2 ^ j ∧
        c = (if (t : Int) ≥ ((2 ^ (j - 1) : Nat) : Int) then (t : Int) + 1
             else (t : Int) - (((2 ^ j : Nat) : Int) - 1)) := by
      rw [shl32_one_sub_one hj]
      unfold abs_adj at hn
      generalize 2 ^ j = P at *
      generalize 2 ^ (j - 1) = H at *
      by_cases hneg : c < 0
      · refine ⟨(c + ((P : Int) - 1)).toNat, ?_, ?_, ?_⟩
        · rw [if_pos hneg, toI32_of_mem (by split at hn <;> omega) (by split at hn <;> omega)]
          split at hn <;> omega
        · split at hn <;> omega
        · split at hn <;> split <;> omega
      · refine ⟨(c - 1).toNat, ?_, ?_, ?_⟩
        · rw [if_neg hneg, toI32_of_mem (by omega) (by omega)]
          split at hn <;> omega
        · split at hn <;> omega
        · split at hn <;> split <;> omega
    have hback : (if (t : Int) ≥ shl32 1 (j - 1) then toI32 ((t : Int) + 1)
        else toI32 ((t : Int) - toI32 (shl32 1 j - 1))) = c := by
      rw [shl32_one (by omega), shl32_one_sub_one hj, htc]
      generalize 2 ^ j = P at *
      generalize 2 ^ (j - 1) = H at *
      split
      · apply toI32_of_mem <;> omega
      · apply toI32_of_mem <;> omega
    simp only [ht, ne_eq, hj0, not_false_eq_true, if_true]
    by_cases hhigh : j ≤ s.bits_high
    · refine ⟨_, by rw [if_pos hhigh], ?_⟩
      have ht31 : (t : Int) < 2147483648 := by omega
      simp [readCorrector, hb, hhigh, hj0, toI32_toU32 (Int.natCast_nonneg t) ht31, hback]
    · refine ⟨_, by rw [if_neg hhigh], ?_⟩
      have hk1 : j - s.bits_high ≤ 31 := by omega
      have hlo : t % 2 ^ (j - s.bits_high) < 2 ^ (j - s.bits_high) :=
        Nat.mod_lt _ (two_pow_pos _)
      have hdm : t / 2 ^ (j - s.bits_high) * 2 ^ (j - s.bits_high)
          + t % 2 ^ (j - s.bits_high) = t := Nat.div_add_mod' _ _
      have hhi31 : t / 2 ^ (j - s.bits_high) < 2147483648 := by
        have := Nat.div_le_self t (2 ^ (j - s.bits_high))
        omega
      have hlo31 : t % 2 ^ (j - s.bits_high) < 2147483648 := by
        have := Nat.mod_le t (2 ^ (j - s.bits_high))
        omega
      simp only [land_mask t _ hk1, shiftRight_natCast]
      simp only [readCorrector, hb, hhigh, hj0, List.cons_append, List.nil_append,
        ne_eq, not_true_eq_false, not_false_eq_true, if_false, if_true, or_self,
        toI32_toU32 (Int.natCast_nonneg _) (Int.ofNat_lt.mpr hhi31),
        toI32_toU32 (Int.natCast_nonneg _) (Int.ofNat_lt.mpr hlo31)]
      rw [lor_join _ _ _ hlo (by omega), hdm, hback]

/-! ## The setup functions -/

/-- A `U32` is zero after at most 32 shifts: the bound 32 the setup functions give
`rangeLoop` is never what ends the loop. -/
theorem rangeLoop_exit (fuel : Nat) : ∀ (range corr_bits : Nat), range < 2 ^ fuel →
    (rangeLoop fuel range corr_bits).1 = 0 := by
  induction fuel with
  | zero =>
    intro range corr_bits h
    have : range = 0 := by simpa using h
    simp [rangeLoop, this]
  | succ f ih =>
    intro range corr_bits h
    rw [rangeLoop]
    split
    · assumption
    · apply ih
      rw [Nat.shiftRight_eq_div_pow, pow_one]
      rw [pow_succ] at h
      omega

theorem shlU32_one {k : Nat} (h : k ≤ 31) : shlU32 1 k = 2 ^ k := by
  have := two_pow_le_31 h
  unfold shlU32
  omega

theorem toU32_shl32_one {k : Nat} (h : k ≤ 31) : toU32 (shl32 1 k) = 2 ^ k := by
  have := two_pow_le_31 h
  have := two_pow_pos k
  unfold shl32 toU32 toI32
  rw [one_mul]
  generalize 2 ^ k = P at *
  omega

/-- The interval of correctors a setup derives from its range, whichever branch is
taken (the statement is the same for `SetupDecompressor`, see `SetupDecompressor_corr`). -/
theorem SetupCompressor_corr (s0 : ArithmeticIntegerCompressor) (contexts bits_high : Nat)
    (hr : s0.range < 4294967296) :
    (SetupCompressor s0 contexts bits_high).bits_high = bits_high ∧
    (SetupCompressor s0 contexts bits_high).corr_range < 4294967296 ∧
    (((SetupCompressor s0 contexts bits_high).corr_range = 0 ∧
        (SetupCompressor s0 contexts bits_high).corr_min = I32_MIN ∧
        (SetupCompressor s0 contexts bits_high).corr_max = I32_MAX) ∨
      (0 < (SetupCompressor s0 contexts bits_high).corr_range ∧
        (SetupCompressor s0 contexts bits_high).corr_min =
          -(((SetupCompressor s0 contexts bits_high).corr_range / 2 : Nat) : Int) ∧
        (SetupCompressor s0 contexts bits_high).corr_max =
          (SetupCompressor s0 contexts bits_high).corr_min +
            (SetupCompressor s0 contexts bits_high).corr_range - 1)) := by
  by_cases hrange : s0.range = 0
  · by_cases hbits : ¬s0.bits = 0 ∧ s0.bits < 32
    · have h31 : s0.bits ≤ 31 := by omega
      have hP := two_pow_le_31 h31
      have hP1 : 2 ^ 1 ≤ 2 ^ s0.bits := two_pow_le_of_le (by omega)
      simp only [SetupCompressor, hrange, ne_eq, not_true_eq_false, if_false, hbits.1, hbits.2,
        not_false_eq_true, and_self, if_true, shlU32_one h31]
      generalize 2 ^ s0.bits = P at *
      refine ⟨trivial, by omega, Or.inr ⟨by omega, ?_, ?_⟩⟩
      · unfold toI32; omega
      · unfold toI32; omega
    · simp only [SetupCompressor, hrange, ne_eq, not_true_eq_false, if_false, hbits]
      exact ⟨trivial, by norm_num, Or.inl ⟨trivial, trivial, trivial⟩⟩
  · simp only [SetupCompressor, ne_eq, hrange, not_false_eq_true, if_true]
    refine ⟨trivial, hr, Or.inr ⟨by omega, ?_, ?_⟩⟩
    · unfold toI32; omega
    · unfold toI32; omega

theorem SetupDecompressor_corr (s0 : ArithmeticIntegerCompressor) (contexts bits_high : Nat) :
    (SetupDecompressor s0 contexts bits_high).bits_high =
      (SetupCompressor s0 contexts bits_high).bits_high ∧
    (SetupDecompressor s0 contexts bits_high).corr_bits =
      (SetupCompressor s0 contexts bits_high).corr_bits ∧
    (SetupDecompressor s0 contexts bits_high).corr_range =
      (SetupCompressor s0 contexts bits_high).corr_range ∧
    (SetupDecompressor s0 contexts bits_high).corr_min =
      (SetupCompressor s0 contexts bits_high).corr_min ∧
    (SetupDecompressor s0 contexts bits_high).corr_max =
      (SetupCompressor s0 contexts bits_high).corr_max := by
  by_cases hrange : s0.range = 0
  · by_cases hbits : ¬s0.bits = 0 ∧ s0.bits < 32
    · simp only [SetupDecompressor, SetupCompressor, hrange, ne_eq, not_true_eq_false, if_false,
        hbits.1, hbits.2, not_false_eq_true, and_self, if_true]
    · simp only [SetupDecompressor, SetupCompressor, hrange, ne_eq, not_true_eq_false, if_false,
        hbits, and_self]
  · simp only [SetupDecompressor, SetupCompressor, ne_eq, hrange, not_false_eq_true, if_true,
      and_self]

/-! ## Folding and unfolding the corrector -/

/-- With a non-zero range of at most `2^31` (and at least the interval the setup derives
from it), a difference of absolute value below the range is folded into the interval by
the single fold of `Compress`. -/
theorem foldCorrector_spec (s : ArithmeticIntegerCompressor) (p v : Int)
    (hR0 : 0 < s.corr_range) (hR : s.corr_range < 4294967296)
    (hmin : s.corr_min = -((s.corr_range / 2 : Nat) : Int))
    (hmax : s.corr_max = s.corr_min + s.corr_range - 1)
    (h1 : -(s.corr_range : Int) + 1 ≤ v - p) (h2 : v - p ≤ (s.corr_range : Int) - 1)
    (h3 : -2147483648 ≤ v - p) (h4 : v - p < 2147483648) :
    s.corr_min ≤ foldCorrector s p v ∧ foldCorrector s p v ≤ s.corr_max ∧
    foldCorrector s p v =
      (if v - p < s.corr_min then v - p + s.corr_range
       else if v - p > s.corr_max then v - p - s.corr_range else v - p) := by
  unfold foldCorrector
  rw [toI32_of_mem h3 h4, hmax, hmin]
  generalize s.corr_range = R at *
  simp only []
  split
  · rw [toI32_of_mem (by omega) (by omega)]; omega
  · split
    · rw [toI32_of_mem (by omega) (by omega)]; omega
    · omega

/-- When `pred + corr` lies in `[-range, 2 range)` and either does not overflow or the
range is `2^31`, the single fold of `Decompress` yields the residue of `pred + corr`
modulo the range. -/
theorem unfoldCorrector_spec (s : ArithmeticIntegerCompressor) (p corr : Int)
    (hR0 : 0 < s.corr_range) (hR : s.corr_range ≤ 2147483648)
    (hlo : -(s.corr_range : Int) ≤ p + corr) (hhi : p + corr < 2 * (s.corr_range : Int))
    (hov : p + corr < 2147483648 ∨ s.corr_range = 2147483648) :
    unfoldCorrector s p corr = (p + corr) % (s.corr_range : Int) := by
  unfold unfoldCorrector
  generalize s.corr_range = R at *
  have hR' : (0 : Int) < R := by omega
  have h1 := Int.emod_nonneg (p + corr) (ne_of_gt hR')
  have h2 := Int.emod_lt_of_pos (p + corr) hR'
  have h3 := Int.emod_add_ediv (p + corr) R
  have hq0 : (p + corr) / (R : Int) = 0 ∨ (p + corr) / (R : Int) = -1 ∨
      (p + corr) / (R : Int) = 1 := by
    have a1 : -1 ≤ (p + corr) / (R : Int) := by
      rw [Int.le_ediv_iff_mul_le hR']; omega
    have a2 : (p + corr) / (R : Int) < 2 := by
      rw [Int.ediv_lt_iff_lt_mul hR']; omega
    omega
  have hq : (p + corr) % (R : Int) = p + corr ∨ (p + corr) % (R : Int) = p + corr + R ∨
      (p + corr) % (R : Int) = p + corr - R := by
    rcases hq0 with h | h | h <;> rw [h] at h3 <;> omega
  simp only []
  unfold toI32 toU32
  split
  · omega
  · split <;> omega

/-! ## Compress and Decompress -/

theorem foldCorrector_lower (s : ArithmeticIntegerCompressor) (p v : Int) :
    -2147483648 ≤ foldCorrector s p v := by
  unfold foldCorrector
  simp only []
  split
  · exact toI32_lower _
  · split
    · exact toI32_lower _
    · exact toI32_lower _

theorem foldCorrector_upper (s : ArithmeticIntegerCompressor) (p v : Int) :
    foldCorrector s p v < 2147483648 := by
  unfold foldCorrector
  simp only []
  split
  · exact toI32_upper _
  · split
    · exact toI32_upper _
    · exact toI32_upper _

/-- Whenever the folded corrector is not `I32_MIN`, `Compress` returns and `Decompress`,
reading the events, unfolds the same corrector again. -/
theorem Decompress_Compress (fuel : Nat) (e d : ArithmeticIntegerCompressor) (p v : Int)
    (ctx : Nat) (rest : List Event) (hf : 31 ≤ fuel) (hb : d.bits_high = e.bits_high)
    (hne : foldCorrector e p v ≠ -2147483648) :
    bitLength (foldCorrector e p v) ≤ 31 ∧
    ∃ ev, Compress fuel e p v ctx = some (ev, { e with k := bitLength (foldCorrector e p v) }) ∧
      Decompress d p ctx (ev ++ rest) =
        some (unfoldCorrector d p (foldCorrector e p v),
              { d with k := bitLength (foldCorrector e p v) }, rest) := by
  have h1 := foldCorrector_lower e p v
  have h2 := foldCorrector_upper e p v
  obtain ⟨hk, ev, hw, hr⟩ := readCorrector_writeCorrector fuel e d (foldCorrector e p v) ctx rest
    hf hb (by omega) h2
  refine ⟨hk, ev, hw, ?_⟩
  unfold Decompress
  rw [hr]
  rfl

/-- The parameters of a setup with `B` bits, `1 ≤ B ≤ 31`. -/
theorem SetupCompressor_bits (s0 : ArithmeticIntegerCompressor) (B contexts bits_high : Nat)
    (hrange : s0.range = 0) (hbits : s0.bits = B) (hB1 : 1 ≤ B) (hB31 : B ≤ 31) :
    (SetupCompressor s0 contexts bits_high).corr_bits = B ∧
    (SetupCompressor s0 contexts bits_high).corr_range = 2 ^ B ∧
    (SetupCompressor s0 contexts bits_high).corr_min = -((2 ^ (B - 1) : Nat) : Int) ∧
    (SetupCompressor s0 contexts bits_high).corr_max = ((2 ^ (B - 1) : Nat) : Int) - 1 := by
  subst hbits
  have hb0 : ¬s0.bits = 0 := by omega
  have hb32 : s0.bits < 32 := by omega
  have hP := two_pow_le_31 hB31
  have hH := two_pow_pred hB1
  simp only [SetupCompressor, hrange, ne_eq, not_true_eq_false, if_false, hb0, hb32,
    not_false_eq_true, and_self, if_true, shlU32_one hB31, true_and]
  generalize 2 ^ s0.bits = P at *
  generalize 2 ^ (s0.bits - 1) = H at *
  constructor
  · unfold toI32; omega
  · unfold toI32; omega

/-- The parameters of a setup with 32 bits (or with `bits = 0`). -/
theorem SetupCompressor_32 (s0 : ArithmeticIntegerCompressor) (contexts bits_high : Nat)
    (hrange : s0.range = 0) (hbits : s0.bits = 0 ∨ 32 ≤ s0.bits) :
    (SetupCompressor s0 contexts bits_high).corr_bits = 32 ∧
    (SetupCompressor s0 contexts bits_high).corr_range = 0 ∧
    (SetupCompressor s0 contexts bits_high).corr_min = I32_MIN ∧
    (SetupCompressor s0 contexts bits_high).corr_max = I32_MAX := by
  have hb : ¬(¬s0.bits = 0 ∧ s0.bits < 32) := by omega
  simp only [SetupCompressor, hrange, ne_eq, not_true_eq_false, if_false, hb, and_self]

/-- In the 32-bit mode nothing is folded: the corrector is the wrapped difference, and
unfolding adds it back with wraparound. -/
theorem fold_unfold_32 (e d : ArithmeticIntegerCompressor) (p v : Int)
    (hmin : e.corr_min = I32_MIN) (hmax : e.corr_max = I32_MAX) (hR : d.corr_range = 0)
    (hv1 : I32_MIN ≤ v) (hv2 : v ≤ I32_MAX) :
    foldCorrector e p v = toI32 (v - p) ∧
    unfoldCorrector d p (foldCorrector e p v) = v := by
  have hfold : foldCorrector e p v = toI32 (v - p) := by
    have h1 := toI32_lower (v - p)
    have h2 := toI32_upper (v - p)
    unfold foldCorrector
    simp only [hmin, hmax, I32_MIN, I32_MAX]
    rw [if_neg (by omega), if_neg (by omega)]
  refine ⟨hfold, ?_⟩
  rw [hfold]
  unfold unfoldCorrector
  simp only [hR, I32_MIN, I32_MAX] at *
  unfold toI32 toU32
  split
  · omega
  · split <;> omega

/-- With a power-of-two range `2^B`, `B ≤ 31`, the interval of the setup and a difference
of absolute value below the range: what `Decompress` unfolds from the folded corrector
is the residue of `real` modulo the range, provided `real` lies in `[-2^(B-1), 2^B)` and
is non-negative unless `pred` is at least `-2^(B-1)`. -/
theorem fold_unfold_bits (e d : ArithmeticIntegerCompressor) (B : Nat) (p v : Int)
    (hB1 : 1 ≤ B) (hB31 : B ≤ 31) (hRe : e.corr_range = 2 ^ B) (hRd : d.corr_range = 2 ^ B)
    (hmin : e.corr_min = -((2 ^ (B - 1) : Nat) : Int))
    (hmax : e.corr_max = ((2 ^ (B - 1) : Nat) : Int) - 1)
    (h1 : -((2 ^ B : Nat) : Int) + 1 ≤ v - p) (h2 : v - p ≤ ((2 ^ B : Nat) : Int) - 1)
    (hv1 : -((2 ^ (B - 1) : Nat) : Int) ≤ v) (hv2 : v < ((2 ^ B : Nat) : Int))
    (hvp : 0 ≤ v ∨ -((2 ^ (B - 1) : Nat) : Int) ≤ p) :
    e.corr_min ≤ foldCorrector e p v ∧ foldCorrector e p v ≤ e.corr_max ∧
    unfoldCorrector d p (foldCorrector e p v) = v % ((2 ^ B : Nat) : Int) := by
  have hP := two_pow_le_31 hB31
  have hH := two_pow_pred hB1
  have hP30 : B ≤ 30 → 2 ^ B ≤ 1073741824 := fun h => by
    have := two_pow_le_of_le h
    simpa using this
  have hP31 : B = 31 → 2 ^ B = 2147483648 := fun h => by subst h; rfl
  have hcases : B ≤ 30 ∨ B = 31 := by omega
  have hf := foldCorrector_spec e p v (by rw [hRe]; exact two_pow_pos B) (by rw [hRe]; omega)
    (by rw [hmin, hRe, hH]; congr 2; omega) (by rw [hmax, hmin, hRe, hH]; push_cast; ring)
    (by rw [hRe]; exact h1) (by rw [hRe]; exact h2) (by omega) (by omega)
  obtain ⟨hf1, hf2, hf3⟩ := hf
  refine ⟨hf1, hf2, ?_⟩
  have hq : ∃ q : Int, p + foldCorrector e p v = v + q * ((2 ^ B : Nat) : Int) ∧
      ((q = 0) ∨ (q = 1 ∧ v - p < -((2 ^ (B - 1) : Nat) : Int)) ∨
        (q = -1 ∧ v - p > ((2 ^ (B - 1) : Nat) : Int) - 1)) := by
    rw [hf3, hRe, hmin, hmax]
    split
    · exact ⟨1, by ring, Or.inr (Or.inl ⟨rfl, by assumption⟩)⟩
    · split
      · exact ⟨-1, by ring, Or.inr (Or.inr ⟨rfl, by assumption⟩)⟩
      · exact ⟨0, by ring, Or.inl rfl⟩
  obtain ⟨q, hq, hq01⟩ := hq
  rw [unfoldCorrector_spec d p _ (by rw [hRd]; exact two_pow_pos B) (by rw [hRd]; omega)
    (by rw [hRd, hq]; generalize 2 ^ B = P at *; generalize 2 ^ (B - 1) = H at *
        rcases hq01 with h | ⟨h, h'⟩ | ⟨h, h'⟩ <;> subst h <;> omega)
    (by rw [hRd, hq]; generalize 2 ^ B = P at *; generalize 2 ^ (B - 1) = H at *
        rcases hq01 with h | ⟨h, h'⟩ | ⟨h, h'⟩ <;> subst h <;> omega)
    (by rw [hRd, hq]
        rcases hcases with h | h
        · have := hP30 h
          generalize 2 ^ B = P at *; generalize 2 ^ (B - 1) = H at *
          left
          rcases hq01 with h | ⟨h, h'⟩ | ⟨h, h'⟩ <;> subst h <;> omega
        · right; exact hP31 h)]
  rw [hRd, hq, Int.add_mul_emod_self]

/-- With a power-of-two range `2^B`, `B ≤ 31`, and a value of `[0, 2^B)`: whenever the
folded corrector lies in the interval of the setup, `Decompress` unfolds the value from
it. -/
theorem fold_unfold_bits_of_mem (e d : ArithmeticIntegerCompressor) (B : Nat) (p v : Int)
    (hB1 : 1 ≤ B) (hB31 : B ≤ 31) (hRe : e.corr_range = 2 ^ B) (hRd : d.corr_range = 2 ^ B)
    (hmin : e.corr_min = -((2 ^ (B - 1) : Nat) : Int))
    (hmax : e.corr_max = ((2 ^ (B - 1) : Nat) : Int) - 1)
    (hv0 : 0 ≤ v) (hv : v < ((2 ^ B : Nat) : Int))
    (hf1 : e.corr_min ≤ foldCorrector e p v) (hf2 : foldCorrector e p v ≤ e.corr_max) :
    unfoldCorrector d p (foldCorrector e p v) = v := by
  have hP := two_pow_le_31 hB31
  have hH := two_pow_pred hB1
  have hP30 : B ≤ 30 → 2 ^ B ≤ 1073741824 := fun h => by
    have := two_pow_le_of_le h
    simpa using this
  have hP31 : B = 31 → 2 ^ B = 2147483648 := fun h => by subst h; rfl
  have hcases : B ≤ 30 ∨ B = 31 := by omega
  unfold unfoldCorrector
  unfold foldCorrector at hf1 hf2 ⊢
  simp only [hRe, hRd, hmin, hmax] at *
  generalize 2 ^ B = P at *
  generalize 2 ^ (B - 1) = H at *
  rcases hcases with h | h
  · have := hP30 h
    unfold toI32 toU32 at *
    split_ifs at hf1 hf2 ⊢ <;> omega
  · have := hP31 h
    subst this
    unfold toI32 toU32 at *
    split_ifs at hf1 hf2 ⊢ <;> omega

/-- The decoder changes no member of the object but `k`. -/
theorem readCorrector_state (s d : ArithmeticIntegerCompressor) (context : Nat)
    (input rest : List Event) (c : Int)
    (h : readCorrector s context input = some (c, d, rest)) :
    d = { s with k := d.k } := by
  unfold readCorrector at h
  split at h
  · simp only [] at h
    repeat' split at h
    all_goals first
      | (simp only [Option.some.injEq, Prod.mk.injEq] at h
         rw [← h.2.1])
      | simp at h
  · simp at h

theorem emod_residue_unique (x : Int) (R : Int) :
    (x % R - x) % R = 0 ∧ ∀ w : Int, 0 ≤ w → w < R → (w - x) % R = 0 → w = x % R := by
  constructor
  · rw [← Int.emod_eq_emod_iff_emod_sub_eq_zero, Int.emod_emod_of_dvd _ (dvd_refl _)]
  · intro w h0 h1 h
    rw [← Int.emod_eq_emod_iff_emod_sub_eq_zero, Int.emod_eq_of_lt h0 h1] at h
    exact h

/-! ## The magnitude of a corrector and the number of corrector bits -/

/-- The intervals of the specification: `k = 0` holds the correctors 0 and 1, `k ≥ 1` the
correctors of `[-(2^k - 1), -2^(k-1)]` and of `[2^(k-1) + 1, 2^k]`; the bit length of
`abs_adj` is the one `k` whose interval holds the corrector. -/
theorem bitLength_eq_iff (c : Int) (k : Nat) :
    bitLength c = k ↔
      (k = 0 ∧ (c = 0 ∨ c = 1)) ∨
      (1 ≤ k ∧ ((-(((2 ^ k : Nat) : Int) - 1) ≤ c ∧ c ≤ -((2 ^ (k - 1) : Nat) : Int)) ∨
        (((2 ^ (k - 1) : Nat) : Int) + 1 ≤ c ∧ c ≤ ((2 ^ k : Nat) : Int)))) := by
  obtain ⟨n, hn⟩ : ∃ n : Nat, (n : Int) = abs_adj c := by
    refine ⟨(abs_adj c).toNat, ?_⟩
    unfold abs_adj
    split <;> omega
  have hsize : bitLength c = Nat.size n := by
    unfold bitLength
    rw [← hn]
    rfl
  rw [hsize]
  unfold abs_adj at hn
  constructor
  · intro h
    rcases Nat.eq_zero_or_pos k with hk | hk
    · left
      subst hk
      have : n = 0 := Nat.size_eq_zero.mp h
      subst this
      refine ⟨rfl, ?_⟩
      split at hn <;> omega
    · right
      refine ⟨hk, ?_⟩
      have h1 : n < 2 ^ k := Nat.size_le.mp (le_of_eq h)
      have h2 : 2 ^ (k - 1) ≤ n := Nat.lt_size.mp (by omega)
      have hP := two_pow_pred hk
      generalize 2 ^ k = P at *
      generalize 2 ^ (k - 1) = H at *
      split at hn <;> omega
  · rintro (⟨rfl, hc⟩ | ⟨hk, hc⟩)
    · have : n = 0 := by
        split at hn <;> omega
      subst this
      exact Nat.size_zero
    · have hP := two_pow_pred hk
      have hHpos := two_pow_pos (k - 1)
      apply size_eq_of_bounds
      · generalize 2 ^ k = P at *
        generalize 2 ^ (k - 1) = H at *
        split at hn <;> omega
      · right
        generalize 2 ^ k = P at *
        generalize 2 ^ (k - 1) = H at *
        split at hn <;> omega

theorem bitLength_le_of_abs_adj_lt (c : Int) (n : Nat) (h : abs_adj c < ((2 ^ n : Nat) : Int)) :
    bitLength c ≤ n := by
  unfold bitLength
  apply Nat.size_le.mpr
  have h0 := two_pow_pos n
  omega

/-- The loop of the setup functions counts the bit length of the range. -/
theorem rangeLoop_size (fuel : Nat) : ∀ (range c0 : Nat), range < 2 ^ fuel →
    c0 + fuel < 4294967296 →
    ∃ j, j ≤ fuel ∧ rangeLoop fuel range c0 = (0, c0 + j) ∧ range < 2 ^ j ∧
      (j = 0 ∨ 2 ^ (j - 1) ≤ range) := by
  induction fuel with
  | zero =>
    intro range c0 hr _
    have : range = 0 := by simpa using hr
    subst this
    exact ⟨0, le_refl _, rfl, by simp, Or.inl rfl⟩
  | succ f ih =>
    intro range c0 hr hc
    by_cases h0 : range = 0
    · subst h0
      exact ⟨0, by omega, by simp [rangeLoop], by simp, Or.inl rfl⟩
    · have hhalf : range / 2 < 2 ^ f := by
        rw [pow_succ] at hr
        omega
      obtain ⟨j, hj, hloop, hlt, hge⟩ := ih (range / 2) (c0 + 1) hhalf (by omega)
      refine ⟨j + 1, by omega, ?_, ?_, Or.inr ?_⟩
      · rw [rangeLoop, if_neg h0, Nat.shiftRight_eq_div_pow, pow_one,
          Nat.mod_eq_of_lt (by omega), hloop]
        simp [Nat.add_assoc, Nat.add_comm 1 j]
      · rw [pow_succ]; omega
      · rcases hge with h | hge
        · subst h; simp; omega
        · have := two_pow_pred (show 1 ≤ j by
            rcases Nat.eq_zero_or_pos j with h | h
            · subst h; simp at hge hlt; omega
            · exact h)
          simp only [Nat.add_sub_cancel]
          omega

/-- The parameters of a setup by range: with `j` the bit length of the range,
`corr_bits` is `j`, or `j - 1` when the range is the power of two `2^(j-1)`; the range
member is left at 0. -/
theorem SetupCompressor_range (s0 : ArithmeticIntegerCompressor) (contexts bits_high : Nat)
    (hrange : s0.range ≠ 0) (hr : s0.range < 4294967296) :
    ∃ j, 1 ≤ j ∧ j ≤ 32 ∧ 2 ^ (j - 1) ≤ s0.range ∧ s0.range < 2 ^ j ∧
      (SetupCompressor s0 contexts bits_high).corr_bits =
        (if s0.range = 2 ^ (j - 1) then j - 1 else j) ∧
      (SetupCompressor s0 contexts bits_high).corr_range = s0.range ∧
      (SetupCompressor s0 contexts bits_high).corr_min = -((s0.range / 2 : Nat) : Int) ∧
      (SetupCompressor s0 contexts bits_high).corr_max =
        -((s0.range / 2 : Nat) : Int) + (s0.range : Int) - 1 ∧
      (SetupCompressor s0 contexts bits_high).range = 0 := by
  obtain ⟨j, hj, hloop, hlt, hge⟩ := rangeLoop_size 32 s0.range 0 (by simpa using hr)
    (by norm_num)
  have hj1 : 1 ≤ j := by
    rcases Nat.eq_zero_or_pos j with h | h
    · subst h; simp at hlt; exact absurd hlt hrange
    · exact h
  have hH : 2 ^ (j - 1) ≤ s0.range := by
    rcases hge with h | h
    · omega
    · exact h
  have hsh : shlU32 1 (j - 1) = 2 ^ (j - 1) := shlU32_one (by omega)
  rw [Nat.zero_add] at hloop
  have hmin : toI32 (-toI32 ((s0.range / 2 : Nat) : Int)) = -((s0.range / 2 : Nat) : Int) := by
    unfold toI32; omega
  have hmax : toI32 (-((s0.range / 2 : Nat) : Int) + (s0.range : Int) - 1) =
      -((s0.range / 2 : Nat) : Int) + (s0.range : Int) - 1 := by
    unfold toI32; omega
  refine ⟨j, hj1, hj, hH, hlt, ?_, ?_, ?_, ?_, ?_⟩
  · simp only [SetupCompressor, ne_eq, hrange, not_false_eq_true, if_true, hloop, hsh]
  · simp only [SetupCompressor, ne_eq, hrange, not_false_eq_true, if_true, hloop]
  · simp only [SetupCompressor, ne_eq, hrange, not_false_eq_true, if_true, hloop, hmin]
  · simp only [SetupCompressor, ne_eq, hrange, not_false_eq_true, if_true, hloop, hmin, hmax]
  · simp only [SetupCompressor, ne_eq, hrange, not_false_eq_true, if_true, hloop]

/-- In every setup the correctors of `[corr_min, corr_max]` have a magnitude of at most
`corr_bits`. -/
theorem bitLength_le_corr_bits (s0 : ArithmeticIntegerCompressor) (contexts bits_high : Nat)
    (hr : s0.range < 4294967296) (c : Int)
    (hc1 : (SetupCompressor s0 contexts bits_high).corr_min ≤ c)
    (hc2 : c ≤ (SetupCompressor s0 contexts bits_high).corr_max) :
    bitLength c ≤ (SetupCompressor s0 contexts bits_high).corr_bits := by
  by_cases hrange : s0.range = 0
  · by_cases hbits : ¬s0.bits = 0 ∧ s0.bits < 32
    · obtain ⟨h1, _, h3, h4⟩ := SetupCompressor_bits s0 s0.bits contexts bits_high hrange rfl
        (by omega) (by omega)
      rw [h3] at hc1
      rw [h4] at hc2
      rw [h1]
      apply bitLength_le_of_abs_adj_lt
      have hP := two_pow_pred (show 1 ≤ s0.bits by omega)
      have hHpos := two_pow_pos (s0.bits - 1)
      unfold abs_adj
      generalize 2 ^ s0.bits = P at *
      generalize 2 ^ (s0.bits - 1) = H at *
      split <;> omega
    · obtain ⟨h1, _, h3, h4⟩ := SetupCompressor_32 s0 contexts bits_high hrange (by omega)
      rw [h3] at hc1
      rw [h4] at hc2
      rw [h1]
      apply bitLength_le_of_abs_adj_lt
      unfold abs_adj
      simp only [I32_MIN, I32_MAX] at hc1 hc2
      norm_num
      split <;> omega
  · obtain ⟨j, hj1, hj, hH, hlt, h1, _, h3, h4, _⟩ :=
      SetupCompressor_range s0 contexts bits_high hrange hr
    rw [h3] at hc1
    rw [h4] at hc2
    rw [h1]
    apply bitLength_le_of_abs_adj_lt
    have hP := two_pow_pred hj1
    unfold abs_adj
    by_cases hpow : s0.range = 2 ^ (j - 1)
    · rw [if_pos hpow]
      have hjm : j - 1 = 0 ∨ 1 ≤ j - 1 := by omega
      rcases hjm with h0 | h1
      · rw [h0] at hpow ⊢
        simp only [pow_zero] at hpow ⊢
        split <;> omega
      · have hP2 := two_pow_pred h1
        generalize 2 ^ (j - 1) = H at *
        generalize 2 ^ (j - 1 - 1) = G at *
        split <;> omega
    · rw [if_neg hpow]
      generalize 2 ^ j = P at *
      generalize 2 ^ (j - 1) = H at *
      split <;> omega

/-- For every setup and every pair whose folded corrector lies in `[corr_min, corr_max]`
and is not `I32_MIN`, `Compress` returns and the magnitude `k` it exposes is the bit
length of `abs_adj` of the folded corrector, which is at most `corr_bits` and at most
31. -/
theorem Compress_exposes_bitLength (s0 : ArithmeticIntegerCompressor)
    (contexts bits_high fuel : Nat) (p v : Int) (ctx : Nat) (hr : s0.range < 4294967296)
    (hfuel : 31 ≤ fuel)
    (hc1 : (SetupCompressor s0 contexts bits_high).corr_min ≤
      foldCorrector (SetupCompressor s0 contexts bits_high) p v)
    (hc2 : foldCorrector (SetupCompressor s0 contexts bits_high) p v ≤
      (SetupCompressor s0 contexts bits_high).corr_max)
    (hne : foldCorrector (SetupCompressor s0 contexts bits_high) p v ≠ I32_MIN) :
    ∃ ev e, Compress fuel (SetupCompressor s0 contexts bits_high) p v ctx = some (ev, e) ∧
      e.k = bitLength (foldCorrector (SetupCompressor s0 contexts bits_high) p v) ∧
      e.k ≤ (SetupCompressor s0 contexts bits_high).corr_bits ∧ e.k ≤ 31 := by
  obtain ⟨hk, ev, hc, _⟩ := Decompress_Compress fuel (SetupCompressor s0 contexts bits_high)
    (SetupCompressor s0 contexts bits_high) p v ctx [] hfuel rfl hne
  exact ⟨ev, _, hc, rfl, bitLength_le_corr_bits s0 contexts bits_high hr _ hc1 hc2, hk⟩

/-! ## The models a setup allocates -/

theorem allocCorrector_n (B bits_high compress : Nat) (hB : B ≤ 32)
    (hsz : B ≤ 31 ∨ bits_high ≤ 31) :
    (allocCorrector B bits_high compress).map (fun m => m.n) =
      (List.range B).map fun j => 2 ^ min (j + 1) bits_high := by
  unfold allocCorrector
  rw [List.map_map]
  apply List.map_congr_left
  intro j hj
  have hjB : j < B := List.mem_range.mp hj
  simp only [Function.comp]
  split
  · rename_i h
    rw [Nat.min_eq_left h, toU32_shl32_one (by omega)]
  · rename_i h
    rw [Nat.min_eq_right (by omega), toU32_shl32_one (by omega)]

theorem SetupCompressor_models (s0 : ArithmeticIntegerCompressor) (contexts bits_high : Nat) :
    (SetupCompressor s0 contexts bits_high).mBits =
      List.replicate contexts
        { n := ((SetupCompressor s0 contexts bits_high).corr_bits + 1) % 4294967296,
          compress := 1 } ∧
    (SetupCompressor s0 contexts bits_high).mCorrector =
      allocCorrector (SetupCompressor s0 contexts bits_high).corr_bits bits_high 1 := by
  by_cases hrange : s0.range = 0
  · by_cases hbits : ¬s0.bits = 0 ∧ s0.bits < 32
    · simp only [SetupCompressor, hrange, ne_eq, not_true_eq_false, if_false, hbits.1, hbits.2,
        not_false_eq_true, and_self, if_true]
    · simp only [SetupCompressor, hrange, ne_eq, not_true_eq_false, if_false, hbits, and_self]
  · simp only [SetupCompressor, ne_eq, hrange, not_false_eq_true, if_true, and_self]

theorem SetupDecompressor_models (s0 : ArithmeticIntegerCompressor) (contexts bits_high : Nat) :
    (SetupDecompressor s0 contexts bits_high).mBits =
      List.replicate contexts
        { n := ((SetupCompressor s0 contexts bits_high).corr_bits + 1) % 4294967296,
          compress := 0 } ∧
    (SetupDecompressor s0 contexts bits_high).mCorrector =
      allocCorrector (SetupCompressor s0 contexts bits_high).corr_bits bits_high 0 := by
  by_cases hrange : s0.range = 0
  · by_cases hbits : ¬s0.bits = 0 ∧ s0.bits < 32
    · simp only [SetupDecompressor, SetupCompressor, hrange, ne_eq, not_true_eq_false, if_false,
        hbits.1, hbits.2, not_false_eq_true, and_self, if_true]
    · simp only [SetupDecompressor, SetupCompressor, hrange, ne_eq, not_true_eq_false, if_false,
        hbits, and_self]
  · simp only [SetupDecompressor, SetupCompressor, ne_eq, hrange, not_false_eq_true, if_true,
      and_self]

/-- The parameters of a setup with `B` bits, `1 ≤ B ≤ 32`, in the words of the
specification: the range stands for `2^B`. -/
theorem SetupCompressor_params (s0 : ArithmeticIntegerCompressor) (B contexts bits_high : Nat)
    (hrange : s0.range = 0) (hbits : s0.bits = B) (hB1 : 1 ≤ B) (hB32 : B ≤ 32) :
    (SetupCompressor s0 contexts bits_high).corr_bits = B ∧
    (SetupCompressor s0 contexts bits_high).corr_range = (if B = 32 then 0 else 2 ^ B) ∧
    (SetupCompressor s0 contexts bits_high).corr_min = -((2 ^ B / 2 : Nat) : Int) ∧
    (SetupCompressor s0 contexts bits_high).corr_max =
      (SetupCompressor s0 contexts bits_high).corr_min + ((2 ^ B : Nat) : Int) - 1 := by
  by_cases h32 : B = 32
  · subst h32
    obtain ⟨h1, h2, h3, h4⟩ := SetupCompressor_32 s0 contexts bits_high hrange (by omega)
    rw [h1, h2, h3, h4]
    decide
  · obtain ⟨h1, h2, h3, h4⟩ :=
      SetupCompressor_bits s0 B contexts bits_high hrange hbits hB1 (by omega)
    have hH := two_pow_pred hB1
    rw [h1, h2, h3, h4, if_neg h32]
    refine ⟨rfl, rfl, ?_, ?_⟩
    · congr 2; omega
    · generalize 2 ^ B = P at *
      generalize 2 ^ (B - 1) = H at *
      omega

/-- Claim C6 (amended): for every number of bits `B` in `1..32` (range member 0), the two
setup functions derive the same parameters `corr_bits = B`, `corr_range = 2^B` (stored as
0 when `B = 32`), `corr_min = -(2^B / 2)` and `corr_max = corr_min + 2^B - 1`, and they
allocate the same alphabets: `contexts` magnitude models of `B + 1` symbols and, for
`i = 1..B`, a value model of `2^min(i, bits_high)` symbols, provided that
`min(i, bits_high) < 32`, that is unless `B = 32` and `bits_high ≥ 32`. -/
theorem Setup_same_parameters (s0 : ArithmeticIntegerCompressor) (B contexts bits_high : Nat)
    (hrange : s0.range = 0) (hbits : s0.bits = B) (hB1 : 1 ≤ B) (hB32 : B ≤ 32)
    (hsz : B < 32 ∨ bits_high < 32) :
    ((SetupCompressor s0 contexts bits_high).corr_bits = B ∧
      (SetupCompressor s0 contexts bits_high).corr_range = (if B = 32 then 0 else 2 ^ B) ∧
      (SetupCompressor s0 contexts bits_high).corr_min = -((2 ^ B / 2 : Nat) : Int) ∧
      (SetupCompressor s0 contexts bits_high).corr_max =
        (SetupCompressor s0 contexts bits_high).corr_min + ((2 ^ B : Nat) : Int) - 1) ∧
    ((SetupDecompressor s0 contexts bits_high).corr_bits =
        (SetupCompressor s0 contexts bits_high).corr_bits ∧
      (SetupDecompressor s0 contexts bits_high).corr_range =
        (SetupCompressor s0 contexts bits_high).corr_range ∧
      (SetupDecompressor s0 contexts bits_high).corr_min =
        (SetupCompressor s0 contexts bits_high).corr_min ∧
      (SetupDecompressor s0 contexts bits_high).corr_max =
        (SetupCompressor s0 contexts bits_high).corr_max) ∧
    ((SetupCompressor s0 contexts bits_high).mBits.map (fun m => m.n) =
        List.replicate contexts (B + 1) ∧
      (SetupDecompressor s0 contexts bits_high).mBits.map (fun m => m.n) =
        List.replicate contexts (B + 1)) ∧
    ((SetupCompressor s0 contexts bits_high).mCorrector.map (fun m => m.n) =
        (List.range B).map (fun j => 2 ^ min (j + 1) bits_high) ∧
      (SetupDecompressor s0 contexts bits_high).mCorrector.map (fun m => m.n) =
        (List.range B).map (fun j => 2 ^ min (j + 1) bits_high)) := by
  have hp := SetupCompressor_params s0 B contexts bits_high hrange hbits hB1 hB32
  have hd := SetupDecompressor_corr s0 contexts bits_high
  have hme := SetupCompressor_models s0 contexts bits_high
  have hmd := SetupDecompressor_models s0 contexts bits_high
  refine ⟨hp, hd.2, ⟨?_, ?_⟩, ⟨?_, ?_⟩⟩
  · rw [hme.1, hp.1, List.map_replicate, Nat.mod_eq_of_lt (by omega)]
  · rw [hmd.1, hp.1, List.map_replicate, Nat.mod_eq_of_lt (by omega)]
  · rw [hme.2, hp.1]
    exact allocCorrector_n B bits_high 1 hB32 (by omega)
  · rw [hmd.2, hp.1]
    exact allocCorrector_n B bits_high 0 hB32 (by omega)

/-- Witness of `Setup_same_parameters`: 8 bits, 2 contexts, `bits_high = 3`. -/
theorem Setup_same_parameters_witness :
    (SetupCompressor { ArithmeticIntegerCompressor.new with bits := 8 } 2 3).corr_min = -128 ∧
    (SetupCompressor { ArithmeticIntegerCompressor.new with bits := 8 } 2 3).mCorrector.map
      (fun m => m.n) = [2, 4, 8, 8, 8, 8, 8, 8] ∧
    (SetupDecompressor { ArithmeticIntegerCompressor.new with bits := 8 } 2 3).mCorrector.map
      (fun m => m.n) = [2, 4, 8, 8, 8, 8, 8, 8] := by
  have h := Setup_same_parameters { ArithmeticIntegerCompressor.new with bits := 8 } 8 2 3
    (by decide) (by decide) (by decide) (by decide) (by decide)
  exact ⟨h.1.2.2.1, h.2.2.2.1, h.2.2.2.2⟩

/-- Claim C6 as stated fails for 32 bits with `bits_high = 32`: the value model of index
32 is created with `1 << 32` symbols, a 32-bit shift that does not yield `2^32`. -/
theorem Setup_value_model_32_counterexample :
    ((SetupCompressor { ArithmeticIntegerCompressor.new with bits := 32 } 1 32).mCorrector.map
      (fun m => m.n)).get? 31 = some 0 ∧
    ((List.range 32).map (fun j => 2 ^ min (j + 1) 32)).get? 31 = some 4294967296 ∧
    (SetupCompressor { ArithmeticIntegerCompressor.new with bits := 32 } 1 32).mCorrector.map
      (fun m => m.n) ≠ (List.range 32).map (fun j => 2 ^ min (j + 1) 32) := by
  decide

/-! ## Claims on folding (C7, C8) -/

/-- Claim C7 (amended): for a compressor with `corr_range ≠ 0` and every `I32` pair `p`, `v`
with `|v - p| ≤ corr_range - 1` whose difference `v - p` is representable as an `I32`
(always so when `corr_range ≤ 2^31`, hence in every setup by bits), the corrector that
`Compress` hands to `writeCorrector` is `v - p`, plus `corr_range` if below `corr_min`,
minus `corr_range` if above `corr_max`; it lies in `[corr_min, corr_max]` and is
congruent to `v - p` modulo `corr_range`: a single fold suffices. -/
theorem foldCorrector_in_range (s0 : ArithmeticIntegerCompressor) (contexts bits_high : Nat)
    (p v : Int) (hr : s0.range < 4294967296)
    (hne : (SetupCompressor s0 contexts bits_high).corr_range ≠ 0)
    (habs : |v - p| ≤ ((SetupCompressor s0 contexts bits_high).corr_range : Int) - 1)
    (hrep1 : I32_MIN ≤ v - p) (hrep2 : v - p ≤ I32_MAX) :
    (SetupCompressor s0 contexts bits_high).corr_min ≤
      foldCorrector (SetupCompressor s0 contexts bits_high) p v ∧
    foldCorrector (SetupCompressor s0 contexts bits_high) p v ≤
      (SetupCompressor s0 contexts bits_high).corr_max ∧
    foldCorrector (SetupCompressor s0 contexts bits_high) p v =
      (if v - p < (SetupCompressor s0 contexts bits_high).corr_min then
         v - p + (SetupCompressor s0 contexts bits_high).corr_range
       else if v - p > (SetupCompressor s0 contexts bits_high).corr_max then
         v - p - (SetupCompressor s0 contexts bits_high).corr_range
       else v - p) ∧
    (foldCorrector (SetupCompressor s0 contexts bits_high) p v - (v - p)) %
      ((SetupCompressor s0 contexts bits_high).corr_range : Int) = 0 := by
  obtain ⟨_, hR, hcase⟩ := SetupCompressor_corr s0 contexts bits_high hr
  rcases hcase with ⟨h0, _, _⟩ | ⟨hR0, hmin, hmax⟩
  · exact absurd h0 hne
  · rw [abs_le] at habs
    simp only [I32_MIN, I32_MAX] at hrep1 hrep2
    obtain ⟨h1, h2, h3⟩ := foldCorrector_spec (SetupCompressor s0 contexts bits_high) p v
      hR0 hR hmin hmax (by omega) (by omega) (by omega) (by omega)
    refine ⟨h1, h2, h3, ?_⟩
    rw [h3]
    split
    · simp
    · split <;> simp

/-- Witness of `foldCorrector_in_range`: 8 bits, `p = 10`, `v = 200` (the corrector 190
is folded to -66). -/
theorem foldCorrector_in_range_witness :
    foldCorrector (SetupCompressor { ArithmeticIntegerCompressor.new with bits := 8 } 1 8)
      10 200 = -66 ∧
    (SetupCompressor { ArithmeticIntegerCompressor.new with bits := 8 } 1 8).corr_min ≤
      foldCorrector (SetupCompressor { ArithmeticIntegerCompressor.new with bits := 8 } 1 8)
        10 200 := by
  have h := foldCorrector_in_range { ArithmeticIntegerCompressor.new with bits := 8 } 1 8
    10 200 (by decide) (by decide) (by decide) (by decide) (by decide)
  exact ⟨by decide, h.1⟩

/-- Claim C7 as stated fails in a setup by range with a range above `2^31`: with
`range = 2^32 - 1`, `p = -(2^31 - 1)` and `v = 2^31 - 1` the difference `2^32 - 2` is
within `corr_range - 1`, but it wraps to the corrector -2, which is not congruent to it
modulo the range. -/
theorem foldCorrector_wraps_counterexample :
    (SetupCompressor { ArithmeticIntegerCompressor.new with range := 4294967295 } 1 8).corr_range
      ≠ 0 ∧
    |(2147483647 : Int) - (-2147483647)| ≤
      ((SetupCompressor { ArithmeticIntegerCompressor.new with range := 4294967295 } 1
        8).corr_range : Int) - 1 ∧
    foldCorrector
      (SetupCompressor { ArithmeticIntegerCompressor.new with range := 4294967295 } 1 8)
      (-2147483647) 2147483647 = -2 ∧
    ¬ ((foldCorrector
        (SetupCompressor { ArithmeticIntegerCompressor.new with range := 4294967295 } 1 8)
        (-2147483647) 2147483647 - (2147483647 - (-2147483647))) %
      ((SetupCompressor { ArithmeticIntegerCompressor.new with range := 4294967295 } 1
        8).corr_range : Int) = 0) := by
  decide

/-- Claim C8 (amended): for a decompressor with `corr_range ≠ 0` and `corr_range ≤ 2^31`,
every prediction `p` in `[0, corr_range)` and every decoded corrector `corr` in
`[corr_min, corr_max]` such that `p + corr` does not overflow an `I32` or
`corr_range = 2^31` (one of the two holds in every setup by bits with at most 31 bits),
`Decompress` returns the unique value in `[0, corr_range)` that is congruent to
`p + corr` modulo `corr_range`. -/
theorem Decompress_unique_residue (s0 : ArithmeticIntegerCompressor)
    (contexts bits_high context : Nat) (p corr : Int) (input rest : List Event)
    (d : ArithmeticIntegerCompressor) (hr : s0.range < 4294967296)
    (hne : (SetupDecompressor s0 contexts bits_high).corr_range ≠ 0)
    (hle : (SetupDecompressor s0 contexts bits_high).corr_range ≤ 2147483648)
    (hp0 : 0 ≤ p) (hp : p < (SetupDecompressor s0 contexts bits_high).corr_range)
    (hread : readCorrector (SetupDecompressor s0 contexts bits_high) context input =
      some (corr, d, rest))
    (hc1 : (SetupDecompressor s0 contexts bits_high).corr_min ≤ corr)
    (hc2 : corr ≤ (SetupDecompressor s0 contexts bits_high).corr_max)
    (hov : p + corr ≤ I32_MAX ∨
      (SetupDecompressor s0 contexts bits_high).corr_range = 2147483648) :
    ∃ r : Int, Decompress (SetupDecompressor s0 contexts bits_high) p context input =
        some (r, d, rest) ∧
      0 ≤ r ∧ r < (SetupDecompressor s0 contexts bits_high).corr_range ∧
      (r - (p + corr)) % ((SetupDecompressor s0 contexts bits_high).corr_range : Int) = 0 ∧
      ∀ w : Int, 0 ≤ w → w < (SetupDecompressor s0 contexts bits_high).corr_range →
        (w - (p + corr)) % ((SetupDecompressor s0 contexts bits_high).corr_range : Int) = 0 →
        w = r := by
  obtain ⟨_, hR, hcase⟩ := SetupCompressor_corr s0 contexts bits_high hr
  obtain ⟨_, _, e1, e2, e3⟩ := SetupDecompressor_corr s0 contexts bits_high
  rw [← e1, ← e2, ← e3] at hcase
  rcases hcase with ⟨h0, _, _⟩ | ⟨hR0, hmin, hmax⟩
  · exact absurd h0 hne
  · have hdr : d.corr_range = (SetupDecompressor s0 contexts bits_high).corr_range := by
      rw [readCorrector_state _ _ _ _ _ _ hread]
    have hspec := unfoldCorrector_spec d p corr (by rw [hdr]; exact hR0) (by rw [hdr]; exact hle)
      (by rw [hdr]; omega) (by rw [hdr]; omega)
      (by rw [hdr]; simp only [I32_MAX] at hov; omega)
    rw [hdr] at hspec
    have hRpos : (0 : Int) < ((SetupDecompressor s0 contexts bits_high).corr_range : Int) := by
      omega
    obtain ⟨hcong, huniq⟩ := emod_residue_unique (p + corr) _
    refine ⟨(p + corr) % ((SetupDecompressor s0 contexts bits_high).corr_range : Int), ?_,
      Int.emod_nonneg _ (ne_of_gt hRpos), Int.emod_lt_of_pos _ hRpos, hcong, huniq⟩
    unfold Decompress
    rw [hread]
    simp only [hspec]

/-- Witness of `Decompress_unique_residue`: 8 bits, `p = 250`, the events of the
corrector 10; `Decompress` returns 4. -/
theorem Decompress_unique_residue_witness :
    ∃ r : Int,
      Decompress (SetupDecompressor { ArithmeticIntegerCompressor.new with bits := 8 } 1 8) 250 0
        [Event.encodeBits 0 4, Event.encodeCorrector 4 9] =
        some (r, { SetupDecompressor { ArithmeticIntegerCompressor.new with bits := 8 } 1 8
                   with k := 4 }, []) ∧
      0 ≤ r ∧
      r < (SetupDecompressor { ArithmeticIntegerCompressor.new with bits := 8 } 1 8).corr_range ∧
      (r - (250 + 10)) %
        ((SetupDecompressor { ArithmeticIntegerCompressor.new with bits := 8 } 1
          8).corr_range : Int) = 0 ∧
      ∀ w : Int, 0 ≤ w →
        w < (SetupDecompressor { ArithmeticIntegerCompressor.new with bits := 8 } 1 8).corr_range →
        (w - (250 + 10)) %
          ((SetupDecompressor { ArithmeticIntegerCompressor.new with bits := 8 } 1
            8).corr_range : Int) = 0 →
        w = r :=
  Decompress_unique_residue { ArithmeticIntegerCompressor.new with bits := 8 } 1 8 0 250 10
    [Event.encodeBits 0 4, Event.encodeCorrector 4 9] []
    { SetupDecompressor { ArithmeticIntegerCompressor.new with bits := 8 } 1 8 with k := 4 }
    (by decide) (by decide) (by decide) (by decide) (by decide) (by decide) (by decide)
    (by decide) (by decide)

/-- Claim C8 as stated fails in a setup by range with a range above `2^31`: with
`range = 2^32 - 1`, the prediction `2^31 - 1` and the decoded corrector `2^31 - 1` (both
admissible), `Decompress` returns -3, which is neither in `[0, corr_range)` nor congruent
to `p + corr = 2^32 - 2` modulo the range. -/
theorem Decompress_range_counterexample :
    (SetupDecompressor { ArithmeticIntegerCompressor.new with range := 4294967295 } 1
      8).corr_range ≠ 0 ∧
    ((2147483647 : Int) <
      (SetupDecompressor { ArithmeticIntegerCompressor.new with range := 4294967295 } 1
        8).corr_range) ∧
    (2147483647 : Int) ≤
      (SetupDecompressor { ArithmeticIntegerCompressor.new with range := 4294967295 } 1
        8).corr_max ∧
    readCorrector
      (SetupDecompressor { ArithmeticIntegerCompressor.new with range := 4294967295 } 1 8) 0
      [Event.encodeBits 0 31, Event.encodeCorrector 31 255, Event.writeBits 23 8388606] =
      some (2147483647,
        { SetupDecompressor { ArithmeticIntegerCompressor.new with range := 4294967295 } 1 8
          with k := 31 }, []) ∧
    Decompress
      (SetupDecompressor { ArithmeticIntegerCompressor.new with range := 4294967295 } 1 8)
      2147483647 0
      [Event.encodeBits 0 31, Event.encodeCorrector 31 255, Event.writeBits 23 8388606] =
      some (-3,
        { SetupDecompressor { ArithmeticIntegerCompressor.new with range := 4294967295 } 1 8
          with k := 31 }, []) ∧
    ¬ ((-3 - (2147483647 + 2147483647)) %
      ((SetupDecompressor { ArithmeticIntegerCompressor.new with range := 4294967295 } 1
        8).corr_range : Int) = 0) := by
  decide

/-! ## Claims on the round trip of one value (C1, C2, C5) -/

/-- Claim C1 (amended): for an integer compressor set up with `B` bits, `1 ≤ B ≤ 31` (so
`corr_range = 2^B ≠ 0`), and for every prediction `p` (an `I32` in particular), every
value `v` with `0 ≤ v < corr_range` and every context `c` such that the corrector that
`Compress` folds from `v - p` lies in `[corr_min, corr_max]`: `Compress(p, v, c)`
returns (32 iterations of its magnitude loop are enough) and `Decompress(p, c)` run on
the coder events it has emitted returns exactly `v`, reads all of them, and exposes the
same `k`. -/
theorem Decompress_Compress_bits (s0 : ArithmeticIntegerCompressor)
    (B contexts bits_high fuel : Nat) (p v : Int) (c : Nat)
    (hrange : s0.range = 0) (hbits : s0.bits = B) (hB1 : 1 ≤ B) (hB31 : B ≤ 31)
    (hfuel : 32 ≤ fuel) (hv0 : 0 ≤ v) (hv : v < 2 ^ B)
    (hmin : (SetupCompressor s0 contexts bits_high).corr_min ≤
      foldCorrector (SetupCompressor s0 contexts bits_high) p v)
    (hmax : foldCorrector (SetupCompressor s0 contexts bits_high) p v ≤
      (SetupCompressor s0 contexts bits_high).corr_max) :
    ∃ ev e d, Compress fuel (SetupCompressor s0 contexts bits_high) p v c = some (ev, e) ∧
      Decompress (SetupDecompressor s0 contexts bits_high) p c ev = some (v, d, []) ∧
      d.k = e.k := by
  obtain ⟨_, hR, hmin', hmax'⟩ :=
    SetupCompressor_bits s0 B contexts bits_high hrange hbits hB1 hB31
  obtain ⟨hbh, _, hRd, _, _⟩ := SetupDecompressor_corr s0 contexts bits_high
  have hP : ((2 : Int) ^ B) = ((2 ^ B : Nat) : Int) := by push_cast; rfl
  rw [hP] at hv
  have hun := fold_unfold_bits_of_mem (SetupCompressor s0 contexts bits_high)
    (SetupDecompressor s0 contexts bits_high) B p v hB1 hB31 hR (by rw [hRd, hR]) hmin' hmax'
    hv0 hv hmin hmax
  have hne : foldCorrector (SetupCompressor s0 contexts bits_high) p v ≠ -2147483648 := by
    have := two_pow_le_31 hB31
    have hH := two_pow_pred hB1
    have hPpos := two_pow_pos (B - 1)
    rw [hmin'] at hmin
    omega
  obtain ⟨_, ev, hc, hd⟩ := Decompress_Compress fuel (SetupCompressor s0 contexts bits_high)
    (SetupDecompressor s0 contexts bits_high) p v c [] (by omega) hbh hne
  rw [List.append_nil, hun] at hd
  exact ⟨ev, _, _, hc, hd, rfl⟩

/-- Witness of `Decompress_Compress_bits`: 8 bits, `p = 10`, `v = 200`, context 1 (the
corrector 190 is folded to -66). -/
theorem Decompress_Compress_bits_witness :
    ∃ ev e d,
      Compress 32 (SetupCompressor { ArithmeticIntegerCompressor.new with bits := 8 } 2 3)
        10 200 1 = some (ev, e) ∧
      Decompress (SetupDecompressor { ArithmeticIntegerCompressor.new with bits := 8 } 2 3)
        10 1 ev = some (200, d, []) ∧
      d.k = e.k :=
  Decompress_Compress_bits { ArithmeticIntegerCompressor.new with bits := 8 } 8 2 3 32 10 200 1
    (by decide) (by decide) (by decide) (by decide) (by decide) (by decide) (by decide)
    (by decide) (by decide)

/-- Claim C1 as stated fails for a value outside `[0, corr_range)`: with 8 bits, `p = 0`
and `v = -1` the difference is itself a corrector of `[corr_min, corr_max]`, and
`Decompress` run on the events of `Compress` returns 255, not -1. -/
theorem Decompress_Compress_bits_counterexample :
    (SetupCompressor { ArithmeticIntegerCompressor.new with bits := 8 } 1 8).corr_min ≤ -1 - 0 ∧
    -1 - 0 ≤ (SetupCompressor { ArithmeticIntegerCompressor.new with bits := 8 } 1 8).corr_max ∧
    Compress 32 (SetupCompressor { ArithmeticIntegerCompressor.new with bits := 8 } 1 8)
      0 (-1) 0 =
      some ([Event.encodeBits 0 1, Event.encodeCorrector 1 0],
        { SetupCompressor { ArithmeticIntegerCompressor.new with bits := 8 } 1 8 with k := 1 }) ∧
    Decompress (SetupDecompressor { ArithmeticIntegerCompressor.new with bits := 8 } 1 8) 0 0
      [Event.encodeBits 0 1, Event.encodeCorrector 1 0] =
      some (255,
        { SetupDecompressor { ArithmeticIntegerCompressor.new with bits := 8 } 1 8 with k := 1 },
        []) := by
  decide

/-- In the 32-bit mode the round trip holds for every pair of `I32` values whose wrapped
difference is not `I32_MIN`. -/
theorem Decompress_Compress_32 (s0 : ArithmeticIntegerCompressor)
    (contexts bits_high fuel : Nat) (p v : Int) (c : Nat) (rest : List Event)
    (hrange : s0.range = 0) (hbits : s0.bits = 0 ∨ 32 ≤ s0.bits) (hfuel : 31 ≤ fuel)
    (hv1 : I32_MIN ≤ v) (hv2 : v ≤ I32_MAX) (hne : toI32 (v - p) ≠ I32_MIN) :
    bitLength (toI32 (v - p)) ≤ 31 ∧
    ∃ ev, Compress fuel (SetupCompressor s0 contexts bits_high) p v c =
        some (ev, { SetupCompressor s0 contexts bits_high with k := bitLength (toI32 (v - p)) }) ∧
      Decompress (SetupDecompressor s0 contexts bits_high) p c (ev ++ rest) =
        some (v, { SetupDecompressor s0 contexts bits_high with k := bitLength (toI32 (v - p)) },
          rest) := by
  obtain ⟨_, hR, hmin, hmax⟩ := SetupCompressor_32 s0 contexts bits_high hrange hbits
  obtain ⟨hbh, _, hRd, _, _⟩ := SetupDecompressor_corr s0 contexts bits_high
  obtain ⟨hfold, hun⟩ := fold_unfold_32 (SetupCompressor s0 contexts bits_high)
    (SetupDecompressor s0 contexts bits_high) p v hmin hmax (by rw [hRd, hR]) hv1 hv2
  obtain ⟨hk, ev, hc, hd⟩ := Decompress_Compress fuel (SetupCompressor s0 contexts bits_high)
    (SetupDecompressor s0 contexts bits_high) p v c rest hfuel hbh
    (by rw [hfold]; exact hne)
  rw [hun, hfold] at hd
  rw [hfold] at hc hk
  exact ⟨hk, ev, hc, hd⟩

/-- In the 32-bit mode the corrector of `p = 0`, `v = I32_MIN` is `I32_MIN`. -/
theorem foldCorrector_32_I32_MIN (contexts bits_high : Nat) :
    foldCorrector (SetupCompressor { ArithmeticIntegerCompressor.new with bits := 32 }
      contexts bits_high) 0 I32_MIN = I32_MIN := by
  obtain ⟨_, hR, hmin, hmax⟩ := SetupCompressor_32
    { ArithmeticIntegerCompressor.new with bits := 32 } contexts bits_high rfl
    (Or.inr (le_refl _))
  rw [(fold_unfold_32 _ _ 0 I32_MIN hmin hmax hR (le_refl _) (by decide)).1]
  decide

/-- Claim C2, the code at the failing input: in the 32-bit mode, `Compress(0, I32_MIN, c)`
never returns, whatever the number of iterations allowed to the magnitude loop: the
corrector is `I32_MIN`, its negation overflows to `I32_MIN`, and the arithmetic shift
of a negative `c1` never reaches 0.  No event is emitted, so nothing can be decoded. -/
theorem Compress_32_I32_MIN_never_returns (fuel contexts bits_high c : Nat) :
    Compress fuel (SetupCompressor { ArithmeticIntegerCompressor.new with bits := 32 }
      contexts bits_high) 0 I32_MIN c = none := by
  obtain ⟨_, _, hmin, hmax⟩ := SetupCompressor_32
    { ArithmeticIntegerCompressor.new with bits := 32 } contexts bits_high rfl
    (Or.inr (le_refl _))
  have hfold := foldCorrector_32_I32_MIN contexts bits_high
  unfold Compress writeCorrector
  rw [hfold]
  have hloop := magnitudeLoop_neg fuel
    (if I32_MIN ≤ 0 then toI32 (-I32_MIN) else toI32 (I32_MIN - 1)) 0 (by decide)
  simp only [hloop]

/-- Claim C5, the code at the failing input: in the 32-bit mode the corrector `I32_MIN`
(folded from `p = 0`, `v = I32_MIN`) lies in `[corr_min, corr_max]`, the bit length of
its `abs_adj` is `32 = corr_bits`, and `I32_MIN` lies in the interval
`[-(2^32 - 1), -2^31]` of `k = 32`; but `Compress` never returns, so that no `k` is
exposed. -/
theorem Compress_32_I32_MIN_exposes_no_k (fuel contexts bits_high c : Nat) :
    (SetupCompressor { ArithmeticIntegerCompressor.new with bits := 32 }
      contexts bits_high).corr_min ≤
      foldCorrector (SetupCompressor { ArithmeticIntegerCompressor.new with bits := 32 }
        contexts bits_high) 0 I32_MIN ∧
    foldCorrector (SetupCompressor { ArithmeticIntegerCompressor.new with bits := 32 }
        contexts bits_high) 0 I32_MIN ≤
      (SetupCompressor { ArithmeticIntegerCompressor.new with bits := 32 }
        contexts bits_high).corr_max ∧
    bitLength (foldCorrector (SetupCompressor { ArithmeticIntegerCompressor.new with bits := 32 }
        contexts bits_high) 0 I32_MIN) = 32 ∧
    (SetupCompressor { ArithmeticIntegerCompressor.new with bits := 32 }
      contexts bits_high).corr_bits = 32 ∧
    (-(2 ^ 32 - 1) ≤ I32_MIN ∧ I32_MIN ≤ -(2 ^ 31)) ∧
    (∀ s, writeCorrector fuel
      (SetupCompressor { ArithmeticIntegerCompressor.new with bits := 32 } contexts bits_high)
      (foldCorrector (SetupCompressor { ArithmeticIntegerCompressor.new with bits := 32 }
        contexts bits_high) 0 I32_MIN) c ≠ some s) := by
  obtain ⟨hcb, _, hmin, hmax⟩ := SetupCompressor_32
    { ArithmeticIntegerCompressor.new with bits := 32 } contexts bits_high rfl
    (Or.inr (le_refl _))
  have hfold := foldCorrector_32_I32_MIN contexts bits_high
  rw [hfold, hmin, hmax, hcb]
  refine ⟨le_refl _, by decide, ?_, rfl, by decide, ?_⟩
  · unfold bitLength abs_adj
    have : ((if I32_MIN ≤ 0 then -I32_MIN else I32_MIN - 1)).toNat = 2 ^ 31 := by decide
    rw [this, Nat.size_pow]
  · intro s
    unfold writeCorrector
    have hloop := magnitudeLoop_neg fuel
      (if I32_MIN ≤ 0 then toI32 (-I32_MIN) else toI32 (I32_MIN - 1)) 0 (by decide)
    simp only [hloop]
    simp

/-! ## Call trees -/

theorem Prog.calls_bind {α β : Type} (getK : IC → Int → Int → Nat → Nat) (p : Prog α)
    (f : α → Prog β) :
    (p.bind f).calls getK =
      ((p.calls getK).1 ++ ((f (p.calls getK).2).calls getK).1,
        ((f (p.calls getK).2).calls getK).2) := by
  induction p with
  | ret a => simp [Prog.bind, Prog.calls]
  | compress ic pred real context next ih => simp [Prog.bind, Prog.calls, ih]
  | encodeSymbol m sym next ih => simp [Prog.bind, Prog.calls, ih]
  | encodeBit m bit next ih => simp [Prog.bind, Prog.calls, ih]
  | writeInt64 v next ih => simp [Prog.bind, Prog.calls, ih]

theorem Prog.run_bind {α β : Type} (fuel : Nat) (cfg : IC → ArithmeticIntegerCompressor)
    (p : Prog α) (f : α → Prog β) :
    (p.bind f).run fuel cfg =
      match p.run fuel cfg with
      | none => none
      | some (ev, a) =>
        match (f a).run fuel cfg with
        | none => none
        | some (evs, b) => some (ev ++ evs, b) := by
  induction p with
  | ret a =>
    simp only [Prog.bind, Prog.run]
    cases (f a).run fuel cfg with
    | none => rfl
    | some r => simp
  | compress ic pred real context next ih =>
    simp only [Prog.bind, Prog.run]
    cases Compress fuel (cfg ic) pred real context with
    | none => rfl
    | some r =>
      simp only [ih]
      cases (next r.2.k).run fuel cfg with
      | none => rfl
      | some r2 =>
        simp only []
        cases (f r2.2).run fuel cfg with
        | none => rfl
        | some r3 => simp
  | encodeSymbol m sym next ih =>
    simp only [Prog.bind, Prog.run, ih]
    cases next.run fuel cfg with
    | none => rfl
    | some r2 =>
      simp only []
      cases (f r2.2).run fuel cfg with
      | none => rfl
      | some r3 => simp
  | encodeBit m bit next ih =>
    simp only [Prog.bind, Prog.run, ih]
    cases next.run fuel cfg with
    | none => rfl
    | some r2 =>
      simp only []
      cases (f r2.2).run fuel cfg with
      | none => rfl
      | some r3 => simp
  | writeInt64 v next ih =>
    simp only [Prog.bind, Prog.run, ih]
    cases next.run fuel cfg with
    | none => rfl
    | some r2 =>
      simp only []
      cases (f r2.2).run fuel cfg with
      | none => rfl
      | some r3 => simp

theorem Prog.bind_eq {α β : Type} (p : Prog α) (f : α → Prog β) : p >>= f = p.bind f := rfl

theorem Prog.pure_eq {α : Type} (a : α) : (pure a : Prog α) = Prog.ret a := rfl

theorem Prog.calls_bind_fst {α β : Type} (getK : IC → Int → Int → Nat → Nat) (p : Prog α)
    (f : α → Prog β) :
    ((p.bind f).calls getK).1 = (p.calls getK).1 ++ ((f (p.calls getK).2).calls getK).1 := by
  rw [Prog.calls_bind]

theorem Prog.calls_bind_snd {α β : Type} (getK : IC → Int → Int → Nat → Nat) (p : Prog α)
    (f : α → Prog β) :
    ((p.bind f).calls getK).2 = ((f (p.calls getK).2).calls getK).2 := by
  rw [Prog.calls_bind]

theorem Prog.calls_when (getK : IC → Int → Int → Nat → Nat) (c : Prop) [Decidable c]
    (p : Prog Unit) :
    (Prog.when c p).calls getK = (if c then (p.calls getK).1 else [], ()) := by
  unfold Prog.when
  split <;> rfl

theorem calls_compress (getK : IC → Int → Int → Nat → Nat) (ic : IC) (pred real : Int)
    (context : Nat) :
    (compress ic pred real context).calls getK =
      ([ItemOp.compress ic pred real context], getK ic pred real context) := rfl

theorem calls_compress_ (getK : IC → Int → Int → Nat → Nat) (ic : IC) (pred real : Int)
    (context : Nat) :
    (compress_ ic pred real context).calls getK = ([ItemOp.compress ic pred real context], ()) :=
  rfl

theorem calls_encodeSymbol (getK : IC → Int → Int → Nat → Nat) (m : SymbolModel) (sym : Nat) :
    (encodeSymbol m sym).calls getK = ([ItemOp.encodeSymbol m sym], ()) := rfl

theorem calls_ret {α : Type} (getK : IC → Int → Int → Nat → Nat) (a : α) :
    (Prog.ret a).calls getK = ([], a) := rfl

/-! ## Coder events of a call tree -/

theorem Prog.run_bind_eq_some {α β : Type} (fuel : Nat) (cfg : IC → ArithmeticIntegerCompressor)
    (p : Prog α) (f : α → Prog β) (ev : List CoderEvent) (b : β) :
    (p.bind f).run fuel cfg = some (ev, b) ↔
      ∃ ev1 a ev2, p.run fuel cfg = some (ev1, a) ∧ (f a).run fuel cfg = some (ev2, b) ∧
        ev = ev1 ++ ev2 := by
  rw [Prog.run_bind]
  cases h1 : p.run fuel cfg with
  | none => simp
  | some r1 =>
    obtain ⟨ev1, a⟩ := r1
    simp only []
    cases h2 : (f a).run fuel cfg with
    | none => simp [h2]
    | some r2 =>
      obtain ⟨ev2, b2⟩ := r2
      simp only [Option.some.injEq, Prod.mk.injEq]
      constructor
      · rintro ⟨rfl, rfl⟩
        exact ⟨ev1, a, ev2, ⟨rfl, rfl⟩, h2, rfl⟩
      · rintro ⟨ev1', a', ev2', ⟨rfl, rfl⟩, h, rfl⟩
        rw [h2] at h
        simp only [Option.some.injEq, Prod.mk.injEq] at h
        exact ⟨by rw [h.1], h.2⟩

theorem run_compress_eq_some (fuel : Nat) (cfg : IC → ArithmeticIntegerCompressor) (ic : IC)
    (pred real : Int) (context : Nat) (ev : List CoderEvent) (k : Nat) :
    (compress ic pred real context).run fuel cfg = some (ev, k) ↔
      ∃ e s, Compress fuel (cfg ic) pred real context = some (e, s) ∧
        ev = e.map (CoderEvent.ic ic) ∧ k = s.k := by
  unfold compress
  simp only [Prog.run]
  cases Compress fuel (cfg ic) pred real context with
  | none => simp
  | some r =>
    obtain ⟨e, s⟩ := r
    simp only [List.append_nil, Option.some.injEq, Prod.mk.injEq]
    constructor
    · rintro ⟨rfl, rfl⟩
      exact ⟨e, s, ⟨rfl, rfl⟩, rfl, rfl⟩
    · rintro ⟨e', s', ⟨rfl, rfl⟩, rfl, rfl⟩
      exact ⟨rfl, rfl⟩

theorem run_compress__eq_some (fuel : Nat) (cfg : IC → ArithmeticIntegerCompressor) (ic : IC)
    (pred real : Int) (context : Nat) (ev : List CoderEvent) (u : Unit) :
    (compress_ ic pred real context).run fuel cfg = some (ev, u) ↔
      ∃ e s, Compress fuel (cfg ic) pred real context = some (e, s) ∧
        ev = e.map (CoderEvent.ic ic) := by
  unfold compress_
  simp only [Prog.run]
  cases Compress fuel (cfg ic) pred real context with
  | none => simp
  | some r =>
    obtain ⟨e, s⟩ := r
    simp only [List.append_nil, Option.some.injEq, Prod.mk.injEq]
    constructor
    · rintro ⟨rfl, _⟩
      exact ⟨e, s, ⟨rfl, rfl⟩, rfl⟩
    · rintro ⟨e', s', ⟨rfl, rfl⟩, rfl⟩
      exact ⟨rfl, trivial⟩

theorem run_encodeSymbol (fuel : Nat) (cfg : IC → ArithmeticIntegerCompressor) (m : SymbolModel)
    (sym : Nat) :
    (encodeSymbol m sym).run fuel cfg = some ([CoderEvent.encodeSymbol m sym], ()) := rfl

theorem run_ret {α : Type} (fuel : Nat) (cfg : IC → ArithmeticIntegerCompressor) (a : α) :
    (Prog.ret a).run fuel cfg = some ([], a) := rfl

theorem Prog.run_when (fuel : Nat) (cfg : IC → ArithmeticIntegerCompressor) (c : Prop)
    [Decidable c] (p : Prog Unit) :
    (Prog.when c p).run fuel cfg = if c then p.run fuel cfg else some ([], ()) := by
  unfold Prog.when
  split <;> rfl

/-! ## Round trip of one value through a compressor of the item writers -/

/-- A compressor of `B ≤ 31` bits: for a value of `[-2^(B-1), 2^B)` and a prediction at
distance below `2^B` (non-negative value, or prediction at least `-2^(B-1)`),
`Compress` returns and `Decompress` reads the residue of the value modulo `2^B`. -/
theorem IntegerCompressor_round_trip (B contexts bits_high fuel : Nat) (p v : Int) (ctx : Nat)
    (rest : List Event) (hB1 : 1 ≤ B) (hB31 : B ≤ 31) (hf : 31 ≤ fuel)
    (h1 : -((2 ^ B : Nat) : Int) + 1 ≤ v - p) (h2 : v - p ≤ ((2 ^ B : Nat) : Int) - 1)
    (hv1 : -((2 ^ (B - 1) : Nat) : Int) ≤ v) (hv2 : v < ((2 ^ B : Nat) : Int))
    (hvp : 0 ≤ v ∨ -((2 ^ (B - 1) : Nat) : Int) ≤ p) :
    ∃ ev e d, Compress fuel (IntegerCompressor B contexts bits_high) p v ctx = some (ev, e) ∧
      Decompress (IntegerDecompressor B contexts bits_high) p ctx (ev ++ rest) =
        some (v % ((2 ^ B : Nat) : Int), d, rest) ∧ d.k = e.k ∧ e.k ≤ 31 := by
  unfold IntegerCompressor IntegerDecompressor
  obtain ⟨_, hR, hmin, hmax⟩ := SetupCompressor_bits
    { ArithmeticIntegerCompressor.new with bits := B } B contexts bits_high rfl rfl hB1 hB31
  obtain ⟨hbh, _, hRd, _, _⟩ := SetupDecompressor_corr
    { ArithmeticIntegerCompressor.new with bits := B } contexts bits_high
  obtain ⟨hf1, hf2, hun⟩ := fold_unfold_bits _ _ B p v hB1 hB31 hR (by rw [hRd, hR]) hmin hmax
    h1 h2 hv1 hv2 hvp
  have hne : foldCorrector (SetupCompressor { ArithmeticIntegerCompressor.new with bits := B }
      contexts bits_high) p v ≠ -2147483648 := by
    have := two_pow_le_31 hB31
    have hH := two_pow_pred hB1
    have := two_pow_pos (B - 1)
    rw [hmin] at hf1
    omega
  obtain ⟨hk, ev, hc, hd⟩ := Decompress_Compress fuel _ _ p v ctx rest hf hbh hne
  rw [hun] at hd
  exact ⟨ev, _, _, hc, hd, rfl, hk⟩

/-- A compressor of 32 bits: for every `I32` value whose wrapped difference from the
prediction is not `I32_MIN`, `Compress` returns and `Decompress` reads the value. -/
theorem IntegerCompressor_round_trip_32 (contexts bits_high fuel : Nat) (p v : Int) (ctx : Nat)
    (rest : List Event) (hf : 31 ≤ fuel) (hv1 : I32_MIN ≤ v) (hv2 : v ≤ I32_MAX)
    (hne : toI32 (v - p) ≠ I32_MIN) :
    ∃ ev e d, Compress fuel (IntegerCompressor 32 contexts bits_high) p v ctx = some (ev, e) ∧
      Decompress (IntegerDecompressor 32 contexts bits_high) p ctx (ev ++ rest) =
        some (v, d, rest) ∧ d.k = e.k ∧ e.k = bitLength (toI32 (v - p)) ∧ e.k ≤ 31 := by
  unfold IntegerCompressor IntegerDecompressor
  obtain ⟨_, hR, hmin, hmax⟩ := SetupCompressor_32
    { ArithmeticIntegerCompressor.new with bits := 32 } contexts bits_high rfl
    (Or.inr (le_refl _))
  obtain ⟨hbh, _, hRd, _, _⟩ := SetupDecompressor_corr
    { ArithmeticIntegerCompressor.new with bits := 32 } contexts bits_high
  obtain ⟨hfold, hun⟩ := fold_unfold_32 (SetupCompressor
    { ArithmeticIntegerCompressor.new with bits := 32 } contexts bits_high)
    (SetupDecompressor { ArithmeticIntegerCompressor.new with bits := 32 } contexts bits_high)
    p v hmin hmax (by rw [hRd, hR]) hv1 hv2
  obtain ⟨hk, ev, hc, hd⟩ := Decompress_Compress fuel _ _ p v ctx rest hf hbh
    (by rw [hfold]; exact hne)
  rw [hun] at hd
  exact ⟨ev, _, _, hc, hd, rfl, by rw [hfold], hk⟩

/-! ## The events of a `compress` call determine the corrector -/

theorem magnitudeLoop_mono (fuel : Nat) : ∀ (c1 : Int) (k : Nat) (r : Int × Nat),
    magnitudeLoop fuel c1 k = some r → ∀ n, magnitudeLoop (fuel + n) c1 k = some r := by
  induction fuel with
  | zero =>
    intro c1 k r h n
    rw [magnitudeLoop] at h
    split at h
    · rename_i hc
      subst hc
      rw [magnitudeLoop_zero]
      exact h
    · exact absurd h (by simp)
  | succ f ih =>
    intro c1 k r h n
    rw [magnitudeLoop] at h
    rw [show f + 1 + n = (f + n) + 1 by omega, magnitudeLoop]
    split
    · rename_i hc
      rw [if_pos hc] at h
      exact h
    · rename_i hc
      rw [if_neg hc] at h
      exact ih _ _ _ h n

theorem writeCorrector_mono (fuel : Nat) (s : ArithmeticIntegerCompressor) (c : Int) (ctx : Nat)
    (r : List Event × ArithmeticIntegerCompressor) (h : writeCorrector fuel s c ctx = some r)
    (n : Nat) : writeCorrector (fuel + n) s c ctx = some r := by
  simp only [writeCorrector] at h ⊢
  cases hl : magnitudeLoop fuel (if c ≤ 0 then toI32 (-c) else toI32 (c - 1)) 0 with
  | none => rw [hl] at h; exact absurd h (by simp)
  | some r1 =>
    rw [hl] at h
    rw [magnitudeLoop_mono fuel _ _ _ hl n]
    exact h

/-- When `writeCorrector` returns on an `I32` corrector, `readCorrector` gets the
corrector back from its events, whatever follows them. -/
theorem readCorrector_of_writeCorrector (fuel : Nat) (s : ArithmeticIntegerCompressor) (c : Int)
    (ctx : Nat) (ev : List Event) (s1 : ArithmeticIntegerCompressor)
    (hc1 : -2147483648 ≤ c) (hc2 : c < 2147483648)
    (h : writeCorrector fuel s c ctx = some (ev, s1)) (t : List Event) :
    readCorrector s ctx (ev ++ t) = some (c, { s with k := s1.k }, t) := by
  have hne : c ≠ -2147483648 := by
    intro hc
    subst hc
    simp only [writeCorrector] at h
    rw [magnitudeLoop_neg fuel _ 0 (by decide)] at h
    exact absurd h (by simp)
  obtain ⟨_, ev', hw, hr⟩ := readCorrector_writeCorrector (fuel + 31) s s c ctx t (by omega) rfl
    (by omega) hc2
  rw [writeCorrector_mono fuel s c ctx _ h 31] at hw
  simp only [Option.some.injEq, Prod.mk.injEq] at hw
  rw [← hw.1] at hr
  rw [hw.2]
  exact hr

theorem map_append_eq_map_append {α β : Type} (f : α → β) (hf : Function.Injective f)
    (e1 e2 : List α) (r1 r2 : List β) (h : e1.map f ++ r1 = e2.map f ++ r2) :
    (∃ t, e2 = e1 ++ t ∧ r1 = t.map f ++ r2) ∨ (∃ t, e1 = e2 ++ t ∧ r2 = t.map f ++ r1) := by
  rw [List.append_eq_append_iff] at h
  rcases h with ⟨a, h1, h2⟩ | ⟨c, h1, h2⟩
  · left
    rw [List.map_eq_append_iff] at h1
    obtain ⟨l1, l2, rfl, h3, rfl⟩ := h1
    have := List.map_injective_iff.mpr hf h3
    subst this
    exact ⟨l2, rfl, h2⟩
  · right
    rw [List.map_eq_append_iff] at h1
    obtain ⟨l1, l2, rfl, h3, rfl⟩ := h1
    have := List.map_injective_iff.mpr hf h3
    subst this
    exact ⟨l2, rfl, h2⟩

theorem CoderEvent.ic_injective (c : IC) : Function.Injective (CoderEvent.ic c) := by
  intro a b h
  injection h

/-- Two `compress` calls of one compressor with the same prediction and context whose
events start the same sequence have folded the same corrector, expose the same `k`, and
leave the same rest of the sequence. -/
theorem Compress_events_inj (fuel : Nat) (e : ArithmeticIntegerCompressor) (p v v' : Int)
    (ctx : Nat) (c : IC) (e1 e2 : List Event) (s1 s2 : ArithmeticIntegerCompressor)
    (r1 r2 : List CoderEvent)
    (h1 : Compress fuel e p v ctx = some (e1, s1))
    (h2 : Compress fuel e p v' ctx = some (e2, s2))
    (h : e1.map (CoderEvent.ic c) ++ r1 = e2.map (CoderEvent.ic c) ++ r2) :
    foldCorrector e p v = foldCorrector e p v' ∧ s1.k = s2.k ∧ r1 = r2 := by
  unfold Compress at h1 h2
  have ha := readCorrector_of_writeCorrector fuel e _ ctx e1 s1 (foldCorrector_lower e p v)
    (foldCorrector_upper e p v) h1
  have hb := readCorrector_of_writeCorrector fuel e _ ctx e2 s2 (foldCorrector_lower e p v')
    (foldCorrector_upper e p v') h2
  rcases map_append_eq_map_append _ (CoderEvent.ic_injective c) e1 e2 r1 r2 h with
    ⟨t, rfl, hr⟩ | ⟨t, rfl, hr⟩
  · have h3 := ha t
    have h4 := hb []
    rw [List.append_nil, h3] at h4
    simp only [Option.some.injEq, Prod.mk.injEq] at h4
    obtain ⟨h5, h6, h7⟩ := h4
    subst h7
    refine ⟨h5, ?_, by simpa using hr⟩
    have := congrArg ArithmeticIntegerCompressor.k h6
    exact this
  · have h3 := hb t
    have h4 := ha []
    rw [List.append_nil, h3] at h4
    simp only [Option.some.injEq, Prod.mk.injEq] at h4
    obtain ⟨h5, h6, h7⟩ := h4
    subst h7
    refine ⟨h5.symm, ?_, by simpa using hr.symm⟩
    have := congrArg ArithmeticIntegerCompressor.k h6
    exact this.symm

/-! ## Claims on the POINT10 writer (C9, C10) -/

namespace LASwriteItemCompressed_POINT10_v1

/-- The comparison tree returns the middle element of its three arguments. -/
theorem median_middle (a b c : Int) :
    (median a b c = a ∨ median a b c = b ∨ median a b c = c) ∧
    ((a ≤ median a b c ∧ b ≤ median a b c) ∨ (a ≤ median a b c ∧ c ≤ median a b c) ∨
      (b ≤ median a b c ∧ c ≤ median a b c)) ∧
    ((median a b c ≤ a ∧ median a b c ≤ b) ∨ (median a b c ≤ a ∧ median a b c ≤ c) ∨
      (median a b c ≤ b ∧ median a b c ≤ c)) ∧
    (List.insertionSort (fun u v : Int => u ≤ v) [a, b, c]).get? 1 = some (median a b c) := by
  refine ⟨?_, ?_, ?_, ?_⟩
  · unfold median; split_ifs <;> simp
  · unfold median; split_ifs <;> omega
  · unfold median; split_ifs <;> omega
  · unfold median
    simp only [List.insertionSort, List.orderedInsert]
    split_ifs
    all_goals simp only [List.orderedInsert]
    all_goals split_ifs
    all_goals first | omega | (simp <;> omega)

/-- Claim C9: for every state of the POINT10 writer, with `a`, `b`, `c` the three values
held in the ring of the current scan direction, the prediction `median_x` that `write`
computes (and `median_y`, by the same comparison tree on the ring of the y differences)
is the middle element of the sorted triple: it is one of the three values, at least two
of them are `≤` it and at least two are `≥` it, and it is the element of index 1 of the
sorted list `[a, b, c]`. -/
theorem median_x_y_is_middle (s : LASwriteItemCompressed_POINT10_v1) :
    ((s.median_x = s.last_x_diff s.last_dir 0 ∨ s.median_x = s.last_x_diff s.last_dir 1 ∨
        s.median_x = s.last_x_diff s.last_dir 2) ∧
      ((s.last_x_diff s.last_dir 0 ≤ s.median_x ∧ s.last_x_diff s.last_dir 1 ≤ s.median_x) ∨
        (s.last_x_diff s.last_dir 0 ≤ s.median_x ∧ s.last_x_diff s.last_dir 2 ≤ s.median_x) ∨
        (s.last_x_diff s.last_dir 1 ≤ s.median_x ∧ s.last_x_diff s.last_dir 2 ≤ s.median_x)) ∧
      ((s.median_x ≤ s.last_x_diff s.last_dir 0 ∧ s.median_x ≤ s.last_x_diff s.last_dir 1) ∨
        (s.median_x ≤ s.last_x_diff s.last_dir 0 ∧ s.median_x ≤ s.last_x_diff s.last_dir 2) ∨
        (s.median_x ≤ s.last_x_diff s.last_dir 1 ∧ s.median_x ≤ s.last_x_diff s.last_dir 2)) ∧
      (List.insertionSort (fun u v : Int => u ≤ v)
        [s.last_x_diff s.last_dir 0, s.last_x_diff s.last_dir 1,
          s.last_x_diff s.last_dir 2]).get? 1 = some s.median_x) ∧
    ((s.median_y = s.last_y_diff s.last_dir 0 ∨ s.median_y = s.last_y_diff s.last_dir 1 ∨
        s.median_y = s.last_y_diff s.last_dir 2) ∧
      ((s.last_y_diff s.last_dir 0 ≤ s.median_y ∧ s.last_y_diff s.last_dir 1 ≤ s.median_y) ∨
        (s.last_y_diff s.last_dir 0 ≤ s.median_y ∧ s.last_y_diff s.last_dir 2 ≤ s.median_y) ∨
        (s.last_y_diff s.last_dir 1 ≤ s.median_y ∧ s.last_y_diff s.last_dir 2 ≤ s.median_y)) ∧
      ((s.median_y ≤ s.last_y_diff s.last_dir 0 ∧ s.median_y ≤ s.last_y_diff s.last_dir 1) ∨
        (s.median_y ≤ s.last_y_diff s.last_dir 0 ∧ s.median_y ≤ s.last_y_diff s.last_dir 2) ∨
        (s.median_y ≤ s.last_y_diff s.last_dir 1 ∧ s.median_y ≤ s.last_y_diff s.last_dir 2)) ∧
      (List.insertionSort (fun u v : Int => u ≤ v)
        [s.last_y_diff s.last_dir 0, s.last_y_diff s.last_dir 1,
          s.last_y_diff s.last_dir 2]).get? 1 = some s.median_y) :=
  ⟨median_middle _ _ _, median_middle _ _ _⟩

/-- The calls of `write`: three `compress` calls, the symbol of `changed_values`, and
then no further call of one of the three 32-bit compressors. -/
theorem write_calls (getK : IC → Int → Int → Nat → Nat)
    (s : LASwriteItemCompressed_POINT10_v1) (item : Bytes) :
    ((write s item).calls getK).1.take 4 =
      [ItemOp.compress IC.ic_dx s.median_x
          (toI32 ((asLASpoint10 item).x - (asLASpoint10 s.last_item).x)) s.last_dir,
        ItemOp.compress IC.ic_dy s.median_y
          (toI32 ((asLASpoint10 item).y - (asLASpoint10 s.last_item).y))
          (getK IC.ic_dx s.median_x
            (toI32 ((asLASpoint10 item).x - (asLASpoint10 s.last_item).x)) s.last_dir),
        ItemOp.compress IC.ic_z (asLASpoint10 s.last_item).z (asLASpoint10 item).z
          ((getK IC.ic_dx s.median_x
              (toI32 ((asLASpoint10 item).x - (asLASpoint10 s.last_item).x)) s.last_dir +
            getK IC.ic_dy s.median_y
              (toI32 ((asLASpoint10 item).y - (asLASpoint10 s.last_item).y))
              (getK IC.ic_dx s.median_x
                (toI32 ((asLASpoint10 item).x - (asLASpoint10 s.last_item).x)) s.last_dir))
            % 4294967296 / 2),
        ItemOp.encodeSymbol SymbolModel.m_changed_values (changed_values s.last_item item)] ∧
    ∀ ic pred real context,
      ItemOp.compress ic pred real context ∈ ((write s item).calls getK).1.drop 4 →
      ic = IC.ic_intensity ∨ ic = IC.ic_scan_angle_rank ∨ ic = IC.ic_point_source_ID := by
  simp only [write, Prog.bind_eq, Prog.pure_eq, Prog.calls_bind_fst, calls_compress,
    calls_compress_, calls_encodeSymbol, calls_ret, Prog.calls_when,
    List.cons_append, List.nil_append]
  refine ⟨rfl, ?_⟩
  intro ic pred real context h
  simp only [List.drop_succ_cons, List.drop_zero, List.mem_append, List.append_nil] at h
  rcases h with h | h | h | h | h | h
  all_goals split at h
  all_goals simp at h
  all_goals simp [h]

/-- The three compressors of the coordinates have 32 bits, the other three fewer. -/
theorem compressors_bits (bits_high : Nat) :
    (compressors bits_high IC.ic_dx).corr_bits = 32 ∧
    (compressors bits_high IC.ic_dy).corr_bits = 32 ∧
    (compressors bits_high IC.ic_z).corr_bits = 32 ∧
    (compressors bits_high IC.ic_intensity).corr_bits = 16 ∧
    (compressors bits_high IC.ic_scan_angle_rank).corr_bits = 8 ∧
    (compressors bits_high IC.ic_point_source_ID).corr_bits = 16 :=
  ⟨(SetupCompressor_32 _ _ _ rfl (Or.inr (le_refl _))).1,
   (SetupCompressor_32 _ _ _ rfl (Or.inr (le_refl _))).1,
   (SetupCompressor_32 _ _ _ rfl (Or.inr (le_refl _))).1,
   (SetupCompressor_bits _ 16 _ _ rfl rfl (by decide) (by decide)).1,
   (SetupCompressor_bits _ 8 _ _ rfl rfl (by decide) (by decide)).1,
   (SetupCompressor_bits _ 16 _ _ rfl rfl (by decide) (by decide)).1⟩

/-- Claim C10: for every codec state and every item, whatever magnitudes `k ≤ 32` the
compressors expose (`getK`), POINT10 `write` first makes exactly three calls of 32-bit
compressors, in this order: `x_diff = item.x - last.x` with prediction `median_x` and
context `last_dir`; `y_diff = item.y - last.y` with prediction `median_y` and context
`k_x`, the `k` exposed by the x call; `item.z` with prediction `last.z` and context
`floor((k_x + k_y) / 2)`, `k_y` being the `k` exposed by the y call.  The fourth call is
the symbol of `changed_values` and no call after it is a call of a 32-bit compressor. -/
theorem write_first_three_calls (getK : IC → Int → Int → Nat → Nat) (bits_high : Nat)
    (s : LASwriteItemCompressed_POINT10_v1) (item : Bytes)
    (hK : ∀ ic pred real context, getK ic pred real context ≤ 32) :
    ((write s item).calls getK).1.take 4 =
      [ItemOp.compress IC.ic_dx s.median_x
          (toI32 ((asLASpoint10 item).x - (asLASpoint10 s.last_item).x)) s.last_dir,
        ItemOp.compress IC.ic_dy s.median_y
          (toI32 ((asLASpoint10 item).y - (asLASpoint10 s.last_item).y))
          (getK IC.ic_dx s.median_x
            (toI32 ((asLASpoint10 item).x - (asLASpoint10 s.last_item).x)) s.last_dir),
        ItemOp.compress IC.ic_z (asLASpoint10 s.last_item).z (asLASpoint10 item).z
          ((getK IC.ic_dx s.median_x
              (toI32 ((asLASpoint10 item).x - (asLASpoint10 s.last_item).x)) s.last_dir +
            getK IC.ic_dy s.median_y
              (toI32 ((asLASpoint10 item).y - (asLASpoint10 s.last_item).y))
              (getK IC.ic_dx s.median_x
                (toI32 ((asLASpoint10 item).x - (asLASpoint10 s.last_item).x)) s.last_dir))
            / 2),
        ItemOp.encodeSymbol SymbolModel.m_changed_values (changed_values s.last_item item)] ∧
    (∀ ic pred real context,
      ItemOp.compress ic pred real context ∈ ((write s item).calls getK).1.drop 4 →
      ic = IC.ic_intensity ∨ ic = IC.ic_scan_angle_rank ∨ ic = IC.ic_point_source_ID) ∧
    ((compressors bits_high IC.ic_dx).corr_bits = 32 ∧
      (compressors bits_high IC.ic_dy).corr_bits = 32 ∧
      (compressors bits_high IC.ic_z).corr_bits = 32 ∧
      (compressors bits_high IC.ic_intensity).corr_bits = 16 ∧
      (compressors bits_high IC.ic_scan_angle_rank).corr_bits = 8 ∧
      (compressors bits_high IC.ic_point_source_ID).corr_bits = 16) := by
  obtain ⟨h1, h2⟩ := write_calls getK s item
  refine ⟨?_, h2, compressors_bits bits_high⟩
  rw [h1, Nat.mod_eq_of_lt]
  have := hK IC.ic_dx s.median_x
    (toI32 ((asLASpoint10 item).x - (asLASpoint10 s.last_item).x)) s.last_dir
  have := hK IC.ic_dy s.median_y
    (toI32 ((asLASpoint10 item).y - (asLASpoint10 s.last_item).y))
    (getK IC.ic_dx s.median_x
      (toI32 ((asLASpoint10 item).x - (asLASpoint10 s.last_item).x)) s.last_dir)
  omega

/-- Witness of `write_first_three_calls`: the writer initialised on the all-zero point, an
item with `x = 5`, compressors that expose `k = 4`. -/
theorem write_first_three_calls_witness :
    ((write (init (fun _ => 0)) (fun i => if i = 0 then 5 else 0)).calls
      (fun _ _ _ _ => 4)).1.take 4 =
      [ItemOp.compress IC.ic_dx 0 5 0, ItemOp.compress IC.ic_dy 0 0 4,
        ItemOp.compress IC.ic_z 0 0 4,
        ItemOp.encodeSymbol SymbolModel.m_changed_values 0] := by
  have h := write_first_three_calls (fun _ _ _ _ => 4) 8 (init (fun _ => 0))
    (fun i => if i = 0 then 5 else 0) (by intro _ _ _ _; show (4 : Nat) ≤ 32; decide)
  exact h.1.trans (by decide)

end LASwriteItemCompressed_POINT10_v1

/-! ## Claim on the BYTE writer (C4) -/

namespace LASwriteItemCompressed_BYTE_v1

theorem writeLoop_calls (getK : IC → Int → Int → Nat → Nat)
    (s : LASwriteItemCompressed_BYTE_v1) (item : Bytes) (n : Nat) : ∀ i : Nat,
    ((writeLoop s item n i).calls getK).1 =
      (List.range n).map fun j =>
        ItemOp.compress IC.ic_byte (s.last_item (i + j)).val (item (i + j)).val (i + j) := by
  induction n with
  | zero => intro i; rfl
  | succ n ih =>
    intro i
    rw [writeLoop, Prog.bind_eq, Prog.calls_bind_fst, calls_compress_, ih (i + 1),
      List.range_succ_eq_map, List.map_cons, List.map_map]
    simp only [List.singleton_append, Nat.add_zero, List.cons.injEq, true_and]
    apply List.map_congr_left
    intro j _
    simp only [Function.comp, Nat.succ_eq_add_one]
    rw [show i + 1 + j = i + (j + 1) by omega]

theorem writeLoop_round_trip (number bits_high fuel : Nat) (hf : 31 ≤ fuel)
    (s : LASwriteItemCompressed_BYTE_v1) (item : Bytes) (n : Nat) :
    ∀ (i : Nat) (rest : List Event),
    ∃ evs : List Event,
      (writeLoop s item n i).run fuel (compressors number bits_high) =
        some (evs.map (CoderEvent.ic IC.ic_byte), ()) ∧
      readLoop (IntegerDecompressor 8 number bits_high) s.last_item n i (evs ++ rest) =
        some ((List.range n).map (fun j => (((item (i + j)).val : Nat) : Int)), rest) := by
  induction n with
  | zero =>
    intro i rest
    exact ⟨[], rfl, rfl⟩
  | succ n ih =>
    intro i rest
    obtain ⟨evs, hrun, hread⟩ := ih (i + 1) rest
    have hp := (s.last_item i).isLt
    have hv := (item i).isLt
    obtain ⟨ev, e, d, hc, hd, _, _⟩ := IntegerCompressor_round_trip 8 number bits_high fuel
      ((s.last_item i).val : Int) ((item i).val : Int) i (evs ++ rest)
      (by decide) (by decide) hf
      (by norm_num; omega) (by norm_num; omega) (by norm_num; omega) (by norm_num)
      (Or.inl (by omega))
    refine ⟨ev ++ evs, ?_, ?_⟩
    · rw [writeLoop, Prog.bind_eq, Prog.run_bind_eq_some]
      refine ⟨ev.map (CoderEvent.ic IC.ic_byte), (), evs.map (CoderEvent.ic IC.ic_byte), ?_,
        hrun, by rw [List.map_append]⟩
      rw [run_compress__eq_some]
      exact ⟨ev, e, hc, rfl⟩
    · rw [readLoop, List.append_assoc, hd]
      simp only [hread]
      rw [List.range_succ_eq_map, List.map_cons, List.map_map]
      have hmod : (((item i).val : Nat) : Int) % ((2 ^ 8 : Nat) : Int) = ((item i).val : Int) := by
        simp only [Nat.reducePow]; omega
      rw [hmod]
      simp only [Nat.add_zero, Option.some.injEq, Prod.mk.injEq, List.cons.injEq, true_and,
        and_true]
      apply List.map_congr_left
      intro j _
      simp only [Function.comp, Nat.succ_eq_add_one]
      rw [show i + 1 + j = i + (j + 1) by omega]

/-- Claim C4: BYTE[n] round trip.  For every `n` (in particular `n ≥ 1`) and every pair of
blobs `last` and `item`, `write` makes exactly `n` calls, the `i`-th (`i = 0..n-1`,
ascending) the `compress` call of the 8-bit compressor `ic_byte` with prediction
`last[i]`, value `item[i]` and context `i`; the calls return (32 iterations of the
magnitude loop are enough), and decoding the events they emit with the mirror sequence
`Decompress(last[i], i)`, `i = 0..n-1`, yields `item` byte for byte and reads all the
events; afterwards the stored last blob equals `item`. -/
theorem write_round_trip (getK : IC → Int → Int → Nat → Nat) (bits_high fuel : Nat)
    (s : LASwriteItemCompressed_BYTE_v1) (item : Bytes) (hf : 32 ≤ fuel) :
    ((write s item).calls getK).1 =
      (List.range s.number).map (fun i =>
        ItemOp.compress IC.ic_byte (s.last_item i).val (item i).val i) ∧
    (compressors s.number bits_high IC.ic_byte).corr_bits = 8 ∧
    (∃ evs : List Event,
      (write s item).run fuel (compressors s.number bits_high) =
        some (evs.map (CoderEvent.ic IC.ic_byte), ((write s item).calls getK).2) ∧
      readLoop (IntegerDecompressor 8 s.number bits_high) s.last_item s.number 0 evs =
        some ((List.range s.number).map (fun i => (((item i).val : Nat) : Int)), [])) ∧
    ((write s item).calls getK).2.number = s.number ∧
    ∀ i, i < s.number → ((write s item).calls getK).2.last_item i = item i := by
  refine ⟨?_, ?_, ?_, ?_, ?_⟩
  · rw [write, Prog.bind_eq, Prog.calls_bind_fst, writeLoop_calls]
    simp only [Prog.pure_eq, calls_ret, List.append_nil, Nat.zero_add]
  · exact (SetupCompressor_bits { ArithmeticIntegerCompressor.new with bits := 8 } 8 s.number
      bits_high rfl rfl (by decide) (by decide)).1
  · obtain ⟨evs, hrun, hread⟩ := writeLoop_round_trip s.number bits_high fuel (by omega) s item
      s.number 0 []
    refine ⟨evs, ?_, ?_⟩
    · rw [write, Prog.bind_eq, Prog.run_bind_eq_some]
      refine ⟨_, (), [], hrun, ?_, by rw [List.append_nil]⟩
      rw [Prog.calls_bind_snd]
      rfl
    · rw [List.append_nil] at hread
      simpa only [Nat.zero_add] using hread
  · rw [write, Prog.bind_eq, Prog.calls_bind_snd]
    rfl
  · intro i hi
    rw [write, Prog.bind_eq, Prog.calls_bind_snd]
    simp only [Prog.pure_eq, calls_ret, memcpy, hi, if_true]

/-- Witness of `write_round_trip`: `n = 3`, the last blob `(1, 2, 3)`, the item
`(250, 2, 0)`. -/
theorem write_round_trip_witness :
    ((write { number := 3, last_item := fun i => if i = 0 then 1 else if i = 1 then 2 else 3 }
        (fun i => if i = 0 then 250 else if i = 1 then 2 else 0)).calls
        (fun _ _ _ _ => 0)).1 =
      [ItemOp.compress IC.ic_byte 1 250 0, ItemOp.compress IC.ic_byte 2 2 1,
        ItemOp.compress IC.ic_byte 3 0 2] := by
  have h := write_round_trip (fun _ _ _ _ => 0) 8 32
    { number := 3, last_item := fun i => if i = 0 then 1 else if i = 1 then 2 else 3 }
    (fun i => if i = 0 then 250 else if i = 1 then 2 else 0) (by decide)
  exact h.1.trans (by decide)

end LASwriteItemCompressed_BYTE_v1

/-! ## Claim on the losslessness of the POINT10 writer (C3) -/

theorem getI32_bounds (b : Bytes) (off : Nat) :
    I32_MIN ≤ getI32 b off ∧ getI32 b off ≤ I32_MAX := by
  have h1 := toI32_lower (((b off).val + 256 * (b (off + 1)).val + 65536 * (b (off + 2)).val
    + 16777216 * (b (off + 3)).val : Nat) : Int)
  have h2 := toI32_upper (((b off).val + 256 * (b (off + 1)).val + 65536 * (b (off + 2)).val
    + 16777216 * (b (off + 3)).val : Nat) : Int)
  unfold getI32 I32_MIN I32_MAX
  omega

theorem getI32_inj (a b : Bytes) (off : Nat) (h : getI32 a off = getI32 b off) :
    a off = b off ∧ a (off + 1) = b (off + 1) ∧ a (off + 2) = b (off + 2) ∧
      a (off + 3) = b (off + 3) := by
  unfold getI32 toI32 at h
  have h0 := (a off).isLt
  have h1 := (a (off + 1)).isLt
  have h2 := (a (off + 2)).isLt
  have h3 := (a (off + 3)).isLt
  have g0 := (b off).isLt
  have g1 := (b (off + 1)).isLt
  have g2 := (b (off + 2)).isLt
  have g3 := (b (off + 3)).isLt
  refine ⟨Fin.ext ?_, Fin.ext ?_, Fin.ext ?_, Fin.ext ?_⟩ <;> omega

theorem getU16_inj (a b : Bytes) (off : Nat) (h : getU16 a off = getU16 b off) :
    a off = b off ∧ a (off + 1) = b (off + 1) := by
  unfold getU16 at h
  have h0 := (a off).isLt
  have h1 := (a (off + 1)).isLt
  have g0 := (b off).isLt
  have g1 := (b (off + 1)).isLt
  refine ⟨Fin.ext ?_, Fin.ext ?_⟩ <;> omega

theorem getU16_lt (a : Bytes) (off : Nat) : getU16 a off < 65536 := by
  unfold getU16
  have h0 := (a off).isLt
  have h1 := (a (off + 1)).isLt
  omega

theorem getI8_inj (a b : Bytes) (off : Nat) (h : getI8 a off = getI8 b off) : a off = b off := by
  unfold getI8 at h
  have h0 := (a off).isLt
  have g0 := (b off).isLt
  apply Fin.ext
  split at h <;> split at h <;> omega

theorem getI8_bounds (a : Bytes) (off : Nat) : -128 ≤ getI8 a off ∧ getI8 a off ≤ 127 := by
  unfold getI8
  have h0 := (a off).isLt
  split <;> omega

/-- Correctors of a 32-bit compressor: equal correctors for one prediction come from
equal `I32` values. -/
theorem foldCorrector_32_inj (contexts bits_high : Nat) (p v v' : Int)
    (hv1 : I32_MIN ≤ v) (hv2 : v ≤ I32_MAX) (hv1' : I32_MIN ≤ v') (hv2' : v' ≤ I32_MAX)
    (h : foldCorrector (IntegerCompressor 32 contexts bits_high) p v =
      foldCorrector (IntegerCompressor 32 contexts bits_high) p v') : v = v' := by
  unfold IntegerCompressor at h
  obtain ⟨_, hR, hmin, hmax⟩ := SetupCompressor_32
    { ArithmeticIntegerCompressor.new with bits := 32 } contexts bits_high rfl
    (Or.inr (le_refl _))
  have ha := (fold_unfold_32 _ _ p v hmin hmax hR hv1 hv2).2
  have hb := (fold_unfold_32 _ _ p v' hmin hmax hR hv1' hv2').2
  rw [h] at ha
  rw [← ha, hb]

/-- Correctors of a compressor of `B ≤ 31` bits: equal correctors for one prediction come
from values with equal residues modulo `2^B`. -/
theorem foldCorrector_bits_inj (B contexts bits_high : Nat) (p v v' : Int)
    (hB1 : 1 ≤ B) (hB31 : B ≤ 31)
    (h1 : -((2 ^ B : Nat) : Int) + 1 ≤ v - p) (h2 : v - p ≤ ((2 ^ B : Nat) : Int) - 1)
    (hv1 : -((2 ^ (B - 1) : Nat) : Int) ≤ v) (hv2 : v < ((2 ^ B : Nat) : Int))
    (h1' : -((2 ^ B : Nat) : Int) + 1 ≤ v' - p) (h2' : v' - p ≤ ((2 ^ B : Nat) : Int) - 1)
    (hv1' : -((2 ^ (B - 1) : Nat) : Int) ≤ v') (hv2' : v' < ((2 ^ B : Nat) : Int))
    (hp : -((2 ^ (B - 1) : Nat) : Int) ≤ p)
    (h : foldCorrector (IntegerCompressor B contexts bits_high) p v =
      foldCorrector (IntegerCompressor B contexts bits_high) p v') :
    v % ((2 ^ B : Nat) : Int) = v' % ((2 ^ B : Nat) : Int) := by
  unfold IntegerCompressor at h
  obtain ⟨_, hR, hmin, hmax⟩ := SetupCompressor_bits
    { ArithmeticIntegerCompressor.new with bits := B } B contexts bits_high rfl rfl hB1 hB31
  have ha := (fold_unfold_bits _ _ B p v hB1 hB31 hR hR hmin hmax h1 h2 hv1 hv2 (Or.inr hp)).2.2
  have hb := (fold_unfold_bits _ _ B p v' hB1 hB31 hR hR hmin hmax h1' h2' hv1' hv2'
    (Or.inr hp)).2.2
  rw [h] at ha
  rw [← ha, hb]

theorem foldCorrector_diff32_inj (contexts bits_high : Nat) (p xa xb xl : Int)
    (ha1 : I32_MIN ≤ xa) (ha2 : xa ≤ I32_MAX) (hb1 : I32_MIN ≤ xb) (hb2 : xb ≤ I32_MAX)
    (h : foldCorrector (IntegerCompressor 32 contexts bits_high) p (toI32 (xa - xl)) =
      foldCorrector (IntegerCompressor 32 contexts bits_high) p (toI32 (xb - xl))) : xa = xb := by
  have h1 := toI32_lower (xa - xl)
  have h2 := toI32_upper (xa - xl)
  have h3 := toI32_lower (xb - xl)
  have h4 := toI32_upper (xb - xl)
  have h5 := foldCorrector_32_inj contexts bits_high p (toI32 (xa - xl)) (toI32 (xb - xl))
    (by unfold I32_MIN; omega) (by unfold I32_MAX; omega) (by unfold I32_MIN; omega)
    (by unfold I32_MAX; omega) h
  unfold toI32 at h5
  unfold I32_MIN at ha1 hb1
  unfold I32_MAX at ha2 hb2
  omega

theorem foldCorrector_u16_inj (contexts bits_high : Nat) (l a b : Nat) (hl : l < 65536)
    (ha : a < 65536) (hb : b < 65536)
    (h : foldCorrector (IntegerCompressor 16 contexts bits_high) (l : Int) (a : Int) =
      foldCorrector (IntegerCompressor 16 contexts bits_high) (l : Int) (b : Int)) : a = b := by
  have h5 := foldCorrector_bits_inj 16 contexts bits_high (l : Int) (a : Int) (b : Int)
    (by decide) (by decide) (by norm_num; omega) (by norm_num; omega) (by norm_num; omega)
    (by norm_num; omega) (by norm_num; omega) (by norm_num; omega) (by norm_num; omega)
    (by norm_num; omega) (by norm_num; omega) h
  norm_num at h5
  omega

theorem foldCorrector_i8_inj (contexts bits_high : Nat) (l a b : Int)
    (hl1 : -128 ≤ l) (ha1 : -128 ≤ a) (ha2 : a ≤ 127) (hb1 : -128 ≤ b)
    (hb2 : b ≤ 127) (hl2 : l ≤ 127)
    (h : foldCorrector (IntegerCompressor 8 contexts bits_high) l a =
      foldCorrector (IntegerCompressor 8 contexts bits_high) l b) : a = b := by
  have h5 := foldCorrector_bits_inj 8 contexts bits_high l a b
    (by decide) (by decide) (by norm_num; omega) (by norm_num; omega) (by norm_num; omega)
    (by norm_num; omega) (by norm_num; omega) (by norm_num; omega) (by norm_num; omega)
    (by norm_num; omega) (by norm_num; omega) h
  norm_num at h5
  omega

theorem when_compress_inj (fuel : Nat) (cfg : IC → ArithmeticIntegerCompressor) (c : Prop)
    [Decidable c] (ic : IC) (p v v' : Int) (ctx : Nat) (e1 e2 r1 r2 : List CoderEvent)
    (h1 : (Prog.when c (compress_ ic p v ctx)).run fuel cfg = some (e1, ()))
    (h2 : (Prog.when c (compress_ ic p v' ctx)).run fuel cfg = some (e2, ()))
    (h : e1 ++ r1 = e2 ++ r2) :
    (c → foldCorrector (cfg ic) p v = foldCorrector (cfg ic) p v') ∧ r1 = r2 := by
  rw [Prog.run_when] at h1 h2
  by_cases hc : c
  · rw [if_pos hc, run_compress__eq_some] at h1 h2
    obtain ⟨ea, sa, hca, rfl⟩ := h1
    obtain ⟨eb, sb, hcb, rfl⟩ := h2
    obtain ⟨hf, _, hr⟩ := Compress_events_inj fuel (cfg ic) p v v' ctx ic ea eb sa sb r1 r2 hca hcb h
    exact ⟨fun _ => hf, hr⟩
  · rw [if_neg hc] at h1 h2
    simp only [Option.some.injEq, Prod.mk.injEq, and_true] at h1 h2
    subst h1 h2
    exact ⟨fun h' => absurd h' hc, by simpa using h⟩

theorem when_symbol_inj (fuel : Nat) (cfg : IC → ArithmeticIntegerCompressor) (c : Prop)
    [Decidable c] (m : SymbolModel) (x y : Nat) (e1 e2 r1 r2 : List CoderEvent)
    (h1 : (Prog.when c (encodeSymbol m x)).run fuel cfg = some (e1, ()))
    (h2 : (Prog.when c (encodeSymbol m y)).run fuel cfg = some (e2, ()))
    (h : e1 ++ r1 = e2 ++ r2) :
    (c → x = y) ∧ r1 = r2 := by
  rw [Prog.run_when] at h1 h2
  by_cases hc : c
  · rw [if_pos hc, run_encodeSymbol] at h1 h2
    simp only [Option.some.injEq, Prod.mk.injEq, and_true] at h1 h2
    subst h1 h2
    simp only [List.singleton_append, List.cons.injEq, CoderEvent.encodeSymbol.injEq,
      true_and] at h
    exact ⟨fun _ => h.1, h.2⟩
  · rw [if_neg hc] at h1 h2
    simp only [Option.some.injEq, Prod.mk.injEq, and_true] at h1 h2
    subst h1 h2
    exact ⟨fun h' => absurd h' hc, by simpa using h⟩

namespace LASwriteItemCompressed_POINT10_v1

/-- The bits of `changed_values` tell which fields differ. -/
theorem changed_values_bits (last item : Bytes) :
    (changed_values last item &&& 32 ≠ 0 ↔
      (asLASpoint10 last).intensity ≠ (asLASpoint10 item).intensity) ∧
    (changed_values last item &&& 16 ≠ 0 ↔ last 14 ≠ item 14) ∧
    (changed_values last item &&& 8 ≠ 0 ↔
      (asLASpoint10 last).classification ≠ (asLASpoint10 item).classification) ∧
    (changed_values last item &&& 4 ≠ 0 ↔
      (asLASpoint10 last).scan_angle_rank ≠ (asLASpoint10 item).scan_angle_rank) ∧
    (changed_values last item &&& 2 ≠ 0 ↔
      (asLASpoint10 last).user_data ≠ (asLASpoint10 item).user_data) ∧
    (changed_values last item &&& 1 ≠ 0 ↔
      (asLASpoint10 last).point_source_ID ≠ (asLASpoint10 item).point_source_ID) := by
  unfold changed_values
  split_ifs <;> simp_all <;> decide

/-- The decomposition of a run of `write` into the runs of its statements. -/
theorem write_run_inv (fuel bits_high : Nat) (s : LASwriteItemCompressed_POINT10_v1)
    (item : Bytes) (ev : List CoderEvent) (sa : LASwriteItemCompressed_POINT10_v1)
    (h : (write s item).run fuel (compressors bits_high) = some (ev, sa)) :
    ∃ (ex ey ez : List Event) (sx sy sz : ArithmeticIntegerCompressor)
      (e5 e6 e7 e8 e9 e10 : List CoderEvent),
      Compress fuel (compressors bits_high IC.ic_dx) s.median_x
        (toI32 ((asLASpoint10 item).x - (asLASpoint10 s.last_item).x)) s.last_dir =
        some (ex, sx) ∧
      Compress fuel (compressors bits_high IC.ic_dy) s.median_y
        (toI32 ((asLASpoint10 item).y - (asLASpoint10 s.last_item).y)) sx.k = some (ey, sy) ∧
      Compress fuel (compressors bits_high IC.ic_z) (asLASpoint10 s.last_item).z
        (asLASpoint10 item).z ((sx.k + sy.k) % 4294967296 / 2) = some (ez, sz) ∧
      (Prog.when (changed_values s.last_item item &&& 32 ≠ 0)
        (compress_ IC.ic_intensity (asLASpoint10 s.last_item).intensity
          (asLASpoint10 item).intensity 0)).run fuel (compressors bits_high) = some (e5, ()) ∧
      (Prog.when (changed_values s.last_item item &&& 16 ≠ 0)
        (encodeSymbol SymbolModel.m_bit_byte (item 14).val)).run fuel (compressors bits_high) =
        some (e6, ()) ∧
      (Prog.when (changed_values s.last_item item &&& 8 ≠ 0)
        (encodeSymbol SymbolModel.m_classification (asLASpoint10 item).classification)).run
        fuel (compressors bits_high) = some (e7, ()) ∧
      (Prog.when (changed_values s.last_item item &&& 4 ≠ 0)
        (compress_ IC.ic_scan_angle_rank (asLASpoint10 s.last_item).scan_angle_rank
          (asLASpoint10 item).scan_angle_rank
          (if (sx.k + sy.k) % 4294967296 / 2 < 3 then 1 else 0))).run fuel
        (compressors bits_high) = some (e8, ()) ∧
      (Prog.when (changed_values s.last_item item &&& 2 ≠ 0)
        (encodeSymbol SymbolModel.m_user_data (asLASpoint10 item).user_data)).run fuel
        (compressors bits_high) = some (e9, ()) ∧
      (Prog.when (changed_values s.last_item item &&& 1 ≠ 0)
        (compress_ IC.ic_point_source_ID (asLASpoint10 s.last_item).point_source_ID
          (asLASpoint10 item).point_source_ID 0)).run fuel (compressors bits_high) =
        some (e10, ()) ∧
      ev = ex.map (CoderEvent.ic IC.ic_dx) ++ (ey.map (CoderEvent.ic IC.ic_dy) ++
        (ez.map (CoderEvent.ic IC.ic_z) ++
          (CoderEvent.encodeSymbol SymbolModel.m_changed_values
              (changed_values s.last_item item) ::
            (e5 ++ (e6 ++ (e7 ++ (e8 ++ (e9 ++ e10)))))))) ∧
      sa = record s item (toI32 ((asLASpoint10 item).x - (asLASpoint10 s.last_item).x))
        (toI32 ((asLASpoint10 item).y - (asLASpoint10 s.last_item).y)) := by
  simp only [write, Prog.bind_eq, Prog.pure_eq, Prog.run_bind_eq_some, run_compress_eq_some,
    run_compress__eq_some, run_encodeSymbol, run_ret, Option.some.injEq, Prod.mk.injEq] at h
  obtain ⟨_, kx, _, ⟨ex, sx, hx, rfl, rfl⟩, ⟨_, ky, _, ⟨ey, sy, hy, rfl, rfl⟩,
    ⟨_, _, _, ⟨ez, sz, hz, rfl⟩, ⟨_, _, _, ⟨rfl, _⟩, ⟨e5, _, _, h5, ⟨e6, _, _, h6,
      ⟨e7, _, _, h7, ⟨e8, _, _, h8, ⟨e9, _, _, h9, ⟨e10, _, _, h10, ⟨rfl, rfl⟩, rfl⟩,
        rfl⟩, rfl⟩, rfl⟩, rfl⟩, rfl⟩, rfl⟩, rfl⟩, rfl⟩, rfl⟩ := h
  exact ⟨ex, ey, ez, sx, sy, sz, e5, e6, e7, e8, e9, e10, hx, hy, hz, h5, h6, h7, h8, h9, h10,
    by simp, rfl⟩

/-- Claim C3: POINT10 encoding is lossless.  For every codec state (in particular every
state reachable from `init` by writes), every two items `a` and `b` and every bound on
the iterations of the magnitude loops: if `write(a)` and `write(b)` started from that
state both return and emit the same sequence of coder events, then `a` and `b` are
equal byte for byte (the 20 bytes of the item). -/
theorem write_events_injective (fuel bits_high : Nat) (s : LASwriteItemCompressed_POINT10_v1)
    (a b : Bytes) (ev : List CoderEvent) (sa sb : LASwriteItemCompressed_POINT10_v1)
    (ha : (write s a).run fuel (compressors bits_high) = some (ev, sa))
    (hb : (write s b).run fuel (compressors bits_high) = some (ev, sb)) :
    ∀ i, i < 20 → a i = b i := by
  obtain ⟨ex, ey, ez, sx, sy, sz, e5, e6, e7, e8, e9, e10, hx, hy, hz, h5, h6, h7, h8, h9, h10,
    hev, _⟩ := write_run_inv fuel bits_high s a ev sa ha
  obtain ⟨ex', ey', ez', sx', sy', sz', e5', e6', e7', e8', e9', e10', hx', hy', hz', h5', h6',
    h7', h8', h9', h10', hev', _⟩ := write_run_inv fuel bits_high s b ev sb hb
  rw [hev] at hev'
  -- x, y, z
  obtain ⟨fx, kx, hev1⟩ := Compress_events_inj fuel _ _ _ _ _ IC.ic_dx ex ex' sx sx' _ _ hx hx' hev'
  rw [← kx] at hy' hz' h8'
  obtain ⟨fy, ky, hev2⟩ := Compress_events_inj fuel _ _ _ _ _ IC.ic_dy ey ey' sy sy' _ _ hy hy' hev1
  rw [← ky] at hz' h8'
  obtain ⟨fz, _, hev3⟩ := Compress_events_inj fuel _ _ _ _ _ IC.ic_z ez ez' sz sz' _ _ hz hz' hev2
  -- the symbol of changed_values
  simp only [List.cons.injEq, CoderEvent.encodeSymbol.injEq, true_and] at hev3
  obtain ⟨hcv, hev4⟩ := hev3
  rw [← hcv] at h5' h6' h7' h8' h9' h10'
  -- the fields that have changed
  obtain ⟨f5, hev5⟩ := when_compress_inj fuel _ _ _ _ _ _ _ e5 e5' _ _ h5 h5' hev4
  obtain ⟨f6, hev6⟩ := when_symbol_inj fuel _ _ _ _ _ e6 e6' _ _ h6 h6' hev5
  obtain ⟨f7, hev7⟩ := when_symbol_inj fuel _ _ _ _ _ e7 e7' _ _ h7 h7' hev6
  obtain ⟨f8, hev8⟩ := when_compress_inj fuel _ _ _ _ _ _ _ e8 e8' _ _ h8 h8' hev7
  obtain ⟨f9, hev9⟩ := when_symbol_inj fuel _ _ _ _ _ e9 e9' _ _ h9 h9' hev8
  obtain ⟨f10, _⟩ := when_compress_inj fuel _ _ _ _ _ _ _ e10 e10' [] [] h10 h10'
    (by simpa using hev9)
  simp only [compressors, asLASpoint10] at fx fy fz f5 f7 f8 f9 f10
  obtain ⟨ba5, ba6, ba7, ba8, ba9, ba10⟩ := changed_values_bits s.last_item a
  obtain ⟨bb5, bb6, bb7, bb8, bb9, bb10⟩ := changed_values_bits s.last_item b
  rw [← hcv] at bb5 bb6 bb7 bb8 bb9 bb10
  simp only [asLASpoint10] at ba5 ba7 ba8 ba9 ba10 bb5 bb7 bb8 bb9 bb10
  -- x, y, z
  have hxab : getI32 a 0 = getI32 b 0 :=
    foldCorrector_diff32_inj 2 bits_high s.median_x (getI32 a 0) (getI32 b 0)
      (getI32 s.last_item 0) (getI32_bounds a 0).1 (getI32_bounds a 0).2 (getI32_bounds b 0).1
      (getI32_bounds b 0).2 fx
  have hyab : getI32 a 4 = getI32 b 4 :=
    foldCorrector_diff32_inj 33 bits_high s.median_y (getI32 a 4) (getI32 b 4)
      (getI32 s.last_item 4) (getI32_bounds a 4).1 (getI32_bounds a 4).2 (getI32_bounds b 4).1
      (getI32_bounds b 4).2 fy
  have hzab : getI32 a 8 = getI32 b 8 :=
    foldCorrector_32_inj 33 bits_high (getI32 s.last_item 8) (getI32 a 8) (getI32 b 8)
      (getI32_bounds a 8).1 (getI32_bounds a 8).2 (getI32_bounds b 8).1 (getI32_bounds b 8).2 fz
  -- intensity
  have hint : getU16 a 12 = getU16 b 12 := by
    by_cases hc : changed_values s.last_item a &&& 32 ≠ 0
    · exact foldCorrector_u16_inj 1 bits_high (getU16 s.last_item 12) (getU16 a 12)
        (getU16 b 12) (getU16_lt _ _) (getU16_lt _ _) (getU16_lt _ _) (f5 hc)
    · have e1 := not_not.mp (fun h => hc (ba5.mpr h))
      have e2 := not_not.mp (fun h => hc (bb5.mpr h))
      rw [← e1, ← e2]
  -- the bit byte
  have hbit : a 14 = b 14 := by
    by_cases hc : changed_values s.last_item a &&& 16 ≠ 0
    · exact Fin.ext (f6 hc)
    · have e1 := not_not.mp (fun h => hc (ba6.mpr h))
      have e2 := not_not.mp (fun h => hc (bb6.mpr h))
      rw [← e1, ← e2]
  -- classification
  have hcl : a 15 = b 15 := by
    by_cases hc : changed_values s.last_item a &&& 8 ≠ 0
    · exact Fin.ext (f7 hc)
    · have e1 := not_not.mp (fun h => hc (ba7.mpr h))
      have e2 := not_not.mp (fun h => hc (bb7.mpr h))
      exact Fin.ext (by rw [← e1, ← e2])
  -- scan_angle_rank
  have hsar : getI8 a 16 = getI8 b 16 := by
    by_cases hc : changed_values s.last_item a &&& 4 ≠ 0
    · exact foldCorrector_i8_inj 2 bits_high (getI8 s.last_item 16) (getI8 a 16) (getI8 b 16)
        (getI8_bounds _ _).1 (getI8_bounds _ _).1 (getI8_bounds _ _).2 (getI8_bounds _ _).1
        (getI8_bounds _ _).2 (getI8_bounds _ _).2 (f8 hc)
    · have e1 := not_not.mp (fun h => hc (ba8.mpr h))
      have e2 := not_not.mp (fun h => hc (bb8.mpr h))
      rw [← e1, ← e2]
  -- user_data
  have hud : a 17 = b 17 := by
    by_cases hc : changed_values s.last_item a &&& 2 ≠ 0
    · exact Fin.ext (f9 hc)
    · have e1 := not_not.mp (fun h => hc (ba9.mpr h))
      have e2 := not_not.mp (fun h => hc (bb9.mpr h))
      exact Fin.ext (by rw [← e1, ← e2])
  -- point_source_ID
  have hps : getU16 a 18 = getU16 b 18 := by
    by_cases hc : changed_values s.last_item a &&& 1 ≠ 0
    · exact foldCorrector_u16_inj 1 bits_high (getU16 s.last_item 18) (getU16 a 18)
        (getU16 b 18) (getU16_lt _ _) (getU16_lt _ _) (getU16_lt _ _) (f10 hc)
    · have e1 := not_not.mp (fun h => hc (ba10.mpr h))
      have e2 := not_not.mp (fun h => hc (bb10.mpr h))
      rw [← e1, ← e2]
  -- the bytes
  obtain ⟨x0, x1, x2, x3⟩ := getI32_inj a b 0 hxab
  obtain ⟨y0, y1, y2, y3⟩ := getI32_inj a b 4 hyab
  obtain ⟨z0, z1, z2, z3⟩ := getI32_inj a b 8 hzab
  obtain ⟨i0, i1⟩ := getU16_inj a b 12 hint
  have s0 := getI8_inj a b 16 hsar
  obtain ⟨p0, p1⟩ := getU16_inj a b 18 hps
  intro i hi
  interval_cases i <;> assumption

/-- Witness of `write_events_injective`: from the writer initialised on the all-zero
point, the item with `x = 5`, `intensity = 9`, `scan_angle_rank = -1` and a buffer that
differs from it only beyond the 20 bytes of the item emit the same events. -/
theorem write_events_injective_witness :
    (write (init (fun _ => 0))
        (fun i => if i = 0 then 5 else if i = 12 then 9 else if i = 16 then 255 else 0)).run
        32 (compressors 8) =
      some ([CoderEvent.ic IC.ic_dx (Event.encodeBits 0 3),
          CoderEvent.ic IC.ic_dx (Event.encodeCorrector 3 4),
          CoderEvent.ic IC.ic_dy (Event.encodeBits 3 0),
          CoderEvent.ic IC.ic_dy (Event.encodeBit 0),
          CoderEvent.ic IC.ic_z (Event.encodeBits 1 0),
          CoderEvent.ic IC.ic_z (Event.encodeBit 0),
          CoderEvent.encodeSymbol SymbolModel.m_changed_values 36,
          CoderEvent.ic IC.ic_intensity (Event.encodeBits 0 4),
          CoderEvent.ic IC.ic_intensity (Event.encodeCorrector 4 8),
          CoderEvent.ic IC.ic_scan_angle_rank (Event.encodeBits 1 1),
          CoderEvent.ic IC.ic_scan_angle_rank (Event.encodeCorrector 1 0)],
        record (init (fun _ => 0))
          (fun i => if i = 0 then 5 else if i = 12 then 9 else if i = 16 then 255 else 0)
          5 0) ∧
    ∀ i, i < 20 →
      (fun i => if i = 0 then 5 else if i = 12 then 9 else if i = 16 then 255 else 0 : Bytes) i =
      (fun i => if i = 0 then 5 else if i = 12 then 9 else if i = 16 then 255
        else if i = 20 then 7 else 0 : Bytes) i :=
  ⟨rfl, write_events_injective 32 8 (init (fun _ => 0))
    (fun i => if i = 0 then 5 else if i = 12 then 9 else if i = 16 then 255 else 0)
    (fun i => if i = 0 then 5 else if i = 12 then 9 else if i = 16 then 255
      else if i = 20 then 7 else 0) _ _ _ rfl rfl⟩

end LASwriteItemCompressed_POINT10_v1

/-! ## Claims on the corrector coding (C19, C20) -/

/-- The events of `writeCorrector` for a corrector other than `I32_MIN`: the magnitude
`k` (the bit length of `abs_adj`) through the magnitude model of the context; then for
`k = 0` the corrector as one bit; for `1 ≤ k ≤ bits_high` the translated corrector `t` as
one symbol of the value model of index `k`; for `k > bits_high` the quotient of `t` by
`2^(k - bits_high)` as one symbol of the value model of index `k`, and the remainder as
`k - bits_high` raw bits.  Here `t` is `c + (2^k - 1)` for a negative corrector and
`c - 1` for a positive one, a value of `[0, 2^k - 1]`. -/
theorem writeCorrector_events (fuel : Nat) (s : ArithmeticIntegerCompressor) (c : Int)
    (ctx : Nat) (hf : 31 ≤ fuel) (h1 : -2147483648 < c) (h2 : c < 2147483648) :
    (1 ≤ bitLength c →
      0 ≤ (if c < 0 then c + (((2 ^ bitLength c : Nat) : Int) - 1) else c - 1) ∧
      (if c < 0 then c + (((2 ^ bitLength c : Nat) : Int) - 1) else c - 1) <
        ((2 ^ bitLength c : Nat) : Int)) ∧
    writeCorrector fuel s c ctx =
      some (Event.encodeBits ctx (bitLength c) ::
        (if bitLength c = 0 then [Event.encodeBit c.toNat]
         else if bitLength c ≤ s.bits_high then
           [Event.encodeCorrector (bitLength c)
             (if c < 0 then c + (((2 ^ bitLength c : Nat) : Int) - 1) else c - 1).toNat]
         else
           [Event.encodeCorrector (bitLength c)
              ((if c < 0 then c + (((2 ^ bitLength c : Nat) : Int) - 1) else c - 1).toNat /
                2 ^ (bitLength c - s.bits_high)),
            Event.writeBits (bitLength c - s.bits_high)
              ((if c < 0 then c + (((2 ^ bitLength c : Nat) : Int) - 1) else c - 1).toNat %
                2 ^ (bitLength c - s.bits_high))]),
        { s with k := bitLength c }) := by
  obtain ⟨n, hn⟩ : ∃ n : Nat, (n : Int) = abs_adj c := by
    refine ⟨(abs_adj c).toNat, ?_⟩
    unfold abs_adj
    split <;> omega
  have hn31 : n < 2 ^ 31 := by
    unfold abs_adj at hn
    norm_num
    split at hn <;> omega
  have hc1 : (if c ≤ 0 then toI32 (-c) else toI32 (c - 1)) = (n : Int) := by
    unfold abs_adj at hn
    split at hn <;> rename_i hc
    · rw [if_pos hc, toI32_of_mem (by omega) (by omega)]; omega
    · rw [if_neg hc, toI32_of_mem (by omega) (by omega)]; omega
  obtain ⟨j, hj, hloop, hlt, hge⟩ := magnitudeLoop_nonneg 31 fuel n 0 hf hn31 (by norm_num)
  have hsize : bitLength c = j := by
    unfold bitLength
    rw [← hn]
    exact size_eq_of_bounds hlt hge
  rw [hsize]
  rw [Nat.zero_add] at hloop
  unfold writeCorrector
  simp only [hc1, hloop]
  by_cases hj0 : j = 0
  · subst hj0
    have hn0 : n = 0 := by simpa using hlt
    subst hn0
    have hc01 : c = 0 ∨ c = 1 := by
      unfold abs_adj at hn
      split at hn <;> omega
    refine ⟨fun h => absurd h (by decide), ?_⟩
    rcases hc01 with rfl | rfl <;> simp [toU32]
  · have hj1 : 1 ≤ j := by omega
    have hP := two_pow_pred hj1
    have hP31 := two_pow_le_31 hj
    have hH : 2 ^ (j - 1) ≤ n := by
      rcases hge with h | h
      · exact absurd h hj0
      · exact h
    obtain ⟨t, ht, htlt, htc⟩ : ∃ t : Nat,
        (if c < 0 then toI32 (c + toI32 (shl32 1 j - 1)) else toI32 (c - 1)) = (t : Int) ∧
        t < 2 ^ j ∧
        (if c < 0 then c + (((2 ^ j : Nat) : Int) - 1) else c - 1) = (t : Int) := by
      rw [shl32_one_sub_one hj]
      unfold abs_adj at hn
      generalize 2 ^ j = P at *
      generalize 2 ^ (j - 1) = H at *
      by_cases hneg : c < 0
      · refine ⟨(c + ((P : Int) - 1)).toNat, ?_, ?_, ?_⟩
        · rw [if_pos hneg, toI32_of_mem (by split at hn <;> omega) (by split at hn <;> omega)]
          split at hn <;> omega
        · split at hn <;> omega
        · rw [if_pos hneg]
          split at hn <;> omega
      · refine ⟨(c - 1).toNat, ?_, ?_, ?_⟩
        · rw [if_neg hneg, toI32_of_mem (by omega) (by omega)]
          split at hn <;> omega
        · split at hn <;> omega
        · rw [if_neg hneg]
          split at hn <;> omega
    rw [htc]
    refine ⟨fun _ => ⟨Int.natCast_nonneg t, Int.ofNat_lt.mpr htlt⟩, ?_⟩
    simp only [ht, ne_eq, hj0, not_false_eq_true, if_true, if_false, Int.toNat_ofNat]
    by_cases hhigh : j ≤ s.bits_high
    · rw [if_pos hhigh, if_pos hhigh, toU32_natCast (by omega)]
    · have hk1 : j - s.bits_high ≤ 31 := by omega
      have hhi : t / 2 ^ (j - s.bits_high) < 4294967296 := by
        have := Nat.div_le_self t (2 ^ (j - s.bits_high))
        omega
      have hlo : t % 2 ^ (j - s.bits_high) < 4294967296 := by
        have := Nat.mod_le t (2 ^ (j - s.bits_high))
        omega
      rw [if_neg hhigh, if_neg hhigh]
      simp only [land_mask t _ hk1, shiftRight_natCast, toU32_natCast hhi, toU32_natCast hlo]

/-- For every setup and every corrector other than `I32_MIN`, `writeCorrector` returns
and `readCorrector` of the matching decompressor, run on the events emitted (whatever
follows them), returns the corrector and exposes the same `k`. -/
theorem readCorrector_mirrors_writeCorrector (s0 : ArithmeticIntegerCompressor)
    (contexts bits_high fuel ctx : Nat) (c : Int) (rest : List Event) (hfuel : 31 ≤ fuel)
    (h1 : I32_MIN < c) (h2 : c ≤ I32_MAX) :
    ∃ ev e d, writeCorrector fuel (SetupCompressor s0 contexts bits_high) c ctx = some (ev, e) ∧
      readCorrector (SetupDecompressor s0 contexts bits_high) ctx (ev ++ rest) =
        some (c, d, rest) ∧
      d.k = e.k ∧ e.k = bitLength c := by
  unfold I32_MIN at h1
  unfold I32_MAX at h2
  obtain ⟨_, ev, hw, hrd⟩ := readCorrector_writeCorrector fuel
    (SetupCompressor s0 contexts bits_high) (SetupDecompressor s0 contexts bits_high) c ctx rest
    hfuel (SetupDecompressor_corr s0 contexts bits_high).1 h1 (by omega)
  exact ⟨ev, _, _, hw, hrd, rfl, rfl⟩

/-- Claim C19, the code at the failing input: in the configuration with 32 corrector bits
(whatever `bits_high`), `I32_MIN` is a corrector of `[corr_min, corr_max]`, and
`writeCorrector(I32_MIN)` never returns, whatever the number of iterations allowed to its
magnitude loop: it emits no event, and `readCorrector` returns nothing on no event. -/
theorem writeCorrector_32_I32_MIN_emits_nothing (fuel contexts bits_high ctx : Nat) :
    (IntegerCompressor 32 contexts bits_high).corr_bits = 32 ∧
    (IntegerCompressor 32 contexts bits_high).corr_min ≤ I32_MIN ∧
    I32_MIN ≤ (IntegerCompressor 32 contexts bits_high).corr_max ∧
    writeCorrector fuel (IntegerCompressor 32 contexts bits_high) I32_MIN ctx = none ∧
    readCorrector (IntegerDecompressor 32 contexts bits_high) ctx [] = none := by
  obtain ⟨hcb, _, hmin, hmax⟩ := SetupCompressor_32
    { ArithmeticIntegerCompressor.new with bits := 32 } contexts bits_high rfl
    (Or.inr (le_refl _))
  unfold IntegerCompressor
  rw [hcb, hmin, hmax]
  refine ⟨rfl, le_refl _, by decide, ?_, rfl⟩
  unfold writeCorrector
  have hloop := magnitudeLoop_neg fuel
    (if I32_MIN ≤ 0 then toI32 (-I32_MIN) else toI32 (I32_MIN - 1)) 0 (by decide)
  simp only [hloop]

/-- Claim C20 as written fails: with 32 bits and `bits_high = 2`, the corrector 8 has the
magnitude `k = 3 > bits_high` and the translated value `t = 7`; `writeCorrector` encodes
the top bits `7 >> 1 = 3` through the value model of index `k = 3`, not through the one of
index `bits_high = 2`. -/
theorem writeCorrector_high_model_counterexample :
    ∃ e, writeCorrector 32 (IntegerCompressor 32 1 2) 8 0 =
        some ([Event.encodeBits 0 3, Event.encodeCorrector 3 3, Event.writeBits 1 1], e) ∧
      e.k = 3 ∧ e.bits_high = 2 ∧
      Event.encodeCorrector 2 3 ∉
        [Event.encodeBits 0 3, Event.encodeCorrector 3 3, Event.writeBits 1 1] :=
  ⟨_, rfl, rfl, rfl, by decide⟩

/-- Claim C20 (amended): in every setup and for every corrector `c` of
`[corr_min, corr_max]` other than `I32_MIN` whose magnitude `k` exceeds `bits_high`,
`writeCorrector` returns; it translates `c` to `t` in `[0, 2^k - 1]` (`c + (2^k - 1)` for
a negative corrector, `c - 1` for a positive one), encodes the magnitude, then the top
bits of `t`, `t >> (k - bits_high)`, a value below `2^bits_high`, as one symbol through
the value model of index `k`, which has `2^bits_high` symbols, and writes the remaining
`k - bits_high` low bits of `t` as raw bits. -/
theorem writeCorrector_high (s0 : ArithmeticIntegerCompressor)
    (contexts bits_high fuel ctx : Nat) (c : Int) (hr : s0.range < 4294967296)
    (hfuel : 31 ≤ fuel)
    (hmin : (SetupCompressor s0 contexts bits_high).corr_min ≤ c)
    (hmax : c ≤ (SetupCompressor s0 contexts bits_high).corr_max)
    (hne : c ≠ I32_MIN) (hk : bits_high < bitLength c) :
    ∃ t : Nat, (t : Int) = (if c < 0 then c + (2 ^ bitLength c - 1) else c - 1) ∧
      t < 2 ^ bitLength c ∧
      writeCorrector fuel (SetupCompressor s0 contexts bits_high) c ctx =
        some ([Event.encodeBits ctx (bitLength c),
               Event.encodeCorrector (bitLength c) (t / 2 ^ (bitLength c - bits_high)),
               Event.writeBits (bitLength c - bits_high) (t % 2 ^ (bitLength c - bits_high))],
              { SetupCompressor s0 contexts bits_high with k := bitLength c }) ∧
      t / 2 ^ (bitLength c - bits_high) < 2 ^ bits_high ∧
      (SetupCompressor s0 contexts bits_high).mCorrector[bitLength c - 1]? =
        some { n := 2 ^ bits_high, compress := 1 } := by
  obtain ⟨hbh, hR, hcorr⟩ := SetupCompressor_corr s0 contexts bits_high hr
  have hcb := bitLength_le_corr_bits s0 contexts bits_high hr c hmin hmax
  have h1 : -2147483648 < c := by
    unfold I32_MIN at hne hcorr
    rcases hcorr with ⟨_, h, _⟩ | ⟨_, h, _⟩ <;> omega
  have h2 : c < 2147483648 := by
    unfold I32_MAX at hcorr
    rcases hcorr with ⟨_, _, h⟩ | ⟨_, h', h⟩ <;> omega
  obtain ⟨ht, hw⟩ := writeCorrector_events fuel (SetupCompressor s0 contexts bits_high) c ctx
    hfuel h1 h2
  obtain ⟨ht0, htlt⟩ := ht (by omega)
  obtain ⟨hk31, _⟩ := readCorrector_writeCorrector fuel (SetupCompressor s0 contexts bits_high)
    (SetupCompressor s0 contexts bits_high) c ctx [] hfuel rfl h1 h2
  have hhigh : ¬bitLength c ≤ (SetupCompressor s0 contexts bits_high).bits_high := by
    rw [hbh]; omega
  refine ⟨(if c < 0 then c + (((2 ^ bitLength c : Nat) : Int) - 1) else c - 1).toNat,
    ?_, ?_, ?_, ?_, ?_⟩
  · rw [Int.toNat_of_nonneg ht0]
    push_cast
    rfl
  · omega
  · rw [hw, if_neg (by omega), if_neg hhigh]
    refine congrArg some (Prod.ext ?_ rfl)
    simp only [hbh]
  · rw [Nat.div_lt_iff_lt_mul (two_pow_pos _), ← pow_add]
    have : bits_high + (bitLength c - bits_high) = bitLength c := by omega
    rw [this]
    omega
  · rw [(SetupCompressor_models s0 contexts bits_high).2]
    unfold allocCorrector
    rw [List.getElem?_map, List.getElem?_range (by omega)]
    have hi : ¬(bitLength c - 1 + 1 ≤ bits_high) := by omega
    simp only [Option.map_some', hi, if_false, toU32_shl32_one (show bits_high ≤ 31 by omega)]

/-- Witness of `writeCorrector_high`: 32 bits, `bits_high = 2`, the corrector 8. -/
theorem writeCorrector_high_witness :
    ∃ t : Nat, (t : Int) = (if (8 : Int) < 0 then 8 + (2 ^ bitLength 8 - 1) else 8 - 1) ∧
      t < 2 ^ bitLength 8 ∧
      writeCorrector 32 (SetupCompressor { ArithmeticIntegerCompressor.new with bits := 32 } 1 2)
          8 0 =
        some ([Event.encodeBits 0 (bitLength 8),
               Event.encodeCorrector (bitLength 8) (t / 2 ^ (bitLength 8 - 2)),
               Event.writeBits (bitLength 8 - 2) (t % 2 ^ (bitLength 8 - 2))],
              { SetupCompressor { ArithmeticIntegerCompressor.new with bits := 32 } 1 2 with
                k := bitLength 8 }) ∧
      t / 2 ^ (bitLength 8 - 2) < 2 ^ 2 ∧
      (SetupCompressor { ArithmeticIntegerCompressor.new with bits := 32 } 1 2).mCorrector[
          bitLength 8 - 1]? = some { n := 2 ^ 2, compress := 1 } :=
  writeCorrector_high { ArithmeticIntegerCompressor.new with bits := 32 } 1 2 32 0 8
    (by decide) (by decide) (by decide) (by decide) (by decide)
    (by rw [(bitLength_eq_iff 8 3).mpr (by decide)]; decide)

/-! ## Claims on the changed values and the predictor of POINT10 (C11, C12) -/

theorem calls_encodeBit (getK : IC → Int → Int → Nat → Nat) (m : BitModel) (bit : Nat) :
    (encodeBit m bit).calls getK = ([ItemOp.encodeBit m bit], ()) := rfl

theorem calls_writeInt64 (getK : IC → Int → Int → Nat → Nat) (v : Int) :
    (writeInt64 v).calls getK = ([ItemOp.writeInt64 v], ()) := rfl

namespace LASwriteItemCompressed_POINT10_v1

/-- The value of `changed_values` is below 64, and its bit of weight `2^j` is set when the
summand shifted by `j` is 1. -/
theorem changed_values_testBit (last item : Bytes) :
    changed_values last item < 64 ∧
    ((changed_values last item).testBit 5 = true ↔
      (asLASpoint10 last).intensity ≠ (asLASpoint10 item).intensity) ∧
    ((changed_values last item).testBit 4 = true ↔ last 14 ≠ item 14) ∧
    ((changed_values last item).testBit 3 = true ↔
      (asLASpoint10 last).classification ≠ (asLASpoint10 item).classification) ∧
    ((changed_values last item).testBit 2 = true ↔
      (asLASpoint10 last).scan_angle_rank ≠ (asLASpoint10 item).scan_angle_rank) ∧
    ((changed_values last item).testBit 1 = true ↔
      (asLASpoint10 last).user_data ≠ (asLASpoint10 item).user_data) ∧
    ((changed_values last item).testBit 0 = true ↔
      (asLASpoint10 last).point_source_ID ≠ (asLASpoint10 item).point_source_ID) := by
  unfold changed_values
  split_ifs <;> simp_all <;> decide

/-- The value of `changed_values` is 0 when no field of bytes 12 to 19 differs, and only
then. -/
theorem changed_values_eq_zero (last item : Bytes) :
    changed_values last item = 0 ↔ ∀ i, 12 ≤ i → i < 20 → item i = last i := by
  have hz : changed_values last item = 0 ↔
      ((asLASpoint10 last).intensity = (asLASpoint10 item).intensity ∧
        last 14 = item 14 ∧
        (asLASpoint10 last).classification = (asLASpoint10 item).classification ∧
        (asLASpoint10 last).scan_angle_rank = (asLASpoint10 item).scan_angle_rank ∧
        (asLASpoint10 last).user_data = (asLASpoint10 item).user_data ∧
        (asLASpoint10 last).point_source_ID = (asLASpoint10 item).point_source_ID) := by
    unfold changed_values
    split_ifs <;> simp_all
  rw [hz]
  simp only [asLASpoint10]
  constructor
  · rintro ⟨h1, h2, h3, h4, h5, h6⟩ i hi1 hi2
    obtain ⟨a12, a13⟩ := getU16_inj _ _ 12 h1
    obtain ⟨a18, a19⟩ := getU16_inj _ _ 18 h6
    have a16 := getI8_inj _ _ 16 h4
    have a15 : last 15 = item 15 := Fin.ext h3
    have a17 : last 17 = item 17 := Fin.ext h5
    have : i = 12 ∨ i = 13 ∨ i = 14 ∨ i = 15 ∨ i = 16 ∨ i = 17 ∨ i = 18 ∨ i = 19 := by omega
    rcases this with rfl | rfl | rfl | rfl | rfl | rfl | rfl | rfl
    · exact a12.symm
    · exact a13.symm
    · exact h2.symm
    · exact a15.symm
    · exact a16.symm
    · exact a17.symm
    · exact a18.symm
    · exact a19.symm
  · intro h
    have a12 := h 12 (by decide) (by decide)
    have a13 := h 13 (by decide) (by decide)
    have a14 := h 14 (by decide) (by decide)
    have a15 := h 15 (by decide) (by decide)
    have a16 := h 16 (by decide) (by decide)
    have a17 := h 17 (by decide) (by decide)
    have a18 := h 18 (by decide) (by decide)
    have a19 := h 19 (by decide) (by decide)
    simp only [getU16, getI8, a12, a13, a14, a15, a16, a17, a18, a19, and_self]

/-- Claim C11: for every last point and item, the symbol of `changed_values` that POINT10
`write` emits (through the model of 64 symbols, after the three coordinate calls) is below
64 and has bit 5, 4, 3, 2, 1, 0 set exactly when intensity, the byte at offset 14,
classification, scan_angle_rank, user_data, point_source_ID (in this order) differs from
the last point.  After the symbol exactly the differing fields are encoded, in that
order, and nothing else: intensity and point_source_ID by a `compress` call of a 16-bit
compressor against the last value, scan_angle_rank by a `compress` call of the 8-bit
compressor against the last value (with a context 0 or 1), the other three as symbols,
below 256, of models of 256 symbols.  The symbol is 0 exactly when bytes 12 to 19 of the
item equal those of the last point. -/
theorem write_changed_values (getK : IC → Int → Int → Nat → Nat) (bits_high : Nat)
    (s : LASwriteItemCompressed_POINT10_v1) (item : Bytes) :
    (changed_values s.last_item item < 64 ∧ SymbolModel.m_changed_values.size = 64) ∧
    (((changed_values s.last_item item).testBit 5 = true ↔
        (asLASpoint10 s.last_item).intensity ≠ (asLASpoint10 item).intensity) ∧
      ((changed_values s.last_item item).testBit 4 = true ↔ s.last_item 14 ≠ item 14) ∧
      ((changed_values s.last_item item).testBit 3 = true ↔
        (asLASpoint10 s.last_item).classification ≠ (asLASpoint10 item).classification) ∧
      ((changed_values s.last_item item).testBit 2 = true ↔
        (asLASpoint10 s.last_item).scan_angle_rank ≠ (asLASpoint10 item).scan_angle_rank) ∧
      ((changed_values s.last_item item).testBit 1 = true ↔
        (asLASpoint10 s.last_item).user_data ≠ (asLASpoint10 item).user_data) ∧
      ((changed_values s.last_item item).testBit 0 = true ↔
        (asLASpoint10 s.last_item).point_source_ID ≠ (asLASpoint10 item).point_source_ID)) ∧
    (∃ context, context ≤ 1 ∧
      ((write s item).calls getK).1.drop 3 =
        ItemOp.encodeSymbol SymbolModel.m_changed_values (changed_values s.last_item item) ::
        ((if (asLASpoint10 s.last_item).intensity ≠ (asLASpoint10 item).intensity then
            [ItemOp.compress IC.ic_intensity (asLASpoint10 s.last_item).intensity
              (asLASpoint10 item).intensity 0] else []) ++
         (if s.last_item 14 ≠ item 14 then
            [ItemOp.encodeSymbol SymbolModel.m_bit_byte (item 14).val] else []) ++
         (if (asLASpoint10 s.last_item).classification ≠ (asLASpoint10 item).classification
            then [ItemOp.encodeSymbol SymbolModel.m_classification
              (asLASpoint10 item).classification] else []) ++
         (if (asLASpoint10 s.last_item).scan_angle_rank ≠ (asLASpoint10 item).scan_angle_rank
            then [ItemOp.compress IC.ic_scan_angle_rank (asLASpoint10 s.last_item).scan_angle_rank
              (asLASpoint10 item).scan_angle_rank context] else []) ++
         (if (asLASpoint10 s.last_item).user_data ≠ (asLASpoint10 item).user_data then
            [ItemOp.encodeSymbol SymbolModel.m_user_data (asLASpoint10 item).user_data]
            else []) ++
         (if (asLASpoint10 s.last_item).point_source_ID ≠ (asLASpoint10 item).point_source_ID
            then [ItemOp.compress IC.ic_point_source_ID (asLASpoint10 s.last_item).point_source_ID
              (asLASpoint10 item).point_source_ID 0] else []))) ∧
    ((compressors bits_high IC.ic_intensity).corr_bits = 16 ∧
      (compressors bits_high IC.ic_scan_angle_rank).corr_bits = 8 ∧
      (compressors bits_high IC.ic_point_source_ID).corr_bits = 16 ∧
      SymbolModel.m_bit_byte.size = 256 ∧ SymbolModel.m_classification.size = 256 ∧
      SymbolModel.m_user_data.size = 256 ∧
      (item 14).val < 256 ∧ (asLASpoint10 item).classification < 256 ∧
      (asLASpoint10 item).user_data < 256) ∧
    (changed_values s.last_item item = 0 ↔ ∀ i, 12 ≤ i → i < 20 → item i = s.last_item i) := by
  obtain ⟨hlt, hbits⟩ := changed_values_testBit s.last_item item
  obtain ⟨b5, b4, b3, b2, b1, b0⟩ := changed_values_bits s.last_item item
  obtain ⟨_, _, _, c1, c2, c3⟩ := compressors_bits bits_high
  refine ⟨⟨hlt, rfl⟩, hbits, ?_, ⟨c1, c2, c3, rfl, rfl, rfl, (item 14).isLt, (item 15).isLt,
    (item 17).isLt⟩, changed_values_eq_zero s.last_item item⟩
  refine ⟨(if (getK IC.ic_dx s.median_x
        (toI32 ((asLASpoint10 item).x - (asLASpoint10 s.last_item).x)) s.last_dir +
      getK IC.ic_dy s.median_y
        (toI32 ((asLASpoint10 item).y - (asLASpoint10 s.last_item).y))
        (getK IC.ic_dx s.median_x
          (toI32 ((asLASpoint10 item).x - (asLASpoint10 s.last_item).x)) s.last_dir))
      % 4294967296 / 2 < 3 then 1 else 0), ?_, ?_⟩
  · split <;> decide
  · simp only [write, Prog.bind_eq, Prog.pure_eq, Prog.calls_bind_fst, calls_compress,
      calls_compress_, calls_encodeSymbol, calls_ret, Prog.calls_when,
      List.cons_append, List.nil_append, List.drop_succ_cons, List.drop_zero, List.append_nil,
      b5, b4, b3, b2, b1, b0, List.append_assoc]

/-- The state after `write`: the predictor update applied to the two differences. -/
theorem write_state (getK : IC → Int → Int → Nat → Nat)
    (s : LASwriteItemCompressed_POINT10_v1) (item : Bytes) :
    ((write s item).calls getK).2 =
      record s item (toI32 ((asLASpoint10 item).x - (asLASpoint10 s.last_item).x))
        (toI32 ((asLASpoint10 item).y - (asLASpoint10 s.last_item).y)) := by
  simp only [write, Prog.bind_eq, Prog.pure_eq, Prog.calls_bind_snd, calls_ret]

/-- The predictor update keeps the direction in `{0, 1}` and both cursors in
`{0, 1, 2}`. -/
theorem record_cursors (s : LASwriteItemCompressed_POINT10_v1) (item : Bytes)
    (x_diff y_diff : Int)
    (h : s.last_dir ≤ 1 ∧ s.last_incr 0 ≤ 2 ∧ s.last_incr 1 ≤ 2) :
    (record s item x_diff y_diff).last_dir ≤ 1 ∧
    (record s item x_diff y_diff).last_incr 0 ≤ 2 ∧
    (record s item x_diff y_diff).last_incr 1 ≤ 2 := by
  obtain ⟨hd, h0, h1⟩ := h
  have hflag : (asLASpoint10 item).scan_direction_flag ≤ 1 := by
    simp only [asLASpoint10]
    omega
  have hdir : s.last_dir = 0 ∨ s.last_dir = 1 := by omega
  unfold record
  by_cases hsame : s.last_dir = (asLASpoint10 item).scan_direction_flag
  · simp only [hsame, if_true]
    rw [← hsame]
    rcases hdir with hz | hz <;> rw [hz] <;> simp only [Function.update_same] <;>
      split <;> simp [Function.update] <;> omega
  · simp only [hsame, if_false]
    exact ⟨hflag, h0, h1⟩

/-- After `init` and any sequence of writes the direction is in `{0, 1}` and both cursors
are in `{0, 1, 2}`. -/
theorem writes_cursors (getK : IC → Int → Int → Nat → Nat) (items : List Bytes) :
    ∀ s : LASwriteItemCompressed_POINT10_v1,
      (s.last_dir ≤ 1 ∧ s.last_incr 0 ≤ 2 ∧ s.last_incr 1 ≤ 2) →
      (writes getK s items).last_dir ≤ 1 ∧ (writes getK s items).last_incr 0 ≤ 2 ∧
        (writes getK s items).last_incr 1 ≤ 2 := by
  induction items with
  | nil => intro s h; exact h
  | cons item items ih =>
    intro s h
    unfold writes
    apply ih
    rw [write_state]
    exact record_cursors s item _ _ h

/-- Claim C12: the state transition of the POINT10 predictor, in every state `s` reached
from `init` by a sequence of writes.  The direction is 0 or 1 and both cursors are in
`{0, 1, 2}`.  A write whose item has the scan direction flag equal to `last_dir` stores
`(x_diff, y_diff)` in the ring of `last_dir` at the cursor `last_incr[last_dir]` (the
other entries of that ring are kept), the cursor becomes `(cursor + 1) mod 3`, and the
ring and the cursor of the other direction and `last_dir` are unchanged.  A write whose
flag differs sets `last_dir` to the flag and leaves both rings and both cursors
unchanged.  In both cases the 20 bytes of `last_item` equal those of the item
afterwards. -/
theorem write_predictor_transition (getK : IC → Int → Int → Nat → Nat) (item0 : Bytes)
    (items : List Bytes) (item : Bytes) (s : LASwriteItemCompressed_POINT10_v1)
    (hs : s = writes getK (init item0) items) :
    (s.last_dir ≤ 1 ∧ s.last_incr 0 ≤ 2 ∧ s.last_incr 1 ≤ 2) ∧
    ((asLASpoint10 item).scan_direction_flag = s.last_dir →
      ((write s item).calls getK).2.last_x_diff s.last_dir (s.last_incr s.last_dir) =
        toI32 ((asLASpoint10 item).x - (asLASpoint10 s.last_item).x) ∧
      ((write s item).calls getK).2.last_y_diff s.last_dir (s.last_incr s.last_dir) =
        toI32 ((asLASpoint10 item).y - (asLASpoint10 s.last_item).y) ∧
      (∀ j, j ≠ s.last_incr s.last_dir →
        ((write s item).calls getK).2.last_x_diff s.last_dir j = s.last_x_diff s.last_dir j ∧
        ((write s item).calls getK).2.last_y_diff s.last_dir j = s.last_y_diff s.last_dir j) ∧
      ((write s item).calls getK).2.last_incr s.last_dir = (s.last_incr s.last_dir + 1) % 3 ∧
      (∀ d, d ≠ s.last_dir →
        ((write s item).calls getK).2.last_x_diff d = s.last_x_diff d ∧
        ((write s item).calls getK).2.last_y_diff d = s.last_y_diff d ∧
        ((write s item).calls getK).2.last_incr d = s.last_incr d) ∧
      ((write s item).calls getK).2.last_dir = s.last_dir) ∧
    ((asLASpoint10 item).scan_direction_flag ≠ s.last_dir →
      ((write s item).calls getK).2.last_dir = (asLASpoint10 item).scan_direction_flag ∧
      ((write s item).calls getK).2.last_x_diff = s.last_x_diff ∧
      ((write s item).calls getK).2.last_y_diff = s.last_y_diff ∧
      ((write s item).calls getK).2.last_incr = s.last_incr) ∧
    (∀ i, i < 20 → ((write s item).calls getK).2.last_item i = item i) ∧
    (((write s item).calls getK).2.last_dir ≤ 1 ∧
      ((write s item).calls getK).2.last_incr 0 ≤ 2 ∧
      ((write s item).calls getK).2.last_incr 1 ≤ 2) := by
  have hinv : s.last_dir ≤ 1 ∧ s.last_incr 0 ≤ 2 ∧ s.last_incr 1 ≤ 2 := by
    rw [hs]
    exact writes_cursors getK items (init item0) ⟨Nat.zero_le _, Nat.zero_le _, Nat.zero_le _⟩
  have hcur : s.last_incr s.last_dir ≤ 2 := by
    obtain ⟨hd, h0, h1⟩ := hinv
    have hdir : s.last_dir = 0 ∨ s.last_dir = 1 := by omega
    rcases hdir with hz | hz <;> rw [hz] <;> assumption
  have hinv2 := record_cursors s item
    (toI32 ((asLASpoint10 item).x - (asLASpoint10 s.last_item).x))
    (toI32 ((asLASpoint10 item).y - (asLASpoint10 s.last_item).y)) hinv
  rw [write_state]
  refine ⟨hinv, ?_, ?_, ?_, hinv2⟩
  · intro hflag
    have hsame : s.last_dir = (asLASpoint10 item).scan_direction_flag := hflag.symm
    unfold record
    simp only [← hsame, if_true, Function.update_same]
    refine ⟨?_, ?_, ?_, ?_, ?_, ?_⟩
    · split <;> simp
    · split <;> simp
    · intro j hj
      split <;> simp [Function.update, hj]
    · split <;> simp <;> omega
    · intro d hd
      split <;> simp [Function.update, hd]
    · split <;> rfl
  · intro hflag
    have hdiff : ¬s.last_dir = (asLASpoint10 item).scan_direction_flag :=
      fun h => hflag h.symm
    unfold record
    simp only [hdiff, if_false, and_self]
  · intro i hi
    unfold record memcpy
    simp only [hi, if_true]

/-- Witness of `write_predictor_transition`: the writer initialised on the all-zero point,
after one write of the all-zero point, and an item with `x = 5`. -/
theorem write_predictor_transition_witness :
    ((write (writes (fun _ _ _ _ => 4) (init (fun _ => 0)) [fun _ => 0])
      (fun i => if i = 0 then 5 else 0)).calls (fun _ _ _ _ => 4)).2.last_incr 0 = 2 ∧
    ((write (writes (fun _ _ _ _ => 4) (init (fun _ => 0)) [fun _ => 0])
      (fun i => if i = 0 then 5 else 0)).calls (fun _ _ _ _ => 4)).2.last_x_diff 0 1 = 5 := by
  have h := write_predictor_transition (fun _ _ _ _ => 4) (fun _ => 0) [fun _ => 0]
    (fun i => if i = 0 then 5 else 0) _ rfl
  exact ⟨(h.2.1 (by decide)).2.2.2.1.trans (by decide),
    (h.2.1 (by decide)).1.trans (by decide)⟩

end LASwriteItemCompressed_POINT10_v1

/-! ## Claims on the GPSTIME11 writer (C13, C14, C15, C16) -/

/-- The test `curr_gpstime_diff_64 == (I64)(curr_gpstime_diff)`: the 64-bit difference
fits in a signed 32-bit integer. -/
theorem eq_toI32_iff (d : Int) : d = toI32 d ↔ -2147483648 ≤ d ∧ d < 2147483648 := by
  unfold toI32
  omega

theorem toI64_zero : toI64 0 = 0 := by decide

/-- A setup stores the number of contexts it is given. -/
theorem SetupCompressor_contexts (s0 : ArithmeticIntegerCompressor)
    (contexts bits_high : Nat) : (SetupCompressor s0 contexts bits_high).contexts = contexts := by
  by_cases hrange : s0.range = 0
  · by_cases hbits : ¬s0.bits = 0 ∧ s0.bits < 32
    · simp only [SetupCompressor, hrange, ne_eq, not_true_eq_false, if_false, hbits.1, hbits.2,
        not_false_eq_true, and_self, if_true]
    · simp only [SetupCompressor, hrange, ne_eq, not_true_eq_false, if_false, hbits]
  · simp only [SetupCompressor, ne_eq, hrange, not_false_eq_true, if_true]

namespace LASwriteItemCompressed_GPSTIME11_v1

theorem limit_bounds (multi : Int) : 0 ≤ limit multi ∧ limit multi ≤ 509 := by
  unfold limit LASZIP_GPSTIME_MULTIMAX
  split_ifs <;> omega

theorem toU32_limit (multi : Int) : (toU32 (limit multi) : Int) = limit multi := by
  obtain ⟨h0, h1⟩ := limit_bounds multi
  exact toU32_of_mem h0 (by omega)

/-- The calls and the state of `write` when the item equals the last one. -/
theorem write_calls_equal (f32multi : Int → Int → Int) (getK : IC → Int → Int → Nat → Nat)
    (s : LASwriteItemCompressed_GPSTIME11_v1) (item : Bytes)
    (heq : getI64 item 0 = s.last_gpstime) :
    (write f32multi s item).calls getK =
      ([ItemOp.encodeSymbol
          (if s.last_gpstime_diff = 0 then SymbolModel.m_gpstime_0diff
            else SymbolModel.m_gpstime_multi)
          (if s.last_gpstime_diff = 0 then 0 else 511)], s) := by
  by_cases h0 : s.last_gpstime_diff = 0
  · simp only [write, h0, heq, if_true]
    rfl
  · simp only [write, h0, heq, if_true, if_false]
    rfl

/-- The calls and the state of `write` when the difference does not fit in 32 bits. -/
theorem write_calls_huge (f32multi : Int → Int → Int) (getK : IC → Int → Int → Nat → Nat)
    (s : LASwriteItemCompressed_GPSTIME11_v1) (item : Bytes)
    (hbig : ¬(-2147483648 ≤ toI64 (getI64 item 0 - s.last_gpstime) ∧
      toI64 (getI64 item 0 - s.last_gpstime) < 2147483648)) :
    (write f32multi s item).calls getK =
      ([ItemOp.encodeSymbol
          (if s.last_gpstime_diff = 0 then SymbolModel.m_gpstime_0diff
            else SymbolModel.m_gpstime_multi)
          (if s.last_gpstime_diff = 0 then 2 else 510),
        ItemOp.writeInt64 (getI64 item 0)],
       { s with last_gpstime := getI64 item 0 }) := by
  have hne : ¬getI64 item 0 = s.last_gpstime := by
    intro h
    rw [h, sub_self, toI64_zero] at hbig
    exact hbig (by decide)
  have hfit : ¬toI64 (getI64 item 0 - s.last_gpstime) =
      toI32 (toI64 (getI64 item 0 - s.last_gpstime)) := by
    rw [eq_toI32_iff]
    exact hbig
  by_cases h0 : s.last_gpstime_diff = 0
  · simp only [write, h0, hne, hfit, if_true, if_false]
    rfl
  · simp only [write, h0, hne, hfit, if_true, if_false]
    rfl

/-- The calls and the state of `write` when the last difference is zero and the difference
is not zero and fits in 32 bits. -/
theorem write_calls_first (f32multi : Int → Int → Int) (getK : IC → Int → Int → Nat → Nat)
    (s : LASwriteItemCompressed_GPSTIME11_v1) (item : Bytes)
    (h0 : s.last_gpstime_diff = 0) (hne : getI64 item 0 ≠ s.last_gpstime)
    (hfit : -2147483648 ≤ toI64 (getI64 item 0 - s.last_gpstime) ∧
      toI64 (getI64 item 0 - s.last_gpstime) < 2147483648) :
    (write f32multi s item).calls getK =
      ([ItemOp.encodeSymbol SymbolModel.m_gpstime_0diff 1,
        ItemOp.compress IC.ic_gpstime 0 (toI64 (getI64 item 0 - s.last_gpstime)) 0],
       { s with last_gpstime_diff := toI64 (getI64 item 0 - s.last_gpstime),
                last_gpstime := getI64 item 0 }) := by
  have hfit2 := (eq_toI32_iff _).mpr hfit
  have hne2 : ¬getI64 item 0 = s.last_gpstime := hne
  simp only [write, h0, hne2, ← hfit2, if_true, if_false]
  rfl

/-- The calls and the state of `write` when the last difference is not zero and the
difference is not zero and fits in 32 bits, `multi` being the multiplier limited into its
bounds. -/
theorem write_calls_multi (f32multi : Int → Int → Int) (getK : IC → Int → Int → Nat → Nat)
    (s : LASwriteItemCompressed_GPSTIME11_v1) (item : Bytes)
    (h0 : s.last_gpstime_diff ≠ 0) (hne : getI64 item 0 ≠ s.last_gpstime)
    (hfit : -2147483648 ≤ toI64 (getI64 item 0 - s.last_gpstime) ∧
      toI64 (getI64 item 0 - s.last_gpstime) < 2147483648) :
    (write f32multi s item).calls getK =
      ([ItemOp.encodeSymbol SymbolModel.m_gpstime_multi
          (toU32 (limit (f32multi (toI64 (getI64 item 0 - s.last_gpstime))
            s.last_gpstime_diff))),
        ItemOp.compress IC.ic_gpstime
          (if limit (f32multi (toI64 (getI64 item 0 - s.last_gpstime))
              s.last_gpstime_diff) = 1 then s.last_gpstime_diff
           else if limit (f32multi (toI64 (getI64 item 0 - s.last_gpstime))
              s.last_gpstime_diff) = 0 then Int.tdiv s.last_gpstime_diff 4
           else toI32 (limit (f32multi (toI64 (getI64 item 0 - s.last_gpstime))
              s.last_gpstime_diff) * s.last_gpstime_diff))
          (toI64 (getI64 item 0 - s.last_gpstime))
          (if limit (f32multi (toI64 (getI64 item 0 - s.last_gpstime))
              s.last_gpstime_diff) = 1 then 1
           else if limit (f32multi (toI64 (getI64 item 0 - s.last_gpstime))
              s.last_gpstime_diff) = 0 then 2
           else if limit (f32multi (toI64 (getI64 item 0 - s.last_gpstime))
              s.last_gpstime_diff) < 10 then 3
           else if limit (f32multi (toI64 (getI64 item 0 - s.last_gpstime))
              s.last_gpstime_diff) < 50 then 4
           else 5)],
       (if limit (f32multi (toI64 (getI64 item 0 - s.last_gpstime))
            s.last_gpstime_diff) = 1 then
          { s with last_gpstime_diff := toI64 (getI64 item 0 - s.last_gpstime),
                   multi_extreme_counter := 0, last_gpstime := getI64 item 0 }
        else if limit (f32multi (toI64 (getI64 item 0 - s.last_gpstime))
            s.last_gpstime_diff) = 0 ∨
          limit (f32multi (toI64 (getI64 item 0 - s.last_gpstime))
            s.last_gpstime_diff) = 509 then
          { extreme s (toI64 (getI64 item 0 - s.last_gpstime)) with
            last_gpstime := getI64 item 0 }
        else { s with last_gpstime := getI64 item 0 })) := by
  have hfit2 := (eq_toI32_iff _).mpr hfit
  have hne2 : ¬getI64 item 0 = s.last_gpstime := hne
  have h02 : ¬s.last_gpstime_diff = 0 := h0
  simp only [write, h02, hne2, ← hfit2, if_true, if_false]
  generalize limit (f32multi (toI64 (getI64 item 0 - s.last_gpstime)) s.last_gpstime_diff) = m
  by_cases h1 : m = 1
  · simp only [h1, if_true]
    rfl
  by_cases hz : m = 0
  · simp only [hz, if_true, if_false, true_or]
    rfl
  by_cases h10 : m < 10
  · have h509 : ¬m = 509 := by omega
    simp only [h1, hz, h10, h509, if_true, if_false, or_self]
    rfl
  by_cases h50 : m < 50
  · have h509 : ¬m = 509 := by omega
    simp only [h1, hz, h10, h50, h509, if_true, if_false, or_self]
    rfl
  by_cases h509 : m = 509
  · subst h509
    simp only [if_true, if_false, or_true]
    rfl
  · have h509b : ¬m = (LASZIP_GPSTIME_MULTIMAX : Int) - 3 := by
      unfold LASZIP_GPSTIME_MULTIMAX
      omega
    simp only [h1, hz, h10, h50, h509, h509b, if_true, if_false, or_self]
    rfl

end LASwriteItemCompressed_GPSTIME11_v1

/-- Two 8-byte items hold the same 64-bit integer exactly when their 8 bytes are
equal. -/
theorem getI64_eq_iff (a b : Bytes) :
    getI64 a 0 = getI64 b 0 ↔ ∀ i, i < 8 → a i = b i := by
  constructor
  · intro h
    unfold getI64 toI64 getU64 getU32 at h
    have h0 := (a 0).isLt
    have h1 := (a 1).isLt
    have h2 := (a 2).isLt
    have h3 := (a 3).isLt
    have h4 := (a 4).isLt
    have h5 := (a 5).isLt
    have h6 := (a 6).isLt
    have h7 := (a 7).isLt
    have g0 := (b 0).isLt
    have g1 := (b 1).isLt
    have g2 := (b 2).isLt
    have g3 := (b 3).isLt
    have g4 := (b 4).isLt
    have g5 := (b 5).isLt
    have g6 := (b 6).isLt
    have g7 := (b 7).isLt
    simp only [Nat.zero_add] at h
    norm_num at h
    intro i hi
    have : i = 0 ∨ i = 1 ∨ i = 2 ∨ i = 3 ∨ i = 4 ∨ i = 5 ∨ i = 6 ∨ i = 7 := by omega
    rcases this with rfl | rfl | rfl | rfl | rfl | rfl | rfl | rfl <;> apply Fin.ext <;> omega
  · intro h
    unfold getI64 getU64 getU32
    simp only [Nat.zero_add]
    rw [h 0 (by decide), h 1 (by decide), h 2 (by decide), h 3 (by decide), h 4 (by decide),
      h 5 (by decide), h 6 (by decide), h 7 (by decide)]

namespace LASwriteItemCompressed_GPSTIME11_v1

/-- Claim C13: for every GPSTIME11 state and 8-byte item, and whatever value the
single-precision quotient takes (`f32multi`), the first call of `write` is a symbol that
classifies the item.  When `last_gpstime_diff = 0` it is a symbol of the model of 3
symbols: 0 exactly when the 64 bits of the item equal `last_gpstime`, 1 exactly when they
differ and the 64-bit difference fits in a signed 32-bit integer, 2 otherwise.  When
`last_gpstime_diff ≠ 0` it is a symbol of the model of 512 symbols: 511 exactly when the
64 bits are equal, 510 exactly when the difference does not fit in 32 bits, and otherwise
the multiplier limited to `[0, 509]`, which is neither 510 nor 511.  The 64 bits of two
items are equal exactly when their 8 bytes are. -/
theorem write_first_symbol (f32multi : Int → Int → Int) (getK : IC → Int → Int → Nat → Nat)
    (s : LASwriteItemCompressed_GPSTIME11_v1) (item : Bytes) :
    (∃ sym rest,
      ((write f32multi s item).calls getK).1 =
        ItemOp.encodeSymbol
          (if s.last_gpstime_diff = 0 then SymbolModel.m_gpstime_0diff
            else SymbolModel.m_gpstime_multi) sym :: rest ∧
      (s.last_gpstime_diff = 0 →
        sym < 3 ∧
        (sym = 0 ↔ getI64 item 0 = s.last_gpstime) ∧
        (sym = 1 ↔ getI64 item 0 ≠ s.last_gpstime ∧
          (-2147483648 ≤ toI64 (getI64 item 0 - s.last_gpstime) ∧
            toI64 (getI64 item 0 - s.last_gpstime) < 2147483648)) ∧
        (sym = 2 ↔ ¬(-2147483648 ≤ toI64 (getI64 item 0 - s.last_gpstime) ∧
            toI64 (getI64 item 0 - s.last_gpstime) < 2147483648))) ∧
      (s.last_gpstime_diff ≠ 0 →
        sym < 512 ∧
        (sym = 511 ↔ getI64 item 0 = s.last_gpstime) ∧
        (sym = 510 ↔ ¬(-2147483648 ≤ toI64 (getI64 item 0 - s.last_gpstime) ∧
            toI64 (getI64 item 0 - s.last_gpstime) < 2147483648)) ∧
        (getI64 item 0 ≠ s.last_gpstime →
          (-2147483648 ≤ toI64 (getI64 item 0 - s.last_gpstime) ∧
            toI64 (getI64 item 0 - s.last_gpstime) < 2147483648) →
          (sym : Int) = limit (f32multi (toI64 (getI64 item 0 - s.last_gpstime))
            s.last_gpstime_diff) ∧ sym ≤ 509))) ∧
    SymbolModel.m_gpstime_0diff.size = 3 ∧ SymbolModel.m_gpstime_multi.size = 512 ∧
    (∀ other : Bytes, getI64 item 0 = getI64 other 0 ↔ ∀ i, i < 8 → item i = other i) := by
  refine ⟨?_, rfl, rfl, fun other => getI64_eq_iff item other⟩
  by_cases heq : getI64 item 0 = s.last_gpstime
  · have hd : toI64 (getI64 item 0 - s.last_gpstime) = 0 := by
      rw [heq, sub_self, toI64_zero]
    refine ⟨_, [], by rw [write_calls_equal f32multi getK s item heq], ?_, ?_⟩
    · intro h0
      simp [h0, heq, toI64_zero]
    · intro h0
      simp [h0, heq, toI64_zero]
  · by_cases hfit : -2147483648 ≤ toI64 (getI64 item 0 - s.last_gpstime) ∧
        toI64 (getI64 item 0 - s.last_gpstime) < 2147483648
    · by_cases h0 : s.last_gpstime_diff = 0
      · refine ⟨1, _, by rw [write_calls_first f32multi getK s item h0 heq hfit, if_pos h0],
          ?_, ?_⟩
        · intro _
          simp [heq, hfit]
        · intro h
          exact absurd h0 h
      · obtain ⟨hl0, hl1⟩ := limit_bounds
          (f32multi (toI64 (getI64 item 0 - s.last_gpstime)) s.last_gpstime_diff)
        have hu := toU32_limit
          (f32multi (toI64 (getI64 item 0 - s.last_gpstime)) s.last_gpstime_diff)
        refine ⟨_, _, by rw [write_calls_multi f32multi getK s item h0 heq hfit, if_neg h0],
          ?_, ?_⟩
        · intro h
          exact absurd h h0
        · intro _
          refine ⟨by omega, ?_, ?_, ?_⟩
          · constructor
            · intro h; omega
            · intro h; exact absurd h heq
          · constructor
            · intro h; omega
            · intro h; exact absurd hfit h
          · intro _ _
            exact ⟨hu, by omega⟩
    · refine ⟨_, _, by rw [write_calls_huge f32multi getK s item hfit], ?_, ?_⟩
      · intro h0
        simp [h0, heq, hfit]
      · intro h0
        simp [h0, heq, hfit]

/-- Witness of `write_first_symbol`: last difference 5, an item whose integer is 1 more
than the last one, a quotient of 7: the symbol is the multiplier 7. -/
theorem write_first_symbol_witness :
    ((write (fun _ _ => 7) (LASwriteItemCompressed_GPSTIME11_v1.mk 0 5 0)
        (fun i => if i = 0 then 1 else 0)).calls
      (fun _ _ _ _ => 4)).1.head? = some (ItemOp.encodeSymbol SymbolModel.m_gpstime_multi 7) := by
  obtain ⟨⟨sym, rest, hc, _, h⟩, _⟩ := write_first_symbol (fun _ _ => 7) (fun _ _ _ _ => 4)
    (LASwriteItemCompressed_GPSTIME11_v1.mk 0 5 0) (fun i => if i = 0 then 1 else 0)
  have h7 := (h (by decide)).2.2.2 (by decide) (by decide)
  have hs : sym = 7 := by
    have : (sym : Int) = 7 := h7.1.trans (by decide)
    omega
  rw [hc, hs]
  rfl

/-- Claim C14: for every GPSTIME11 write whose difference `curr_diff` fits in 32 bits and
is not zero, exactly one call follows the leading symbol, a `compress` call of the 32-bit
compressor `ic_gpstime` (6 contexts) with the value `curr_diff`; its prediction and
context are `(0, 0)` when `last_gpstime_diff = 0`, and otherwise, `multi` being the
multiplier limited to `[0, 509]`: `(last_diff, 1)` if `multi = 1`; `(last_diff / 4`
rounded toward zero`, 2)` if `multi = 0`; `(multi * last_diff` wrapped to 32 bits`, 3)` if
`1 < multi < 10`; `(multi * last_diff, 4)` if `10 ≤ multi < 50`; `(multi * last_diff, 5)`
if `50 ≤ multi ≤ 509`. -/
theorem write_compress_call (f32multi : Int → Int → Int) (getK : IC → Int → Int → Nat → Nat)
    (bits_high : Nat) (s : LASwriteItemCompressed_GPSTIME11_v1) (item : Bytes)
    (hnz : toI64 (getI64 item 0 - s.last_gpstime) ≠ 0)
    (hfit : -2147483648 ≤ toI64 (getI64 item 0 - s.last_gpstime) ∧
      toI64 (getI64 item 0 - s.last_gpstime) < 2147483648) :
    (∃ sym pred context,
      ((write f32multi s item).calls getK).1 =
        [ItemOp.encodeSymbol
            (if s.last_gpstime_diff = 0 then SymbolModel.m_gpstime_0diff
              else SymbolModel.m_gpstime_multi) sym,
          ItemOp.compress IC.ic_gpstime pred (toI64 (getI64 item 0 - s.last_gpstime))
            context] ∧
      (s.last_gpstime_diff = 0 → pred = 0 ∧ context = 0) ∧
      (s.last_gpstime_diff ≠ 0 →
        (sym : Int) = limit (f32multi (toI64 (getI64 item 0 - s.last_gpstime))
          s.last_gpstime_diff) ∧
        (sym = 1 → pred = s.last_gpstime_diff ∧ context = 1) ∧
        (sym = 0 → pred = Int.tdiv s.last_gpstime_diff 4 ∧ context = 2) ∧
        (1 < sym ∧ sym < 10 → pred = toI32 (sym * s.last_gpstime_diff) ∧ context = 3) ∧
        (10 ≤ sym ∧ sym < 50 → pred = toI32 (sym * s.last_gpstime_diff) ∧ context = 4) ∧
        (50 ≤ sym ∧ sym ≤ 509 → pred = toI32 (sym * s.last_gpstime_diff) ∧ context = 5) ∧
        sym ≤ 509)) ∧
    (compressors bits_high IC.ic_gpstime).corr_bits = 32 ∧
    (compressors bits_high IC.ic_gpstime).contexts = 6 := by
  have hne : getI64 item 0 ≠ s.last_gpstime := by
    intro h
    rw [h, sub_self, toI64_zero] at hnz
    exact hnz rfl
  refine ⟨?_, (SetupCompressor_32 _ _ _ rfl (Or.inr (le_refl _))).1,
    SetupCompressor_contexts _ _ _⟩
  by_cases h0 : s.last_gpstime_diff = 0
  · refine ⟨_, _, _, by rw [write_calls_first f32multi getK s item h0 hne hfit, if_pos h0],
      ?_, ?_⟩
    · intro _; exact ⟨rfl, rfl⟩
    · intro h; exact absurd h0 h
  · obtain ⟨hl0, hl1⟩ := limit_bounds
      (f32multi (toI64 (getI64 item 0 - s.last_gpstime)) s.last_gpstime_diff)
    have hc := write_calls_multi f32multi getK s item h0 hne hfit
    generalize limit (f32multi (toI64 (getI64 item 0 - s.last_gpstime))
      s.last_gpstime_diff) = m at hc hl0 hl1 ⊢
    obtain ⟨sym, rfl⟩ := Int.eq_ofNat_of_zero_le hl0
    rw [toU32_natCast (by omega)] at hc
    refine ⟨sym, _, _, by rw [hc, if_neg h0], ?_, ?_⟩
    · intro h; exact absurd h h0
    · intro _
      refine ⟨rfl, ?_, ?_, ?_, ?_, ?_, by omega⟩
      · intro h; subst h; exact ⟨rfl, rfl⟩
      · intro h; subst h; exact ⟨rfl, rfl⟩
      · intro h
        have a1 : ¬(sym : Int) = 1 := by omega
        have a2 : ¬(sym : Int) = 0 := by omega
        have a3 : (sym : Int) < 10 := by omega
        simp only [a1, a2, a3, if_true, if_false, and_self]
      · intro h
        have a1 : ¬(sym : Int) = 1 := by omega
        have a2 : ¬(sym : Int) = 0 := by omega
        have a3 : ¬(sym : Int) < 10 := by omega
        have a4 : (sym : Int) < 50 := by omega
        simp only [a1, a2, a3, a4, if_true, if_false, and_self]
      · intro h
        have a1 : ¬(sym : Int) = 1 := by omega
        have a2 : ¬(sym : Int) = 0 := by omega
        have a3 : ¬(sym : Int) < 10 := by omega
        have a4 : ¬(sym : Int) < 50 := by omega
        simp only [a1, a2, a3, a4, if_false, and_self]

/-- Witness of `write_compress_call`: last difference 5, an item whose integer is 1 more
than the last one, a quotient of 7: the prediction is `7 * 5` and the context 3. -/
theorem write_compress_call_witness :
    ((write (fun _ _ => 7) (LASwriteItemCompressed_GPSTIME11_v1.mk 0 5 0)
        (fun i => if i = 0 then 1 else 0)).calls (fun _ _ _ _ => 4)).1 =
      [ItemOp.encodeSymbol SymbolModel.m_gpstime_multi 7,
        ItemOp.compress IC.ic_gpstime 35 1 3] := by
  obtain ⟨⟨sym, pred, context, hc, _, h⟩, _⟩ := write_compress_call (fun _ _ => 7)
    (fun _ _ _ _ => 4) 8 (LASwriteItemCompressed_GPSTIME11_v1.mk 0 5 0)
    (fun i => if i = 0 then 1 else 0) (by decide) (by decide)
  obtain ⟨h7, _, _, h3, _⟩ := h (by decide)
  have hs : sym = 7 := by
    have : (sym : Int) = 7 := h7.trans (by decide)
    omega
  subst hs
  obtain ⟨hp, hx⟩ := h3 (by decide)
  rw [hc, hp, hx]
  decide

end LASwriteItemCompressed_GPSTIME11_v1

namespace LASwriteItemCompressed_GPSTIME11_v1

/-- The state after `write` when the item equals the last one. -/
theorem write_state_equal (f32multi : Int → Int → Int) (getK : IC → Int → Int → Nat → Nat)
    (s : LASwriteItemCompressed_GPSTIME11_v1) (item : Bytes)
    (heq : getI64 item 0 = s.last_gpstime) :
    ((write f32multi s item).calls getK).2 = s := by
  rw [write_calls_equal f32multi getK s item heq]

/-- The state after `write` when the difference does not fit in 32 bits. -/
theorem write_state_huge (f32multi : Int → Int → Int) (getK : IC → Int → Int → Nat → Nat)
    (s : LASwriteItemCompressed_GPSTIME11_v1) (item : Bytes)
    (hbig : ¬(-2147483648 ≤ toI64 (getI64 item 0 - s.last_gpstime) ∧
      toI64 (getI64 item 0 - s.last_gpstime) < 2147483648)) :
    ((write f32multi s item).calls getK).2 = { s with last_gpstime := getI64 item 0 } := by
  rw [write_calls_huge f32multi getK s item hbig]

/-- The state after `write` when the last difference is zero and the difference is not
zero and fits in 32 bits. -/
theorem write_state_first (f32multi : Int → Int → Int) (getK : IC → Int → Int → Nat → Nat)
    (s : LASwriteItemCompressed_GPSTIME11_v1) (item : Bytes)
    (h0 : s.last_gpstime_diff = 0) (hne : getI64 item 0 ≠ s.last_gpstime)
    (hfit : -2147483648 ≤ toI64 (getI64 item 0 - s.last_gpstime) ∧
      toI64 (getI64 item 0 - s.last_gpstime) < 2147483648) :
    ((write f32multi s item).calls getK).2 =
      { s with last_gpstime_diff := toI64 (getI64 item 0 - s.last_gpstime),
               last_gpstime := getI64 item 0 } := by
  rw [write_calls_first f32multi getK s item h0 hne hfit]

/-- The state after `write` when the last difference is not zero and the difference is
not zero and fits in 32 bits. -/
theorem write_state_multi (f32multi : Int → Int → Int) (getK : IC → Int → Int → Nat → Nat)
    (s : LASwriteItemCompressed_GPSTIME11_v1) (item : Bytes)
    (h0 : s.last_gpstime_diff ≠ 0) (hne : getI64 item 0 ≠ s.last_gpstime)
    (hfit : -2147483648 ≤ toI64 (getI64 item 0 - s.last_gpstime) ∧
      toI64 (getI64 item 0 - s.last_gpstime) < 2147483648) :
    ((write f32multi s item).calls getK).2 =
      (if limit (f32multi (toI64 (getI64 item 0 - s.last_gpstime))
            s.last_gpstime_diff) = 1 then
          { s with last_gpstime_diff := toI64 (getI64 item 0 - s.last_gpstime),
                   multi_extreme_counter := 0, last_gpstime := getI64 item 0 }
        else if limit (f32multi (toI64 (getI64 item 0 - s.last_gpstime))
            s.last_gpstime_diff) = 0 ∨
          limit (f32multi (toI64 (getI64 item 0 - s.last_gpstime))
            s.last_gpstime_diff) = 509 then
          { extreme s (toI64 (getI64 item 0 - s.last_gpstime)) with
            last_gpstime := getI64 item 0 }
        else { s with last_gpstime := getI64 item 0 }) := by
  rw [write_calls_multi f32multi getK s item h0 hne hfit]

/-- The statements on the extreme multipliers keep the counter at 3 or below. -/
theorem extreme_counter (s : LASwriteItemCompressed_GPSTIME11_v1) (curr_gpstime_diff : Int) :
    (extreme s curr_gpstime_diff).multi_extreme_counter ≤ 3 := by
  unfold extreme
  simp only
  split
  · exact Nat.zero_le _
  · rename_i h
    simp only [] at h ⊢
    omega

/-- The counter of extreme multipliers is at most 3 after a write when it was before. -/
theorem write_counter (f32multi : Int → Int → Int) (getK : IC → Int → Int → Nat → Nat)
    (s : LASwriteItemCompressed_GPSTIME11_v1) (item : Bytes)
    (hc : s.multi_extreme_counter ≤ 3) :
    ((write f32multi s item).calls getK).2.multi_extreme_counter ≤ 3 := by
  by_cases heq : getI64 item 0 = s.last_gpstime
  · rw [write_state_equal f32multi getK s item heq]
    exact hc
  · by_cases hfit : -2147483648 ≤ toI64 (getI64 item 0 - s.last_gpstime) ∧
        toI64 (getI64 item 0 - s.last_gpstime) < 2147483648
    · by_cases h0 : s.last_gpstime_diff = 0
      · rw [write_state_first f32multi getK s item h0 heq hfit]
        exact hc
      · rw [write_state_multi f32multi getK s item h0 heq hfit]
        have he := extreme_counter s (toI64 (getI64 item 0 - s.last_gpstime))
        generalize extreme s (toI64 (getI64 item 0 - s.last_gpstime)) = e at he ⊢
        generalize toI64 (getI64 item 0 - s.last_gpstime) = d
        generalize getI64 item 0 = t
        dsimp only
        split
        · exact Nat.zero_le _
        · split
          · exact he
          · exact hc
    · rw [write_state_huge f32multi getK s item hfit]
      exact hc

/-- After `init` and any sequence of writes the counter of extreme multipliers is at
most 3. -/
theorem writes_counter (f32multi : Int → Int → Int) (getK : IC → Int → Int → Nat → Nat)
    (items : List Bytes) :
    ∀ s : LASwriteItemCompressed_GPSTIME11_v1, s.multi_extreme_counter ≤ 3 →
      (writes f32multi getK s items).multi_extreme_counter ≤ 3 := by
  induction items with
  | nil => intro s h; exact h
  | cons item items ih =>
    intro s h
    unfold writes
    exact ih _ (write_counter f32multi getK s item h)

/-- Claim C15: the state update of GPSTIME11 `write` when `last_gpstime_diff ≠ 0` and the
difference `curr_diff` fits in 32 bits, in terms of the leading symbol `multi` (the
multiplier limited to `[0, 509]` whenever the item differs from the last one).
`multi = 1` sets `last_gpstime_diff` to `curr_diff` and `multi_extreme_counter` to 0;
`multi = 0` and `multi = 509` both increment the counter (a `U32`) and, when it then
exceeds 3, set `last_gpstime_diff` to `curr_diff` and the counter to 0; for
`1 < multi < 509` both variables are unchanged.  Consequently the counter is at most 3
after `init` and after every write. -/
theorem write_multi_state (f32multi : Int → Int → Int) (getK : IC → Int → Int → Nat → Nat)
    (s : LASwriteItemCompressed_GPSTIME11_v1) (item : Bytes)
    (h0 : s.last_gpstime_diff ≠ 0)
    (hfit : -2147483648 ≤ toI64 (getI64 item 0 - s.last_gpstime) ∧
      toI64 (getI64 item 0 - s.last_gpstime) < 2147483648) :
    (∃ multi rest,
      ((write f32multi s item).calls getK).1 =
        ItemOp.encodeSymbol SymbolModel.m_gpstime_multi multi :: rest ∧
      (getI64 item 0 ≠ s.last_gpstime →
        (multi : Int) = limit (f32multi (toI64 (getI64 item 0 - s.last_gpstime))
          s.last_gpstime_diff)) ∧
      (multi = 1 →
        ((write f32multi s item).calls getK).2.last_gpstime_diff =
          toI64 (getI64 item 0 - s.last_gpstime) ∧
        ((write f32multi s item).calls getK).2.multi_extreme_counter = 0) ∧
      (multi = 0 ∨ multi = 509 →
        ((s.multi_extreme_counter + 1) % 4294967296 > 3 →
          ((write f32multi s item).calls getK).2.last_gpstime_diff =
            toI64 (getI64 item 0 - s.last_gpstime) ∧
          ((write f32multi s item).calls getK).2.multi_extreme_counter = 0) ∧
        ((s.multi_extreme_counter + 1) % 4294967296 ≤ 3 →
          ((write f32multi s item).calls getK).2.last_gpstime_diff = s.last_gpstime_diff ∧
          ((write f32multi s item).calls getK).2.multi_extreme_counter =
            (s.multi_extreme_counter + 1) % 4294967296)) ∧
      (1 < multi ∧ multi < 509 →
        ((write f32multi s item).calls getK).2.last_gpstime_diff = s.last_gpstime_diff ∧
        ((write f32multi s item).calls getK).2.multi_extreme_counter =
          s.multi_extreme_counter)) ∧
    (∀ (item0 : Bytes) (items : List Bytes),
      (init item0).multi_extreme_counter ≤ 3 ∧
      (writes f32multi getK (init item0) items).multi_extreme_counter ≤ 3) := by
  refine ⟨?_, fun item0 items =>
    ⟨Nat.zero_le _, writes_counter f32multi getK items (init item0) (Nat.zero_le _)⟩⟩
  by_cases heq : getI64 item 0 = s.last_gpstime
  · have hc := congrArg Prod.fst (write_calls_equal f32multi getK s item heq)
    rw [if_neg h0, if_neg h0] at hc
    refine ⟨511, [], hc, ?_, ?_, ?_, ?_⟩
    · intro h; exact absurd heq h
    · intro h; exact absurd h (by decide)
    · intro h; exact absurd h (by decide)
    · intro h; exact absurd h.2 (by decide)
  · obtain ⟨hl0, hl1⟩ := limit_bounds
      (f32multi (toI64 (getI64 item 0 - s.last_gpstime)) s.last_gpstime_diff)
    have hc := congrArg Prod.fst (write_calls_multi f32multi getK s item h0 heq hfit)
    rw [write_state_multi f32multi getK s item h0 heq hfit]
    generalize limit (f32multi (toI64 (getI64 item 0 - s.last_gpstime))
      s.last_gpstime_diff) = m at hc hl0 hl1 ⊢
    obtain ⟨multi, rfl⟩ := Int.eq_ofNat_of_zero_le hl0
    rw [toU32_natCast (by omega)] at hc
    refine ⟨multi, _, hc, fun _ => rfl, ?_, ?_, ?_⟩
    · intro h
      subst h
      exact ⟨rfl, rfl⟩
    · intro h
      have a1 : ¬((multi : Nat) : Int) = 1 := by omega
      have a2 : ((multi : Nat) : Int) = 0 ∨ ((multi : Nat) : Int) = 509 := by omega
      simp only [a1, a2, if_true, if_false]
      unfold extreme
      constructor
      · intro hgt
        simp only [hgt, if_true, and_self]
      · intro hle
        have hle2 : ¬(s.multi_extreme_counter + 1) % 4294967296 > 3 := by omega
        simp only [hle2, if_false, and_self]
    · intro h
      have a1 : ¬((multi : Nat) : Int) = 1 := by omega
      have a2 : ¬(((multi : Nat) : Int) = 0 ∨ ((multi : Nat) : Int) = 509) := by omega
      simp only [a1, a2, if_false, and_self]

/-- Witness of `write_multi_state`: last difference 5, the counter at 3, an item whose
integer is 1 more than the last one, a quotient of 0: the counter exceeds 3 after its
increment, so that the difference 1 is adopted and the counter reset. -/
theorem write_multi_state_witness :
    ((write (fun _ _ => 0) (LASwriteItemCompressed_GPSTIME11_v1.mk 0 5 3)
        (fun i => if i = 0 then 1 else 0)).calls (fun _ _ _ _ => 4)).2.last_gpstime_diff = 1 ∧
    ((write (fun _ _ => 0) (LASwriteItemCompressed_GPSTIME11_v1.mk 0 5 3)
        (fun i => if i = 0 then 1 else 0)).calls (fun _ _ _ _ => 4)).2.multi_extreme_counter
      = 0 := by
  obtain ⟨⟨multi, rest, _, hm, _, hz, _⟩, _⟩ := write_multi_state (fun _ _ => 0)
    (fun _ _ _ _ => 4) (LASwriteItemCompressed_GPSTIME11_v1.mk 0 5 3)
    (fun i => if i = 0 then 1 else 0) (by decide) (by decide)
  have hs : multi = 0 := by
    have : (multi : Int) = 0 := (hm (by decide)).trans (by decide)
    omega
  obtain ⟨h1, h2⟩ := (hz (Or.inl hs)).1 (by decide)
  exact ⟨h1.trans (by decide), h2⟩

/-- Claim C16: for every GPSTIME11 state and every item whose 64-bit integer difference
from `last_gpstime` does not fit in a signed 32-bit integer, `write` emits the escape
symbol (2 of the model of 3 symbols when `last_gpstime_diff = 0`, 510 of the model of 512
symbols otherwise) followed by the raw 64-bit integer of the item, and nothing else; it
leaves `last_gpstime_diff` and `multi_extreme_counter` unchanged and sets `last_gpstime`
to the integer of the item. -/
theorem write_huge_difference (f32multi : Int → Int → Int)
    (getK : IC → Int → Int → Nat → Nat) (s : LASwriteItemCompressed_GPSTIME11_v1)
    (item : Bytes)
    (hbig : ¬(-2147483648 ≤ toI64 (getI64 item 0 - s.last_gpstime) ∧
      toI64 (getI64 item 0 - s.last_gpstime) < 2147483648)) :
    ((write f32multi s item).calls getK).1 =
      [ItemOp.encodeSymbol
          (if s.last_gpstime_diff = 0 then SymbolModel.m_gpstime_0diff
            else SymbolModel.m_gpstime_multi)
          (if s.last_gpstime_diff = 0 then 2 else 510),
        ItemOp.writeInt64 (getI64 item 0)] ∧
    ((write f32multi s item).calls getK).2.last_gpstime_diff = s.last_gpstime_diff ∧
    ((write f32multi s item).calls getK).2.multi_extreme_counter = s.multi_extreme_counter ∧
    ((write f32multi s item).calls getK).2.last_gpstime = getI64 item 0 ∧
    SymbolModel.m_gpstime_0diff.size = 3 ∧ SymbolModel.m_gpstime_multi.size = 512 := by
  rw [write_state_huge f32multi getK s item hbig]
  exact ⟨congrArg Prod.fst (write_calls_huge f32multi getK s item hbig), rfl, rfl, rfl, rfl, rfl⟩

/-- Witness of `write_huge_difference`: an item whose integer is `2^40` more than the last
one, last difference 5 and counter 2. -/
theorem write_huge_difference_witness :
    getI64 (fun i => if i = 5 then 1 else 0) 0 - 0 = 2 ^ 40 ∧
    ((write (fun _ _ => 0) (LASwriteItemCompressed_GPSTIME11_v1.mk 0 5 2)
        (fun i => if i = 5 then 1 else 0)).calls (fun _ _ _ _ => 4)).1 =
      [ItemOp.encodeSymbol SymbolModel.m_gpstime_multi 510, ItemOp.writeInt64 (2 ^ 40)] ∧
    ((write (fun _ _ => 0) (LASwriteItemCompressed_GPSTIME11_v1.mk 0 5 2)
        (fun i => if i = 5 then 1 else 0)).calls (fun _ _ _ _ => 4)).2.last_gpstime_diff = 5 ∧
    ((write (fun _ _ => 0) (LASwriteItemCompressed_GPSTIME11_v1.mk 0 5 2)
        (fun i => if i = 5 then 1 else 0)).calls (fun _ _ _ _ => 4)).2.multi_extreme_counter
      = 2 := by
  obtain ⟨h1, h2, h3, _⟩ := write_huge_difference (fun _ _ => 0) (fun _ _ _ _ => 4)
    (LASwriteItemCompressed_GPSTIME11_v1.mk 0 5 2) (fun i => if i = 5 then 1 else 0)
    (by decide)
  exact ⟨by decide, h1.trans (by decide), h2, h3⟩

end LASwriteItemCompressed_GPSTIME11_v1

/-! ## Claim on the RGB12 writer (C17) -/

theorem land_255 (x : Nat) : x &&& 255 = x % 256 := Nat.and_pow_two_sub_one_eq_mod x 8

theorem land_65280 (x : Nat) (hx : x < 65536) : x &&& 65280 = x / 256 * 256 := by
  apply Nat.eq_of_testBit_eq
  intro i
  have h1 : (65280 : Nat) = 255 <<< 8 := by decide
  have h2 : (255 : Nat) = 2 ^ 8 - 1 := by decide
  have h3 : x / 256 * 256 = (x >>> 8) <<< 8 := by
    rw [Nat.shiftLeft_eq, Nat.shiftRight_eq_div_pow]
  rw [h3, h1, h2, Nat.testBit_and, Nat.testBit_shiftLeft, Nat.testBit_shiftLeft,
    Nat.testBit_two_pow_sub_one, Nat.testBit_shiftRight]
  by_cases hi : 8 ≤ i
  · have : 8 + (i - 8) = i := by omega
    simp only [hi, this, ge_iff_le, decide_True, Bool.true_and]
    by_cases hi2 : i - 8 < 8
    · simp [hi2]
    · simp only [hi2, decide_False, Bool.and_false]
      symm
      apply Nat.testBit_lt_two_pow
      calc x < 65536 := hx
        _ = 2 ^ 16 := by norm_num
        _ ≤ 2 ^ i := Nat.pow_le_pow_right (by norm_num) (by omega)
  · simp [hi]

/-- The low byte of a `U16`: the expression `u & 255` (or `u & 0x00FF`). -/
theorem getU16_low (b : Bytes) (off : Nat) : getU16 b off &&& 255 = (b off).val := by
  rw [land_255]
  unfold getU16
  have h0 := (b off).isLt
  omega

/-- The high byte of a `U16`: the expression `u >> 8`. -/
theorem getU16_high (b : Bytes) (off : Nat) : getU16 b off >>> 8 = (b (off + 1)).val := by
  rw [Nat.shiftRight_eq_div_pow]
  unfold getU16
  have h0 := (b off).isLt
  omega

/-- The comparison of two `U16` under the mask `0x00FF` compares their low bytes. -/
theorem getU16_low_ne (a b : Bytes) (off : Nat) :
    getU16 a off &&& 255 ≠ getU16 b off &&& 255 ↔ b off ≠ a off := by
  rw [getU16_low, getU16_low]
  constructor
  · intro h e; exact h (by rw [e])
  · intro h e; exact h (Fin.ext e.symm)

/-- The comparison of two `U16` under the mask `0xFF00` compares their high bytes. -/
theorem getU16_high_ne (a b : Bytes) (off : Nat) :
    getU16 a off &&& 65280 ≠ getU16 b off &&& 65280 ↔ b (off + 1) ≠ a (off + 1) := by
  rw [land_65280 _ (getU16_lt a off), land_65280 _ (getU16_lt b off)]
  unfold getU16
  have h0 := (a off).isLt
  have h1 := (a (off + 1)).isLt
  have g0 := (b off).isLt
  have g1 := (b (off + 1)).isLt
  constructor
  · intro h e; exact h (by rw [e]; omega)
  · intro h e; exact h (Fin.ext (by omega))

namespace LASwriteItemCompressed_RGB12_v1

/-- The value of `sym` with the comparisons of masked `U16` written as comparisons of
bytes. -/
theorem sym_eq (last_item item : Bytes) :
    sym last_item item =
      ((if item 0 ≠ last_item 0 then 1 else 0) <<< 0) |||
      ((if item 1 ≠ last_item 1 then 1 else 0) <<< 1) |||
      ((if item 2 ≠ last_item 2 then 1 else 0) <<< 2) |||
      ((if item 3 ≠ last_item 3 then 1 else 0) <<< 3) |||
      ((if item 4 ≠ last_item 4 then 1 else 0) <<< 4) |||
      ((if item 5 ≠ last_item 5 then 1 else 0) <<< 5) := by
  simp only [sym, getU16_low_ne, getU16_high_ne]

/-- The value of `sym` is below 64 and its bit `i` tells whether byte `i` differs. -/
theorem sym_testBit (last_item item : Bytes) :
    sym last_item item < 64 ∧
    ((sym last_item item).testBit 0 = true ↔ item 0 ≠ last_item 0) ∧
    ((sym last_item item).testBit 1 = true ↔ item 1 ≠ last_item 1) ∧
    ((sym last_item item).testBit 2 = true ↔ item 2 ≠ last_item 2) ∧
    ((sym last_item item).testBit 3 = true ↔ item 3 ≠ last_item 3) ∧
    ((sym last_item item).testBit 4 = true ↔ item 4 ≠ last_item 4) ∧
    ((sym last_item item).testBit 5 = true ↔ item 5 ≠ last_item 5) := by
  rw [sym_eq]
  split_ifs <;> simp_all <;> decide

/-- The tests `sym & (1 << i)` of `write`. -/
theorem sym_bits (last_item item : Bytes) :
    (sym last_item item &&& (1 <<< 0) ≠ 0 ↔ item 0 ≠ last_item 0) ∧
    (sym last_item item &&& (1 <<< 1) ≠ 0 ↔ item 1 ≠ last_item 1) ∧
    (sym last_item item &&& (1 <<< 2) ≠ 0 ↔ item 2 ≠ last_item 2) ∧
    (sym last_item item &&& (1 <<< 3) ≠ 0 ↔ item 3 ≠ last_item 3) ∧
    (sym last_item item &&& (1 <<< 4) ≠ 0 ↔ item 4 ≠ last_item 4) ∧
    (sym last_item item &&& (1 <<< 5) ≠ 0 ↔ item 5 ≠ last_item 5) := by
  rw [sym_eq]
  split_ifs <;> simp_all <;> decide

end LASwriteItemCompressed_RGB12_v1

namespace LASwriteItemCompressed_RGB12_v1

/-- The calls of `write`: the symbol, then for each byte in turn a `compress` call when
the byte differs. -/
theorem write_rgb_calls (getK : IC → Int → Int → Nat → Nat)
    (s : LASwriteItemCompressed_RGB12_v1) (item : Bytes) :
    ((write s item).calls getK).1 =
      ItemOp.encodeSymbol SymbolModel.m_byte_used (sym s.last_item item) ::
        ((if item 0 ≠ s.last_item 0 then
            [ItemOp.compress IC.ic_rgb (s.last_item 0).val (item 0).val 0] else []) ++
         ((if item 1 ≠ s.last_item 1 then
            [ItemOp.compress IC.ic_rgb (s.last_item 1).val (item 1).val 1] else []) ++
         ((if item 2 ≠ s.last_item 2 then
            [ItemOp.compress IC.ic_rgb (s.last_item 2).val (item 2).val 2] else []) ++
         ((if item 3 ≠ s.last_item 3 then
            [ItemOp.compress IC.ic_rgb (s.last_item 3).val (item 3).val 3] else []) ++
         ((if item 4 ≠ s.last_item 4 then
            [ItemOp.compress IC.ic_rgb (s.last_item 4).val (item 4).val 4] else []) ++
         (if item 5 ≠ s.last_item 5 then
            [ItemOp.compress IC.ic_rgb (s.last_item 5).val (item 5).val 5] else [])))))) := by
  obtain ⟨b0, b1, b2, b3, b4, b5⟩ := sym_bits s.last_item item
  simp only [write, Prog.bind_eq, Prog.pure_eq, Prog.calls_bind_fst, calls_compress_,
    calls_encodeSymbol, calls_ret, Prog.calls_when, List.cons_append, List.nil_append,
    List.append_nil, b0, b1, b2, b3, b4, b5, getU16_low, getU16_high, List.append_assoc]

/-- The state after `write`. -/
theorem write_rgb_state (getK : IC → Int → Int → Nat → Nat)
    (s : LASwriteItemCompressed_RGB12_v1) (item : Bytes) :
    ((write s item).calls getK).2 = { s with last_item := memcpy s.last_item item 6 } := by
  simp only [write, Prog.bind_eq, Prog.pure_eq, Prog.calls_bind_snd, calls_ret]

/-- Claim C17: for every last RGB12 item and every 6-byte item, the symbol that `write`
emits (through the model of 64 symbols) is below 64 and its bit `i`, `i = 0..5`, is set
exactly when byte `i` of the item (the low and the high byte of red, green, blue, in
little-endian order) differs from byte `i` of the last item.  The symbol is followed by
exactly one `compress` call of the 8-bit compressor `ic_rgb` (6 contexts) per set bit, in
ascending `i`, with prediction byte `i` of the last item, value byte `i` of the item and
context `i`; afterwards the 6 bytes of the last item equal those of the item.  In
particular an item equal to the last one yields the symbol 0 and no `compress` call, and
an item that differs from it only in the low byte of red yields the symbol 1. -/
theorem write_byte_mask (getK : IC → Int → Int → Nat → Nat) (bits_high : Nat)
    (s : LASwriteItemCompressed_RGB12_v1) (item : Bytes) :
    (sym s.last_item item < 64 ∧ SymbolModel.m_byte_used.size = 64) ∧
    (∀ i, i < 6 → ((sym s.last_item item).testBit i = true ↔ item i ≠ s.last_item i)) ∧
    ((write s item).calls getK).1 =
      ItemOp.encodeSymbol SymbolModel.m_byte_used (sym s.last_item item) ::
        ((List.range 6).filter (fun i => decide (item i ≠ s.last_item i))).map
          (fun i => ItemOp.compress IC.ic_rgb (s.last_item i).val (item i).val i) ∧
    ((compressors bits_high IC.ic_rgb).corr_bits = 8 ∧
      (compressors bits_high IC.ic_rgb).contexts = 6) ∧
    (∀ i, i < 6 → ((write s item).calls getK).2.last_item i = item i) ∧
    ((∀ i, i < 6 → item i = s.last_item i) →
      sym s.last_item item = 0 ∧
      ((write s item).calls getK).1 = [ItemOp.encodeSymbol SymbolModel.m_byte_used 0]) ∧
    (item 0 ≠ s.last_item 0 ∧ (∀ i, 1 ≤ i → i < 6 → item i = s.last_item i) →
      sym s.last_item item = 1 ∧
      ((write s item).calls getK).1 =
        [ItemOp.encodeSymbol SymbolModel.m_byte_used 1,
          ItemOp.compress IC.ic_rgb (s.last_item 0).val (item 0).val 0]) := by
  obtain ⟨hlt, t0, t1, t2, t3, t4, t5⟩ := sym_testBit s.last_item item
  have hcalls := write_rgb_calls getK s item
  refine ⟨⟨hlt, rfl⟩, ?_, ?_, ⟨(SetupCompressor_bits _ 8 _ _ rfl rfl (by decide) (by decide)).1,
    SetupCompressor_contexts _ _ _⟩, ?_, ?_, ?_⟩
  · intro i hi
    have : i = 0 ∨ i = 1 ∨ i = 2 ∨ i = 3 ∨ i = 4 ∨ i = 5 := by omega
    rcases this with rfl | rfl | rfl | rfl | rfl | rfl <;> assumption
  · rw [hcalls]
    have hr : List.range 6 = [0, 1, 2, 3, 4, 5] := by decide
    rw [hr]
    simp only [List.filter_cons, List.filter_nil]
    by_cases c0 : item 0 = s.last_item 0 <;> by_cases c1 : item 1 = s.last_item 1 <;>
      by_cases c2 : item 2 = s.last_item 2 <;> by_cases c3 : item 3 = s.last_item 3 <;>
      by_cases c4 : item 4 = s.last_item 4 <;> by_cases c5 : item 5 = s.last_item 5 <;>
      simp [c0, c1, c2, c3, c4, c5]
  · intro i hi
    rw [write_rgb_state]
    simp only [memcpy, hi, if_true]
  · intro h
    rw [hcalls, sym_eq]
    simp [h 0 (by decide), h 1 (by decide), h 2 (by decide), h 3 (by decide),
      h 4 (by decide), h 5 (by decide)]
  · rintro ⟨h0, h⟩
    rw [hcalls, sym_eq]
    simp [h0, h 1 (by decide) (by decide), h 2 (by decide) (by decide),
      h 3 (by decide) (by decide), h 4 (by decide) (by decide), h 5 (by decide) (by decide)]

/-- Witness of `write_byte_mask`: the last item is all zero and the item has 9 as the low
byte of red. -/
theorem write_byte_mask_witness :
    sym (init (fun _ => 0)).last_item (fun i => if i = 0 then 9 else 0) = 1 ∧
    ((write (init (fun _ => 0)) (fun i => if i = 0 then 9 else 0)).calls
      (fun _ _ _ _ => 4)).1 =
      [ItemOp.encodeSymbol SymbolModel.m_byte_used 1, ItemOp.compress IC.ic_rgb 0 9 0] := by
  have h := (write_byte_mask (fun _ _ _ _ => 4) 8 (init (fun _ => 0))
    (fun i => if i = 0 then 9 else 0)).2.2.2.2.2.2
    ⟨by decide, by intro i h1 h2; interval_cases i <;> decide⟩
  exact ⟨h.1, h.2.trans (by decide)⟩

end LASwriteItemCompressed_RGB12_v1

/-! ## Claim on the WAVEPACKET13 writer (C18) -/

/-- The conversion of a `U64` difference to `I64` is the wraparound difference. -/
theorem toI64_toU64 (x : Int) : toI64 (toU64 x) = toI64 x := by
  unfold toI64 toU64
  omega

namespace LASwriteItemCompressed_WAVEPACKET13_v1

/-- The calls of `write` when the difference of the offsets fits in 32 bits. -/
theorem write_calls_small (getK : IC → Int → Int → Nat → Nat)
    (s : LASwriteItemCompressed_WAVEPACKET13_v1) (item : Bytes)
    (hfit : -2147483648 ≤ toI64 ((asLASwavepacket13 (fun i => item (i + 1))).offset -
        (asLASwavepacket13 s.last_item).offset) ∧
      toI64 ((asLASwavepacket13 (fun i => item (i + 1))).offset -
        (asLASwavepacket13 s.last_item).offset) < 2147483648) :
    ((write s item).calls getK).1 =
      [ItemOp.encodeSymbol SymbolModel.m_packet_index (item 0).val,
        ItemOp.encodeBit BitModel.m_small_offset_diff 1,
        ItemOp.compress IC.ic_offset_diff s.last_diff_32
          (toI64 ((asLASwavepacket13 (fun i => item (i + 1))).offset -
            (asLASwavepacket13 s.last_item).offset)) 0,
        ItemOp.compress IC.ic_packet_size (toI32 (asLASwavepacket13 s.last_item).packet_size)
          (toI32 (asLASwavepacket13 (fun i => item (i + 1))).packet_size) 0,
        ItemOp.compress IC.ic_return_point (asLASwavepacket13 s.last_item).return_point
          (asLASwavepacket13 (fun i => item (i + 1))).return_point 0,
        ItemOp.compress IC.ic_xyz (asLASwavepacket13 s.last_item).x
          (asLASwavepacket13 (fun i => item (i + 1))).x 0,
        ItemOp.compress IC.ic_xyz (asLASwavepacket13 s.last_item).y
          (asLASwavepacket13 (fun i => item (i + 1))).y 1,
        ItemOp.compress IC.ic_xyz (asLASwavepacket13 s.last_item).z
          (asLASwavepacket13 (fun i => item (i + 1))).z 2] ∧
    ((write s item).calls getK).2 =
      { last_diff_32 := toI64 ((asLASwavepacket13 (fun i => item (i + 1))).offset -
          (asLASwavepacket13 s.last_item).offset),
        last_item := memcpy s.last_item (fun i => item (i + 1)) 28 } := by
  have hfit2 := (eq_toI32_iff _).mpr hfit
  simp only [write, Prog.bind_eq, Prog.pure_eq, Prog.calls_bind_fst, Prog.calls_bind_snd,
    calls_compress_, calls_encodeSymbol, calls_encodeBit, calls_writeInt64, calls_ret,
    ← hfit2, if_true, List.cons_append, List.nil_append, toI64_toU64, and_self]

/-- The calls of `write` when the difference of the offsets does not fit in 32 bits. -/
theorem write_calls_large (getK : IC → Int → Int → Nat → Nat)
    (s : LASwriteItemCompressed_WAVEPACKET13_v1) (item : Bytes)
    (hbig : ¬(-2147483648 ≤ toI64 ((asLASwavepacket13 (fun i => item (i + 1))).offset -
        (asLASwavepacket13 s.last_item).offset) ∧
      toI64 ((asLASwavepacket13 (fun i => item (i + 1))).offset -
        (asLASwavepacket13 s.last_item).offset) < 2147483648)) :
    ((write s item).calls getK).1 =
      [ItemOp.encodeSymbol SymbolModel.m_packet_index (item 0).val,
        ItemOp.encodeBit BitModel.m_small_offset_diff 0,
        ItemOp.writeInt64 (asLASwavepacket13 (fun i => item (i + 1))).offset,
        ItemOp.compress IC.ic_packet_size (toI32 (asLASwavepacket13 s.last_item).packet_size)
          (toI32 (asLASwavepacket13 (fun i => item (i + 1))).packet_size) 0,
        ItemOp.compress IC.ic_return_point (asLASwavepacket13 s.last_item).return_point
          (asLASwavepacket13 (fun i => item (i + 1))).return_point 0,
        ItemOp.compress IC.ic_xyz (asLASwavepacket13 s.last_item).x
          (asLASwavepacket13 (fun i => item (i + 1))).x 0,
        ItemOp.compress IC.ic_xyz (asLASwavepacket13 s.last_item).y
          (asLASwavepacket13 (fun i => item (i + 1))).y 1,
        ItemOp.compress IC.ic_xyz (asLASwavepacket13 s.last_item).z
          (asLASwavepacket13 (fun i => item (i + 1))).z 2] ∧
    ((write s item).calls getK).2 =
      { last_diff_32 := s.last_diff_32,
        last_item := memcpy s.last_item (fun i => item (i + 1)) 28 } := by
  have hfit2 : ¬toI64 ((asLASwavepacket13 (fun i => item (i + 1))).offset -
        (asLASwavepacket13 s.last_item).offset) =
      toI32 (toI64 ((asLASwavepacket13 (fun i => item (i + 1))).offset -
        (asLASwavepacket13 s.last_item).offset)) := by
    rw [eq_toI32_iff]
    exact hbig
  simp only [write, Prog.bind_eq, Prog.pure_eq, Prog.calls_bind_fst, Prog.calls_bind_snd,
    calls_compress_, calls_encodeSymbol, calls_encodeBit, calls_writeInt64, calls_ret,
    toI64_toU64, hfit2, if_false, List.cons_append, List.nil_append, and_self]

/-- Claim C18: for every WAVEPACKET13 state and 29-byte item, `write` emits, in order:
byte 0 as a symbol of the model of 256 symbols; then, if the 64-bit wraparound difference
of the offsets (item minus last) fits in a signed 32-bit integer, the bit 1 and one
`compress` call of a 32-bit compressor with that difference and the prediction
`last_diff_32`, after which `last_diff_32` is that difference, otherwise the bit 0 and
the raw 64-bit offset, `last_diff_32` being unchanged; then packet_size, return_point, x,
y, z, each compressed by a 32-bit compressor against the corresponding last value, x, y,
z through the one compressor `ic_xyz` with the contexts 0, 1, 2.  Afterwards the 28 bytes
of the last item equal bytes 1 to 28 of the item. -/
theorem write_wavepacket (getK : IC → Int → Int → Nat → Nat) (bits_high : Nat)
    (s : LASwriteItemCompressed_WAVEPACKET13_v1) (item : Bytes) :
    ((-2147483648 ≤ toI64 ((asLASwavepacket13 (fun i => item (i + 1))).offset -
          (asLASwavepacket13 s.last_item).offset) ∧
        toI64 ((asLASwavepacket13 (fun i => item (i + 1))).offset -
          (asLASwavepacket13 s.last_item).offset) < 2147483648) →
      ((write s item).calls getK).1 =
        [ItemOp.encodeSymbol SymbolModel.m_packet_index (item 0).val,
          ItemOp.encodeBit BitModel.m_small_offset_diff 1,
          ItemOp.compress IC.ic_offset_diff s.last_diff_32
            (toI64 ((asLASwavepacket13 (fun i => item (i + 1))).offset -
              (asLASwavepacket13 s.last_item).offset)) 0,
          ItemOp.compress IC.ic_packet_size (toI32 (asLASwavepacket13 s.last_item).packet_size)
            (toI32 (asLASwavepacket13 (fun i => item (i + 1))).packet_size) 0,
          ItemOp.compress IC.ic_return_point (asLASwavepacket13 s.last_item).return_point
            (asLASwavepacket13 (fun i => item (i + 1))).return_point 0,
          ItemOp.compress IC.ic_xyz (asLASwavepacket13 s.last_item).x
            (asLASwavepacket13 (fun i => item (i + 1))).x 0,
          ItemOp.compress IC.ic_xyz (asLASwavepacket13 s.last_item).y
            (asLASwavepacket13 (fun i => item (i + 1))).y 1,
          ItemOp.compress IC.ic_xyz (asLASwavepacket13 s.last_item).z
            (asLASwavepacket13 (fun i => item (i + 1))).z 2] ∧
      ((write s item).calls getK).2.last_diff_32 =
        toI64 ((asLASwavepacket13 (fun i => item (i + 1))).offset -
          (asLASwavepacket13 s.last_item).offset)) ∧
    (¬(-2147483648 ≤ toI64 ((asLASwavepacket13 (fun i => item (i + 1))).offset -
          (asLASwavepacket13 s.last_item).offset) ∧
        toI64 ((asLASwavepacket13 (fun i => item (i + 1))).offset -
          (asLASwavepacket13 s.last_item).offset) < 2147483648) →
      ((write s item).calls getK).1 =
        [ItemOp.encodeSymbol SymbolModel.m_packet_index (item 0).val,
          ItemOp.encodeBit BitModel.m_small_offset_diff 0,
          ItemOp.writeInt64 (asLASwavepacket13 (fun i => item (i + 1))).offset,
          ItemOp.compress IC.ic_packet_size (toI32 (asLASwavepacket13 s.last_item).packet_size)
            (toI32 (asLASwavepacket13 (fun i => item (i + 1))).packet_size) 0,
          ItemOp.compress IC.ic_return_point (asLASwavepacket13 s.last_item).return_point
            (asLASwavepacket13 (fun i => item (i + 1))).return_point 0,
          ItemOp.compress IC.ic_xyz (asLASwavepacket13 s.last_item).x
            (asLASwavepacket13 (fun i => item (i + 1))).x 0,
          ItemOp.compress IC.ic_xyz (asLASwavepacket13 s.last_item).y
            (asLASwavepacket13 (fun i => item (i + 1))).y 1,
          ItemOp.compress IC.ic_xyz (asLASwavepacket13 s.last_item).z
            (asLASwavepacket13 (fun i => item (i + 1))).z 2] ∧
      ((write s item).calls getK).2.last_diff_32 = s.last_diff_32) ∧
    (∀ i, i < 28 → ((write s item).calls getK).2.last_item i = item (i + 1)) ∧
    (SymbolModel.m_packet_index.size = 256 ∧ (item 0).val < 256) ∧
    ((compressors bits_high IC.ic_offset_diff).corr_bits = 32 ∧
      (compressors bits_high IC.ic_packet_size).corr_bits = 32 ∧
      (compressors bits_high IC.ic_return_point).corr_bits = 32 ∧
      (compressors bits_high IC.ic_xyz).corr_bits = 32 ∧
      (compressors bits_high IC.ic_xyz).contexts = 3) := by
  refine ⟨?_, ?_, ?_, ⟨rfl, (item 0).isLt⟩,
    ⟨(SetupCompressor_32 _ _ _ rfl (Or.inr (le_refl _))).1,
     (SetupCompressor_32 _ _ _ rfl (Or.inr (le_refl _))).1,
     (SetupCompressor_32 _ _ _ rfl (Or.inr (le_refl _))).1,
     (SetupCompressor_32 _ _ _ rfl (Or.inr (le_refl _))).1,
     SetupCompressor_contexts _ _ _⟩⟩
  · intro hfit
    obtain ⟨h1, h2⟩ := write_calls_small getK s item hfit
    rw [h2]
    exact ⟨h1, rfl⟩
  · intro hbig
    obtain ⟨h1, h2⟩ := write_calls_large getK s item hbig
    rw [h2]
    exact ⟨h1, rfl⟩
  · intro i hi
    by_cases hfit : -2147483648 ≤ toI64 ((asLASwavepacket13 (fun i => item (i + 1))).offset -
          (asLASwavepacket13 s.last_item).offset) ∧
        toI64 ((asLASwavepacket13 (fun i => item (i + 1))).offset -
          (asLASwavepacket13 s.last_item).offset) < 2147483648
    · rw [(write_calls_small getK s item hfit).2]
      simp only [memcpy, hi, if_true]
    · rw [(write_calls_large getK s item hfit).2]
      simp only [memcpy, hi, if_true]

/-- Witness of `write_wavepacket`: the writer initialised on the all-zero item, and an
item with packet index 9 and offset 100. -/
theorem write_wavepacket_witness :
    ((write (init (fun _ => 0)) (fun i => if i = 0 then 9 else if i = 1 then 100 else 0)).calls
      (fun _ _ _ _ => 4)).1 =
      [ItemOp.encodeSymbol SymbolModel.m_packet_index 9,
        ItemOp.encodeBit BitModel.m_small_offset_diff 1,
        ItemOp.compress IC.ic_offset_diff 0 100 0,
        ItemOp.compress IC.ic_packet_size 0 0 0,
        ItemOp.compress IC.ic_return_point 0 0 0,
        ItemOp.compress IC.ic_xyz 0 0 0,
        ItemOp.compress IC.ic_xyz 0 0 1,
        ItemOp.compress IC.ic_xyz 0 0 2] ∧
    ((write (init (fun _ => 0)) (fun i => if i = 0 then 9 else if i = 1 then 100 else 0)).calls
      (fun _ _ _ _ => 4)).2.last_diff_32 = 100 := by
  have h := (write_wavepacket (fun _ _ _ _ => 4) 8 (init (fun _ => 0))
    (fun i => if i = 0 then 9 else if i = 1 then 100 else 0)).1 (by decide)
  exact ⟨h.1.trans (by decide), h.2.trans (by decide)⟩

end LASwriteItemCompressed_WAVEPACKET13_v1


/-! ## Claims on the termination of the magnitude loop and on the alphabets (C25, C26) -/

/-- For every corrector other than `I32_MIN` the magnitude loop of `writeCorrector` ends
within 31 iterations, with `c1 = 0` and `k` the bit length of `abs_adj`. -/
theorem magnitudeLoop_terminates (c : Int) (h1 : I32_MIN < c) (h2 : c ≤ I32_MAX) :
    bitLength c ≤ 31 ∧
    magnitudeLoop 31 (if c ≤ 0 then toI32 (-c) else toI32 (c - 1)) 0 = some (0, bitLength c) := by
  unfold I32_MIN at h1
  unfold I32_MAX at h2
  obtain ⟨n, hn⟩ : ∃ n : Nat, (n : Int) = abs_adj c := by
    refine ⟨(abs_adj c).toNat, ?_⟩
    unfold abs_adj
    split <;> omega
  have hn31 : n < 2 ^ 31 := by
    unfold abs_adj at hn
    norm_num
    split at hn <;> omega
  have hc1 : (if c ≤ 0 then toI32 (-c) else toI32 (c - 1)) = (n : Int) := by
    unfold abs_adj at hn
    split at hn <;> rename_i hc
    · rw [if_pos hc, toI32_of_mem (by omega) (by omega)]; omega
    · rw [if_neg hc, toI32_of_mem (by omega) (by omega)]; omega
  obtain ⟨j, hj, hloop, hlt, hge⟩ := magnitudeLoop_nonneg 31 31 n 0 (le_refl _) hn31
    (by norm_num)
  have hsize : bitLength c = j := by
    unfold bitLength
    rw [← hn]
    exact size_eq_of_bounds hlt hge
  rw [Nat.zero_add] at hloop
  rw [hsize, hc1]
  exact ⟨hj, hloop⟩

/-- Claim C25, the code at the failing input: in the 32-bit mode `corr_min` is `I32_MIN`
and `Compress` passes the corrector `I32_MIN` to `writeCorrector` (for `pred = 0`,
`real = I32_MIN`); there `c1 = (c <= 0 ? -c : c - 1)` is `I32_MIN` again in 32-bit
arithmetic, and the loop `while (c1) { c1 = c1 >> 1; k = k + 1; }` has not ended after
any number of iterations: the arithmetic shift of a negative value never reaches 0. -/
theorem magnitudeLoop_I32_MIN_never_ends (fuel contexts bits_high : Nat) :
    (IntegerCompressor 32 contexts bits_high).corr_min = I32_MIN ∧
    foldCorrector (IntegerCompressor 32 contexts bits_high) 0 I32_MIN = I32_MIN ∧
    (if I32_MIN ≤ 0 then toI32 (-I32_MIN) else toI32 (I32_MIN - 1)) = I32_MIN ∧
    magnitudeLoop fuel (if I32_MIN ≤ 0 then toI32 (-I32_MIN) else toI32 (I32_MIN - 1)) 0 =
      none := by
  obtain ⟨_, _, hmin, _⟩ := SetupCompressor_32
    { ArithmeticIntegerCompressor.new with bits := 32 } contexts bits_high rfl
    (Or.inr (le_refl _))
  exact ⟨hmin, foldCorrector_32_I32_MIN contexts bits_high, by decide,
    magnitudeLoop_neg fuel _ 0 (by decide)⟩

/-- The events of a call of `writeCorrector` that returns are the ones of
`writeCorrector_events`: the corrector is not `I32_MIN`. -/
theorem writeCorrector_eq_some (fuel : Nat) (s : ArithmeticIntegerCompressor) (c : Int)
    (ctx : Nat) (ev : List Event) (e : ArithmeticIntegerCompressor)
    (h1 : -2147483648 ≤ c) (h2 : c < 2147483648)
    (h : writeCorrector fuel s c ctx = some (ev, e)) :
    -2147483648 < c ∧ bitLength c ≤ 31 ∧ e = { s with k := bitLength c } ∧
    ev = Event.encodeBits ctx (bitLength c) ::
        (if bitLength c = 0 then [Event.encodeBit c.toNat]
         else if bitLength c ≤ s.bits_high then
           [Event.encodeCorrector (bitLength c)
             (if c < 0 then c + (((2 ^ bitLength c : Nat) : Int) - 1) else c - 1).toNat]
         else
           [Event.encodeCorrector (bitLength c)
              ((if c < 0 then c + (((2 ^ bitLength c : Nat) : Int) - 1) else c - 1).toNat /
                2 ^ (bitLength c - s.bits_high)),
            Event.writeBits (bitLength c - s.bits_high)
              ((if c < 0 then c + (((2 ^ bitLength c : Nat) : Int) - 1) else c - 1).toNat %
                2 ^ (bitLength c - s.bits_high))]) := by
  have hne : c ≠ -2147483648 := by
    intro hc
    subst hc
    unfold writeCorrector at h
    have hloop := magnitudeLoop_neg fuel
      (if (-2147483648 : Int) ≤ 0 then toI32 (-(-2147483648)) else toI32 (-2147483648 - 1)) 0
      (by decide)
    simp only [hloop] at h
    exact absurd h (by simp)
  have hlt : -2147483648 < c := by omega
  have hm := writeCorrector_mono fuel s c ctx _ h 31
  obtain ⟨_, hw⟩ := writeCorrector_events (fuel + 31) s c ctx (by omega) hlt h2
  obtain ⟨hk, _⟩ := readCorrector_writeCorrector (fuel + 31) s s c ctx [] (by omega) rfl hlt h2
  rw [hw] at hm
  simp only [Option.some.injEq, Prod.mk.injEq] at hm
  exact ⟨hlt, hk, hm.2.symm, hm.1.symm⟩

/-- Claim C26: every symbol that `writeCorrector` emits fits the alphabet of the model it
is encoded with.  For every setup with `bits_high < 32` and every corrector `c` of
`[corr_min, corr_max]`: the call returns unless `c` is `I32_MIN`, and whenever it returns,
the magnitude symbol `k` is below `corr_bits + 1`, the size of the magnitude models; for
`k = 0` the bit is 0 or 1; for `1 ≤ k ≤ bits_high` the value symbol is below `2^k`, the
size of the value model of index `k`; for `k > bits_high` the high part is below
`2^bits_high`, the size of the value model of index `k`, the raw part is below
`2^(k - bits_high)` and the number `k - bits_high` of raw bits is in `[1, 32]`. -/
theorem writeCorrector_symbols_fit (s0 : ArithmeticIntegerCompressor)
    (contexts bits_high fuel ctx : Nat) (c : Int) (hr : s0.range < 4294967296)
    (hbh : bits_high < 32)
    (hmin : (SetupCompressor s0 contexts bits_high).corr_min ≤ c)
    (hmax : c ≤ (SetupCompressor s0 contexts bits_high).corr_max) :
    (c ≠ I32_MIN → 31 ≤ fuel →
      ∃ ev e, writeCorrector fuel (SetupCompressor s0 contexts bits_high) c ctx = some (ev, e)) ∧
    (∀ m, m ∈ (SetupCompressor s0 contexts bits_high).mBits →
      m.n = (SetupCompressor s0 contexts bits_high).corr_bits + 1) ∧
    (∀ ev e, writeCorrector fuel (SetupCompressor s0 contexts bits_high) c ctx = some (ev, e) →
      (∃ rest, ev = Event.encodeBits ctx e.k :: rest ∧
        e.k < (SetupCompressor s0 contexts bits_high).corr_bits + 1 ∧
        ∀ cx k, Event.encodeBits cx k ∉ rest) ∧
      (∀ b, Event.encodeBit b ∈ ev → e.k = 0 ∧ b < 2) ∧
      (∀ i sym, Event.encodeCorrector i sym ∈ ev →
        i = e.k ∧ 1 ≤ i ∧ sym < 2 ^ min i bits_high ∧
        (SetupCompressor s0 contexts bits_high).mCorrector[i - 1]? =
          some { n := 2 ^ min i bits_high, compress := 1 }) ∧
      (∀ n raw, Event.writeBits n raw ∈ ev →
        bits_high < e.k ∧ n = e.k - bits_high ∧ 1 ≤ n ∧ n ≤ 32 ∧ raw < 2 ^ n)) := by
  obtain ⟨hbhs, hR, hcorr⟩ := SetupCompressor_corr s0 contexts bits_high hr
  have hcb := bitLength_le_corr_bits s0 contexts bits_high hr c hmin hmax
  have h1 : -2147483648 ≤ c := by
    unfold I32_MIN at hcorr
    rcases hcorr with ⟨_, h, _⟩ | ⟨_, h, _⟩ <;> omega
  have h2 : c < 2147483648 := by
    unfold I32_MAX at hcorr
    rcases hcorr with ⟨_, _, h⟩ | ⟨_, h', h⟩ <;> omega
  have hcb32 : (SetupCompressor s0 contexts bits_high).corr_bits ≤ 32 := by
    by_cases hrange : s0.range = 0
    · by_cases hbits : s0.bits = 0 ∨ 32 ≤ s0.bits
      · rw [(SetupCompressor_32 s0 contexts bits_high hrange hbits).1]
      · rw [(SetupCompressor_bits s0 s0.bits contexts bits_high hrange rfl (by omega)
          (by omega)).1]
        omega
    · obtain ⟨j, _, hj, _, _, hcbj, _⟩ := SetupCompressor_range s0 contexts bits_high hrange hr
      rw [hcbj]
      split <;> omega
  refine ⟨?_, ?_, ?_⟩
  · intro hne hfuel
    unfold I32_MIN at hne
    exact ⟨_, _, (writeCorrector_events fuel _ c ctx hfuel (by omega) h2).2⟩
  · intro m hm
    rw [(SetupCompressor_models s0 contexts bits_high).1] at hm
    rw [(List.mem_replicate.mp hm).2]
    exact Nat.mod_eq_of_lt (by omega)
  · intro ev e h
    obtain ⟨hlt, hk31, he, hev⟩ := writeCorrector_eq_some fuel _ c ctx ev e h1 h2 h
    obtain ⟨ht, _⟩ := writeCorrector_events (fuel + 31) (SetupCompressor s0 contexts bits_high)
      c ctx (by omega) hlt h2
    have hek : e.k = bitLength c := by rw [he]
    rw [hbhs] at hev
    rw [hek]
    generalize hkdef : bitLength c = k at *
    by_cases hk0 : k = 0
    · subst hk0
      have hc01 : c = 0 ∨ c = 1 := by
        have := (bitLength_eq_iff c 0).mp hkdef
        rcases this with ⟨_, h⟩ | ⟨h, _⟩
        · exact h
        · omega
      simp only [if_true] at hev
      subst hev
      refine ⟨⟨_, rfl, by omega, by simp⟩, ?_, by simp, by simp⟩
      intro b hb
      simp only [List.mem_cons, List.mem_singleton, Event.encodeBit.injEq, false_or,
        List.not_mem_nil, or_false] at hb
      rcases hb with hb | hb
      · exact absurd hb (by simp)
      · subst hb
        rcases hc01 with rfl | rfl <;> exact ⟨rfl, by decide⟩
    · obtain ⟨ht0, htlt⟩ := ht (by omega)
      have hmodel : ∀ i, i = k →
          (SetupCompressor s0 contexts bits_high).mCorrector[i - 1]? =
            some { n := 2 ^ min i bits_high, compress := 1 } := by
        intro i hi
        subst hi
        rw [(SetupCompressor_models s0 contexts bits_high).2]
        unfold allocCorrector
        rw [List.getElem?_map, List.getElem?_range (by omega)]
        have hi1 : i - 1 + 1 = i := by omega
        simp only [Option.map_some', hi1]
        split
        · rename_i hle
          rw [Nat.min_eq_left hle, toU32_shl32_one (by omega)]
        · rename_i hle
          rw [Nat.min_eq_right (by omega), toU32_shl32_one (by omega)]
      generalize (if c < 0 then c + (((2 ^ k : Nat) : Int) - 1) else c - 1) = t at *
      obtain ⟨T, rfl⟩ := Int.eq_ofNat_of_zero_le ht0
      have hT : T < 2 ^ k := by exact_mod_cast htlt
      simp only [Int.toNat_ofNat, hk0, if_false] at hev
      by_cases hhigh : k ≤ bits_high
      · simp only [hhigh, if_true] at hev
        subst hev
        refine ⟨⟨_, rfl, by omega, by simp⟩, by simp, ?_, by simp⟩
        intro i sym hmem
        simp only [List.mem_cons, List.mem_singleton, Event.encodeCorrector.injEq,
          List.not_mem_nil, or_false, false_or] at hmem
        rcases hmem with hmem | hmem
        · exact absurd hmem (by simp)
        · obtain ⟨hi, hsym⟩ := hmem
          subst hi hsym
          exact ⟨rfl, by omega, by rw [Nat.min_eq_left hhigh]; exact hT, hmodel _ rfl⟩
      · simp only [hhigh, if_false] at hev
        subst hev
        have hsplit : bits_high + (k - bits_high) = k := by omega
        have hhi : T / 2 ^ (k - bits_high) < 2 ^ bits_high := by
          rw [Nat.div_lt_iff_lt_mul (two_pow_pos _), ← pow_add, hsplit]
          exact hT
        refine ⟨⟨_, rfl, by omega, by simp⟩, by simp, ?_, ?_⟩
        · intro i sym hmem
          simp only [List.mem_cons, List.mem_singleton, Event.encodeCorrector.injEq,
            List.not_mem_nil, or_false, false_or] at hmem
          rcases hmem with hmem | hmem | hmem
          · exact absurd hmem (by simp)
          · obtain ⟨hi, hsym⟩ := hmem
            subst hi hsym
            exact ⟨rfl, by omega, by rw [Nat.min_eq_right (by omega)]; exact hhi, hmodel _ rfl⟩
          · exact absurd hmem (by simp)
        · intro n raw hmem
          simp only [List.mem_cons, List.mem_singleton, Event.writeBits.injEq,
            List.not_mem_nil, or_false, false_or] at hmem
          rcases hmem with hmem | hmem | hmem
          · exact absurd hmem (by simp)
          · exact absurd hmem (by simp)
          · obtain ⟨hn, hraw⟩ := hmem
            subst hn hraw
            exact ⟨by omega, rfl, by omega, by omega, Nat.mod_lt _ (two_pow_pos _)⟩

/-- Witness of `writeCorrector_symbols_fit`: 32 bits, `bits_high = 2`, the corrector 8. -/
theorem writeCorrector_symbols_fit_witness :
    ∃ ev e, writeCorrector 32
      (SetupCompressor { ArithmeticIntegerCompressor.new with bits := 32 } 1 2) 8 0 =
        some (ev, e) :=
  (writeCorrector_symbols_fit { ArithmeticIntegerCompressor.new with bits := 32 } 1 2 32 0 8
    (by decide) (by decide) (by decide) (by decide)).1 (by decide) (by decide)

/-! ## Claim on the range member (C23) -/

/-- A setup does not change the member `bits`. -/
theorem SetupCompressor_bits_member (s0 : ArithmeticIntegerCompressor)
    (contexts bits_high : Nat) : (SetupCompressor s0 contexts bits_high).bits = s0.bits := by
  by_cases hrange : s0.range = 0
  · by_cases hbits : ¬s0.bits = 0 ∧ s0.bits < 32
    · simp only [SetupCompressor, hrange, ne_eq, not_true_eq_false, if_false, hbits.1, hbits.2,
        not_false_eq_true, and_self, if_true]
    · simp only [SetupCompressor, hrange, ne_eq, not_true_eq_false, if_false, hbits]
  · simp only [SetupCompressor, ne_eq, hrange, not_false_eq_true, if_true]

/-- Claim C23: for every non-zero value `r` of the range member (a `U32`), the first call
of `SetupCompressor` derives `corr_range = r` and `corr_bits` = the least `n` with
`r ≤ 2^n`, and leaves the range member equal to 0; a second call of `SetupCompressor` on
the same object then takes the branch of `bits` and derives, whatever `r` was,
`corr_bits = bits` and `corr_range = 2^bits` for `1 ≤ bits ≤ 31`, and `corr_bits = 32` and
`corr_range = 0` for `bits = 32` (as for every other value of `bits`). -/
theorem SetupCompressor_twice (s0 : ArithmeticIntegerCompressor)
    (contexts bits_high contexts2 bits_high2 : Nat)
    (hrange : s0.range ≠ 0) (hr : s0.range < 4294967296) :
    (SetupCompressor s0 contexts bits_high).corr_range = s0.range ∧
    (s0.range ≤ 2 ^ (SetupCompressor s0 contexts bits_high).corr_bits ∧
      ∀ n, s0.range ≤ 2 ^ n → (SetupCompressor s0 contexts bits_high).corr_bits ≤ n) ∧
    (SetupCompressor s0 contexts bits_high).range = 0 ∧
    (SetupCompressor (SetupCompressor s0 contexts bits_high) contexts2 bits_high2).corr_range =
      (if 1 ≤ s0.bits ∧ s0.bits < 32 then 2 ^ s0.bits else 0) ∧
    (SetupCompressor (SetupCompressor s0 contexts bits_high) contexts2 bits_high2).corr_bits =
      (if 1 ≤ s0.bits ∧ s0.bits < 32 then s0.bits else 32) := by
  obtain ⟨j, hj1, hj32, hlo, hhi, hcb, hcr, _, _, hrg⟩ :=
    SetupCompressor_range s0 contexts bits_high hrange hr
  have hb := SetupCompressor_bits_member s0 contexts bits_high
  refine ⟨hcr, ⟨?_, ?_⟩, hrg, ?_, ?_⟩
  · rw [hcb]
    split
    · rename_i hp
      exact le_of_eq hp
    · exact le_of_lt hhi
  · intro n hn
    rw [hcb]
    split
    · rename_i hp
      rw [hp] at hn
      exact (Nat.pow_le_pow_iff_right (by decide)).mp hn
    · rename_i hp
      have hlt : 2 ^ (j - 1) < 2 ^ n := lt_of_lt_of_le (lt_of_le_of_ne hlo (Ne.symm hp)) hn
      have := (Nat.pow_lt_pow_iff_right (by decide)).mp hlt
      omega
  · by_cases hbits : 1 ≤ s0.bits ∧ s0.bits < 32
    · rw [if_pos hbits, (SetupCompressor_bits _ s0.bits contexts2 bits_high2 hrg hb hbits.1
        (by omega)).2.1]
    · rw [if_neg hbits, (SetupCompressor_32 _ contexts2 bits_high2 hrg (by rw [hb]; omega)).2.1]
  · by_cases hbits : 1 ≤ s0.bits ∧ s0.bits < 32
    · rw [if_pos hbits, (SetupCompressor_bits _ s0.bits contexts2 bits_high2 hrg hb hbits.1
        (by omega)).1]
    · rw [if_neg hbits, (SetupCompressor_32 _ contexts2 bits_high2 hrg (by rw [hb]; omega)).1]

/-- Witness of `SetupCompressor_twice`: the range 5 and 16 bits: the first setup derives
`corr_range = 5`, the second one `corr_range = 2^16`. -/
theorem SetupCompressor_twice_witness :
    (SetupCompressor { ArithmeticIntegerCompressor.new with range := 5 } 1 8).corr_range = 5 ∧
    (SetupCompressor (SetupCompressor { ArithmeticIntegerCompressor.new with range := 5 } 1 8)
      1 8).corr_range = 65536 := by
  have h := SetupCompressor_twice { ArithmeticIntegerCompressor.new with range := 5 } 1 8 1 8
    (by decide) (by decide)
  exact ⟨h.1, h.2.2.2.1.trans (by decide)⟩

/-! ## Claims on the contexts and on the cursor of POINT10 (C21, C22, C27) -/

/-- Every call of `Compress` that returns exposes a magnitude of at most 31. -/
theorem Compress_k_le (fuel : Nat) (s : ArithmeticIntegerCompressor) (pred real : Int)
    (ctx : Nat) (ev : List Event) (e : ArithmeticIntegerCompressor)
    (h : Compress fuel s pred real ctx = some (ev, e)) : e.k ≤ 31 := by
  unfold Compress at h
  obtain ⟨_, hk, he, _⟩ := writeCorrector_eq_some fuel s _ ctx ev e
    (foldCorrector_lower s pred real) (foldCorrector_upper s pred real) h
  rw [he]
  exact hk

namespace LASwriteItemCompressed_POINT10_v1

/-- All the calls of `write`, in order. -/
theorem write_calls_list (getK : IC → Int → Int → Nat → Nat)
    (s : LASwriteItemCompressed_POINT10_v1) (item : Bytes) :
    ((write s item).calls getK).1 =
      ItemOp.compress IC.ic_dx s.median_x
          (toI32 ((asLASpoint10 item).x - (asLASpoint10 s.last_item).x)) s.last_dir ::
      ItemOp.compress IC.ic_dy s.median_y
          (toI32 ((asLASpoint10 item).y - (asLASpoint10 s.last_item).y))
          (getK IC.ic_dx s.median_x
            (toI32 ((asLASpoint10 item).x - (asLASpoint10 s.last_item).x)) s.last_dir) ::
      ItemOp.compress IC.ic_z (asLASpoint10 s.last_item).z (asLASpoint10 item).z
          ((getK IC.ic_dx s.median_x
              (toI32 ((asLASpoint10 item).x - (asLASpoint10 s.last_item).x)) s.last_dir +
            getK IC.ic_dy s.median_y
              (toI32 ((asLASpoint10 item).y - (asLASpoint10 s.last_item).y))
              (getK IC.ic_dx s.median_x
                (toI32 ((asLASpoint10 item).x - (asLASpoint10 s.last_item).x)) s.last_dir))
            % 4294967296 / 2) ::
      ItemOp.encodeSymbol SymbolModel.m_changed_values (changed_values s.last_item item) ::
      ((if (asLASpoint10 s.last_item).intensity ≠ (asLASpoint10 item).intensity then
          [ItemOp.compress IC.ic_intensity (asLASpoint10 s.last_item).intensity
            (asLASpoint10 item).intensity 0] else []) ++
       ((if s.last_item 14 ≠ item 14 then
          [ItemOp.encodeSymbol SymbolModel.m_bit_byte (item 14).val] else []) ++
       ((if (asLASpoint10 s.last_item).classification ≠ (asLASpoint10 item).classification
          then [ItemOp.encodeSymbol SymbolModel.m_classification
            (asLASpoint10 item).classification] else []) ++
       ((if (asLASpoint10 s.last_item).scan_angle_rank ≠ (asLASpoint10 item).scan_angle_rank
          then [ItemOp.compress IC.ic_scan_angle_rank (asLASpoint10 s.last_item).scan_angle_rank
            (asLASpoint10 item).scan_angle_rank
            (if (getK IC.ic_dx s.median_x
                (toI32 ((asLASpoint10 item).x - (asLASpoint10 s.last_item).x)) s.last_dir +
              getK IC.ic_dy s.median_y
                (toI32 ((asLASpoint10 item).y - (asLASpoint10 s.last_item).y))
                (getK IC.ic_dx s.median_x
                  (toI32 ((asLASpoint10 item).x - (asLASpoint10 s.last_item).x)) s.last_dir))
              % 4294967296 / 2 < 3 then 1 else 0)] else []) ++
       ((if (asLASpoint10 s.last_item).user_data ≠ (asLASpoint10 item).user_data then
          [ItemOp.encodeSymbol SymbolModel.m_user_data (asLASpoint10 item).user_data]
          else []) ++
        (if (asLASpoint10 s.last_item).point_source_ID ≠ (asLASpoint10 item).point_source_ID
          then [ItemOp.compress IC.ic_point_source_ID (asLASpoint10 s.last_item).point_source_ID
            (asLASpoint10 item).point_source_ID 0] else [])))))) := by
  obtain ⟨b5, b4, b3, b2, b1, b0⟩ := changed_values_bits s.last_item item
  simp only [write, Prog.bind_eq, Prog.pure_eq, Prog.calls_bind_fst, calls_compress,
    calls_compress_, calls_encodeSymbol, calls_ret, Prog.calls_when,
    List.cons_append, List.nil_append, List.append_nil,
    b5, b4, b3, b2, b1, b0, List.append_assoc]

/-- The contexts declared by the constructor of the writer. -/
theorem compressors_contexts (bits_high : Nat) :
    (compressors bits_high IC.ic_dx).contexts = 2 ∧
    (compressors bits_high IC.ic_dy).contexts = 33 ∧
    (compressors bits_high IC.ic_z).contexts = 33 ∧
    (compressors bits_high IC.ic_intensity).contexts = 1 ∧
    (compressors bits_high IC.ic_scan_angle_rank).contexts = 2 ∧
    (compressors bits_high IC.ic_point_source_ID).contexts = 1 :=
  ⟨SetupCompressor_contexts _ _ _, SetupCompressor_contexts _ _ _,
   SetupCompressor_contexts _ _ _, SetupCompressor_contexts _ _ _,
   SetupCompressor_contexts _ _ _, SetupCompressor_contexts _ _ _⟩

/-- Claim C21 as written fails: from the writer initialised on the all-zero point, the
item with `z = 100` and `scan_angle_rank = 1` is written with the magnitudes `k_x = 0`,
`k_y = 0` and `k_z = 7` (the events of `ic_z` open with the magnitude symbol 7); `k_z` is
not below 3, yet the events of `ic_scan_angle_rank` are encoded with the context 1. -/
theorem write_scan_angle_context_counterexample :
    ∃ s, (write (init (fun _ => 0))
        (fun i => if i = 8 then 100 else if i = 16 then 1 else 0)).run 32 (compressors 8) =
      some ([CoderEvent.ic IC.ic_dx (Event.encodeBits 0 0),
          CoderEvent.ic IC.ic_dx (Event.encodeBit 0),
          CoderEvent.ic IC.ic_dy (Event.encodeBits 0 0),
          CoderEvent.ic IC.ic_dy (Event.encodeBit 0),
          CoderEvent.ic IC.ic_z (Event.encodeBits 0 7),
          CoderEvent.ic IC.ic_z (Event.encodeCorrector 7 99),
          CoderEvent.encodeSymbol SymbolModel.m_changed_values 4,
          CoderEvent.ic IC.ic_scan_angle_rank (Event.encodeBits 1 0),
          CoderEvent.ic IC.ic_scan_angle_rank (Event.encodeBit 1)], s) :=
  ⟨_, rfl⟩

/-- Claim C21 (amended): for every POINT10 write in which scan_angle_rank changed,
whatever magnitudes `k ≤ 32` the compressors expose, the call of the 8-bit compressor
`ic_scan_angle_rank` has the last value as prediction and the context 1 when
`floor((k_x + k_y) / 2) < 3` and 0 otherwise, `k_x` and `k_y` being the magnitudes exposed
after the x and the y call: the value tested is the context of the z call (the third
call), not the magnitude that the z compressor exposes. -/
theorem write_scan_angle_context (getK : IC → Int → Int → Nat → Nat) (bits_high : Nat)
    (s : LASwriteItemCompressed_POINT10_v1) (item : Bytes)
    (hK : ∀ ic pred real context, getK ic pred real context ≤ 32)
    (hch : (asLASpoint10 s.last_item).scan_angle_rank ≠ (asLASpoint10 item).scan_angle_rank) :
    (∀ pred real context,
      ItemOp.compress IC.ic_scan_angle_rank pred real context ∈ ((write s item).calls getK).1 ↔
      (pred = (asLASpoint10 s.last_item).scan_angle_rank ∧
        real = (asLASpoint10 item).scan_angle_rank ∧
        context =
          if (getK IC.ic_dx s.median_x
              (toI32 ((asLASpoint10 item).x - (asLASpoint10 s.last_item).x)) s.last_dir +
            getK IC.ic_dy s.median_y
              (toI32 ((asLASpoint10 item).y - (asLASpoint10 s.last_item).y))
              (getK IC.ic_dx s.median_x
                (toI32 ((asLASpoint10 item).x - (asLASpoint10 s.last_item).x)) s.last_dir))
            / 2 < 3 then 1 else 0)) ∧
    ((write s item).calls getK).1[2]? =
      some (ItemOp.compress IC.ic_z (asLASpoint10 s.last_item).z (asLASpoint10 item).z
        ((getK IC.ic_dx s.median_x
            (toI32 ((asLASpoint10 item).x - (asLASpoint10 s.last_item).x)) s.last_dir +
          getK IC.ic_dy s.median_y
            (toI32 ((asLASpoint10 item).y - (asLASpoint10 s.last_item).y))
            (getK IC.ic_dx s.median_x
              (toI32 ((asLASpoint10 item).x - (asLASpoint10 s.last_item).x)) s.last_dir))
          / 2)) ∧
    (compressors bits_high IC.ic_scan_angle_rank).corr_bits = 8 := by
  have hkx := hK IC.ic_dx s.median_x
    (toI32 ((asLASpoint10 item).x - (asLASpoint10 s.last_item).x)) s.last_dir
  have hky := hK IC.ic_dy s.median_y
    (toI32 ((asLASpoint10 item).y - (asLASpoint10 s.last_item).y))
    (getK IC.ic_dx s.median_x
      (toI32 ((asLASpoint10 item).x - (asLASpoint10 s.last_item).x)) s.last_dir)
  have hmod : (getK IC.ic_dx s.median_x
        (toI32 ((asLASpoint10 item).x - (asLASpoint10 s.last_item).x)) s.last_dir +
      getK IC.ic_dy s.median_y
        (toI32 ((asLASpoint10 item).y - (asLASpoint10 s.last_item).y))
        (getK IC.ic_dx s.median_x
          (toI32 ((asLASpoint10 item).x - (asLASpoint10 s.last_item).x)) s.last_dir))
      % 4294967296 =
      getK IC.ic_dx s.median_x
        (toI32 ((asLASpoint10 item).x - (asLASpoint10 s.last_item).x)) s.last_dir +
      getK IC.ic_dy s.median_y
        (toI32 ((asLASpoint10 item).y - (asLASpoint10 s.last_item).y))
        (getK IC.ic_dx s.median_x
          (toI32 ((asLASpoint10 item).x - (asLASpoint10 s.last_item).x)) s.last_dir) :=
    Nat.mod_eq_of_lt (by omega)
  rw [write_calls_list, hmod]
  refine ⟨?_, rfl, (compressors_bits bits_high).2.2.2.2.1⟩
  · intro pred real context
    simp only [List.mem_cons, List.mem_append, ItemOp.compress.injEq, false_and, false_or,
      hch, ne_eq, not_false_eq_true, if_true, List.mem_singleton, true_and]
    constructor
    · intro h
      rcases h with h | h | h | h | h | h | h | h | h
      all_goals first
        | exact h
        | (exfalso; simp at h; done)
        | (simpa using h)
    · intro h
      simp only [h, and_self, true_or, or_true]

/-- Witness of `write_scan_angle_context`: from the writer initialised on the all-zero
point, the item with `z = 100` and `scan_angle_rank = 1`, with compressors that expose
`k = 0` after the x and y calls and `k = 7` after the z call: the context is 1. -/
theorem write_scan_angle_context_witness :
    ItemOp.compress IC.ic_scan_angle_rank 0 1 1 ∈
      ((write (init (fun _ => 0)) (fun i => if i = 8 then 100 else if i = 16 then 1 else 0)).calls
        (fun ic _ _ _ => if ic = IC.ic_z then 7 else 0)).1 :=
  ((write_scan_angle_context (fun ic _ _ _ => if ic = IC.ic_z then 7 else 0) 8
    (init (fun _ => 0)) (fun i => if i = 8 then 100 else if i = 16 then 1 else 0)
    (by intro ic _ _ _; by_cases h : ic = IC.ic_z <;> simp [h]) (by decide)).1 0 1 1).mpr
    ⟨by decide, by decide, by decide⟩

/-- Claim C27: in every `compress` call that POINT10 `write` issues, in a state reached
from `init` by any sequence of writes and with compressors that expose magnitudes
`k ≤ 32` (as the ones of the source do: a `Compress` call that returns exposes `k ≤ 31`),
the context is smaller than the number of contexts the compressor was created with,
although the code never clamps: `last_dir < 2` for x, `k_x ≤ 32 < 33` for y,
`floor((k_x + k_y) / 2) ≤ 32 < 33` for z, 0 or 1 `< 2` for scan_angle_rank, and the
context 0 for the two compressors created with one context. -/
theorem write_contexts_in_bounds (getK : IC → Int → Int → Nat → Nat) (bits_high : Nat)
    (item0 : Bytes) (items : List Bytes) (item : Bytes)
    (s : LASwriteItemCompressed_POINT10_v1) (hs : s = writes getK (init item0) items)
    (hK : ∀ ic pred real context, getK ic pred real context ≤ 32) :
    (∀ ic pred real context,
      ItemOp.compress ic pred real context ∈ ((write s item).calls getK).1 →
      context < (compressors bits_high ic).contexts) ∧
    (s.last_dir < 2 ∧ (compressors bits_high IC.ic_dx).contexts = 2 ∧
      (compressors bits_high IC.ic_dy).contexts = 33 ∧
      (compressors bits_high IC.ic_z).contexts = 33 ∧
      (compressors bits_high IC.ic_scan_angle_rank).contexts = 2) ∧
    (∀ ic fuel pred real context ev e,
      Compress fuel (compressors bits_high ic) pred real context = some (ev, e) → e.k ≤ 32) := by
  have hinv : s.last_dir ≤ 1 ∧ s.last_incr 0 ≤ 2 ∧ s.last_incr 1 ≤ 2 := by
    rw [hs]
    exact writes_cursors getK items (init item0) ⟨Nat.zero_le _, Nat.zero_le _, Nat.zero_le _⟩
  obtain ⟨c1, c2, c3, c4, c5, c6⟩ := compressors_contexts bits_high
  have hkx := hK IC.ic_dx s.median_x
    (toI32 ((asLASpoint10 item).x - (asLASpoint10 s.last_item).x)) s.last_dir
  have hky := hK IC.ic_dy s.median_y
    (toI32 ((asLASpoint10 item).y - (asLASpoint10 s.last_item).y))
    (getK IC.ic_dx s.median_x
      (toI32 ((asLASpoint10 item).x - (asLASpoint10 s.last_item).x)) s.last_dir)
  refine ⟨?_, ⟨by omega, c1, c2, c3, c5⟩, ?_⟩
  · intro ic pred real context h
    rw [write_calls_list] at h
    simp only [List.mem_cons, List.mem_append, ItemOp.compress.injEq] at h
    rcases h with h | h | h | h | h | h | h | h | h | h
    · obtain ⟨rfl, _, _, rfl⟩ := h
      rw [c1]; omega
    · obtain ⟨rfl, _, _, rfl⟩ := h
      rw [c2]; omega
    · obtain ⟨rfl, _, _, rfl⟩ := h
      rw [c3]; omega
    · exact absurd h (by simp)
    · split at h
      · simp only [List.mem_singleton, ItemOp.compress.injEq] at h
        obtain ⟨rfl, _, _, rfl⟩ := h
        rw [c4]; omega
      · exact absurd h (by simp)
    · split at h <;> exact absurd h (by simp)
    · split at h <;> exact absurd h (by simp)
    · split at h
      · simp only [List.mem_singleton, ItemOp.compress.injEq] at h
        obtain ⟨rfl, _, _, rfl⟩ := h
        rw [c5]
        split <;> omega
      · exact absurd h (by simp)
    · split at h <;> exact absurd h (by simp)
    · split at h
      · simp only [List.mem_singleton, ItemOp.compress.injEq] at h
        obtain ⟨rfl, _, _, rfl⟩ := h
        rw [c6]; omega
      · exact absurd h (by simp)
  · intro ic fuel pred real context ev e h
    have := Compress_k_le fuel _ pred real context ev e h
    omega

/-- Witness of `write_contexts_in_bounds`: the writer initialised on the all-zero point,
the item with `x = 5`, compressors that expose `k = 4`: the context 4 of the y call is
below 33. -/
theorem write_contexts_in_bounds_witness :
    (4 : Nat) < (compressors 8 IC.ic_dy).contexts :=
  (write_contexts_in_bounds (fun _ _ _ _ => 4) 8 (fun _ => 0) []
    (fun i => if i = 0 then 5 else 0) (init (fun _ => 0)) rfl
    (by intro _ _ _ _; show (4 : Nat) ≤ 32; decide)).1 IC.ic_dy 0 0 4 (by decide)

/-- A write in the direction of `last_dir` stores the two differences at the cursor and
moves the cursor to `(cursor + 1) mod 3`. -/
theorem record_same_dir (s : LASwriteItemCompressed_POINT10_v1) (item : Bytes)
    (x_diff y_diff : Int) (hinv : s.last_dir ≤ 1 ∧ s.last_incr 0 ≤ 2 ∧ s.last_incr 1 ≤ 2)
    (hflag : (asLASpoint10 item).scan_direction_flag = s.last_dir) :
    (record s item x_diff y_diff).last_dir = s.last_dir ∧
    (record s item x_diff y_diff).last_incr s.last_dir = (s.last_incr s.last_dir + 1) % 3 ∧
    (record s item x_diff y_diff).last_x_diff s.last_dir (s.last_incr s.last_dir) = x_diff ∧
    (record s item x_diff y_diff).last_y_diff s.last_dir (s.last_incr s.last_dir) = y_diff := by
  have hcur : s.last_incr s.last_dir ≤ 2 := by
    obtain ⟨hd, h0, h1⟩ := hinv
    have hdir : s.last_dir = 0 ∨ s.last_dir = 1 := by omega
    rcases hdir with hz | hz <;> rw [hz] <;> assumption
  have hsame : s.last_dir = (asLASpoint10 item).scan_direction_flag := hflag.symm
  unfold record
  simp only [← hsame, if_true, Function.update_same]
  refine ⟨?_, ?_, ?_, ?_⟩
  · split <;> rfl
  · split <;> simp <;> omega
  · split <;> simp
  · split <;> simp

/-- The cursor after a run of writes in the direction of `last_dir`. -/
theorem writes_same_dir (getK : IC → Int → Int → Nat → Nat) (run : List Bytes) :
    ∀ s : LASwriteItemCompressed_POINT10_v1,
      (s.last_dir ≤ 1 ∧ s.last_incr 0 ≤ 2 ∧ s.last_incr 1 ≤ 2) →
      (∀ it, it ∈ run → (asLASpoint10 it).scan_direction_flag = s.last_dir) →
      (writes getK s run).last_dir = s.last_dir ∧
      (writes getK s run).last_incr s.last_dir = (s.last_incr s.last_dir + run.length) % 3 := by
  induction run with
  | nil =>
    intro s hinv _
    obtain ⟨hd, h0, h1⟩ := hinv
    have hdir : s.last_dir = 0 ∨ s.last_dir = 1 := by omega
    refine ⟨rfl, ?_⟩
    simp only [writes, List.length_nil, Nat.add_zero]
    rcases hdir with hz | hz <;> rw [hz] <;> omega
  | cons item run ih =>
    intro s hinv hrun
    have hflag := hrun item (List.mem_cons_self _ _)
    obtain ⟨r1, r2, _, _⟩ := record_same_dir s item
      (toI32 ((asLASpoint10 item).x - (asLASpoint10 s.last_item).x))
      (toI32 ((asLASpoint10 item).y - (asLASpoint10 s.last_item).y)) hinv hflag
    have hinv2 := record_cursors s item
      (toI32 ((asLASpoint10 item).x - (asLASpoint10 s.last_item).x))
      (toI32 ((asLASpoint10 item).y - (asLASpoint10 s.last_item).y)) hinv
    unfold writes
    rw [write_state]
    obtain ⟨i1, i2⟩ := ih _ hinv2 (by
      intro it hit
      rw [r1]
      exact hrun it (List.mem_cons_of_mem _ hit))
    rw [r1] at i1 i2
    rw [r2] at i2
    refine ⟨i1, ?_⟩
    rw [i2, List.length_cons]
    omega

/-- Claim C22 as written fails: from `init`, four consecutive writes in the direction 0
with the x differences 1, 2, 3, 4 leave the cursor at 0 after the third write and at 1
after the fourth; the fourth difference has been written at index 0 and nothing at
index 3. -/
theorem writes_cursor_counterexample :
    (writes (fun _ _ _ _ => 0) (init (fun _ => 0))
      [fun i => if i = 0 then 1 else 0, fun i => if i = 0 then 3 else 0,
        fun i => if i = 0 then 6 else 0]).last_incr 0 = 0 ∧
    (writes (fun _ _ _ _ => 0) (init (fun _ => 0))
      [fun i => if i = 0 then 1 else 0, fun i => if i = 0 then 3 else 0,
        fun i => if i = 0 then 6 else 0, fun i => if i = 0 then 10 else 0]).last_incr 0 = 1 ∧
    (writes (fun _ _ _ _ => 0) (init (fun _ => 0))
      [fun i => if i = 0 then 1 else 0, fun i => if i = 0 then 3 else 0,
        fun i => if i = 0 then 6 else 0, fun i => if i = 0 then 10 else 0]).last_x_diff 0 0
      = 4 ∧
    (writes (fun _ _ _ _ => 0) (init (fun _ => 0))
      [fun i => if i = 0 then 1 else 0, fun i => if i = 0 then 3 else 0,
        fun i => if i = 0 then 6 else 0, fun i => if i = 0 then 10 else 0]).last_x_diff 0 3
      = 0 := by
  decide

/-- Claim C22 (amended): in a state `s` reached from `init` by any sequence of writes, for
a run of consecutive writes whose scan direction equals `last_dir`, the ring positions
written follow the sequence `c, c + 1, c + 2, ...` modulo 3, `c` being the cursor of `s`
(0, 1, 2, 0, 1, ... from `init`): after the run the cursor is `(c + n) mod 3`, `n` being
the length of the run, the next write in that direction stores its differences at that
index, which is below 3, and moves the cursor to `(c + n + 1) mod 3`.  The cursor never
reaches 3. -/
theorem writes_cursor_run (getK : IC → Int → Int → Nat → Nat) (item0 : Bytes)
    (pre run : List Bytes) (item : Bytes) (s : LASwriteItemCompressed_POINT10_v1)
    (hs : s = writes getK (init item0) pre)
    (hrun : ∀ it, it ∈ run → (asLASpoint10 it).scan_direction_flag = s.last_dir)
    (hitem : (asLASpoint10 item).scan_direction_flag = s.last_dir) :
    (writes getK s run).last_dir = s.last_dir ∧
    (writes getK s run).last_incr s.last_dir = (s.last_incr s.last_dir + run.length) % 3 ∧
    (s.last_incr s.last_dir + run.length) % 3 < 3 ∧
    ((write (writes getK s run) item).calls getK).2.last_x_diff s.last_dir
        ((s.last_incr s.last_dir + run.length) % 3) =
      toI32 ((asLASpoint10 item).x - (asLASpoint10 (writes getK s run).last_item).x) ∧
    ((write (writes getK s run) item).calls getK).2.last_y_diff s.last_dir
        ((s.last_incr s.last_dir + run.length) % 3) =
      toI32 ((asLASpoint10 item).y - (asLASpoint10 (writes getK s run).last_item).y) ∧
    ((write (writes getK s run) item).calls getK).2.last_incr s.last_dir =
      (s.last_incr s.last_dir + run.length + 1) % 3 := by
  have hinv : s.last_dir ≤ 1 ∧ s.last_incr 0 ≤ 2 ∧ s.last_incr 1 ≤ 2 := by
    rw [hs]
    exact writes_cursors getK pre (init item0) ⟨Nat.zero_le _, Nat.zero_le _, Nat.zero_le _⟩
  obtain ⟨h1, h2⟩ := writes_same_dir getK run s hinv hrun
  have hinv2 := writes_cursors getK run s hinv
  obtain ⟨r1, r2, r3, r4⟩ := record_same_dir (writes getK s run) item
    (toI32 ((asLASpoint10 item).x - (asLASpoint10 (writes getK s run).last_item).x))
    (toI32 ((asLASpoint10 item).y - (asLASpoint10 (writes getK s run).last_item).y)) hinv2
    (by rw [h1]; exact hitem)
  rw [h1] at r2 r3 r4
  rw [h2] at r2 r3 r4
  rw [write_state]
  refine ⟨h1, h2, Nat.mod_lt _ (by decide), r3, r4, ?_⟩
  rw [r2]
  omega

/-- Witness of `writes_cursor_run`: from `init` on the all-zero point, a run of three
writes of the all-zero point: the cursor is back at 0. -/
theorem writes_cursor_run_witness :
    (writes (fun _ _ _ _ => 0) (init (fun _ => 0))
      [fun _ => 0, fun _ => 0, fun _ => 0]).last_incr 0 = 0 :=
  (writes_cursor_run (fun _ _ _ _ => 0) (fun _ => 0) [] [fun _ => 0, fun _ => 0, fun _ => 0]
    (fun _ => 0) (init (fun _ => 0)) rfl (by intro it hit; simp at hit; subst hit; decide)
    (by decide)).2.1

/-- The state after two lists of writes. -/
theorem writes_append (getK : IC → Int → Int → Nat → Nat) (l1 l2 : List Bytes) :
    ∀ s : LASwriteItemCompressed_POINT10_v1,
      writes getK s (l1 ++ l2) = writes getK (writes getK s l1) l2 := by
  induction l1 with
  | nil => intro s; rfl
  | cons item l1 ih =>
    intro s
    simp only [List.cons_append, writes]
    exact ih _

/-- The fields of a point depend on its first 20 bytes only. -/
theorem asLASpoint10_congr (a b : Bytes) (h : ∀ j, j < 20 → a j = b j) :
    asLASpoint10 a = asLASpoint10 b := by
  simp only [asLASpoint10, getI32, getU16, getI8, h 0 (by decide), h 1 (by decide),
    h 2 (by decide), h 3 (by decide), h 4 (by decide), h 5 (by decide), h 6 (by decide),
    h 7 (by decide), h 8 (by decide), h 9 (by decide), h 10 (by decide), h 11 (by decide),
    h 12 (by decide), h 13 (by decide), h 14 (by decide), h 15 (by decide), h 16 (by decide),
    h 17 (by decide), h 18 (by decide), h 19 (by decide)]

/-- The median of the ring that holds `d` in its first `n` entries and 0 in the others. -/
theorem median_ring (d : Int) (n : Nat) :
    median (if 0 < n then d else 0) (if 1 < n then d else 0) (if 2 < n then d else 0) =
      if n < 2 then 0 else d := by
  unfold median
  split_ifs <;> omega

/-- The predictor of the stream `x = d * i`, `y = 0`, scan direction 0, after `n` writes:
the ring of x differences holds `d` in its first `min n 3` entries, the cursor is
`n mod 3`, the y differences are 0 and the last item is point `n`. -/
theorem monotone_x_state (getK : IC → Int → Int → Nat → Nat) (d : Int) (p : Nat → Bytes)
    (hx : ∀ i : Nat, (asLASpoint10 (p i)).x = toI32 (d * i))
    (hy : ∀ i : Nat, (asLASpoint10 (p i)).y = 0)
    (hflag : ∀ i : Nat, (asLASpoint10 (p i)).scan_direction_flag = 0)
    (hd1 : I32_MIN ≤ d) (hd2 : d ≤ I32_MAX) (n : Nat) :
    (writes getK (init (p 0)) ((List.range n).map (fun i => p (i + 1)))).last_dir = 0 ∧
    (writes getK (init (p 0)) ((List.range n).map (fun i => p (i + 1)))).last_incr 0 = n % 3 ∧
    (∀ j, j < 3 →
      (writes getK (init (p 0)) ((List.range n).map (fun i => p (i + 1)))).last_x_diff 0 j =
        if j < n then d else 0) ∧
    (∀ j,
      (writes getK (init (p 0)) ((List.range n).map (fun i => p (i + 1)))).last_y_diff 0 j =
        0) ∧
    (∀ j, j < 20 →
      (writes getK (init (p 0)) ((List.range n).map (fun i => p (i + 1)))).last_item j =
        p n j) := by
  unfold I32_MIN at hd1
  unfold I32_MAX at hd2
  induction n with
  | zero =>
    refine ⟨rfl, rfl, fun j _ => by simp [writes, init], fun j => rfl, ?_⟩
    intro j hj
    simp only [List.range_zero, List.map_nil, writes, init, memcpy, hj, if_true]
  | succ n ih =>
    obtain ⟨i1, i2, i3, i4, i5⟩ := ih
    rw [List.range_succ, List.map_append, writes_append]
    generalize writes getK (init (p 0)) ((List.range n).map (fun i => p (i + 1))) = s at *
    simp only [List.map_cons, List.map_nil, writes, write_state]
    have hlast : asLASpoint10 s.last_item = asLASpoint10 (p n) := asLASpoint10_congr _ _ i5
    have hxd : toI32 ((asLASpoint10 (p (n + 1))).x - (asLASpoint10 s.last_item).x) = d := by
      rw [hlast, hx, hx]
      have : d * ((n + 1 : Nat) : Int) = d * (n : Int) + d := by push_cast; ring
      rw [this]
      generalize d * (n : Int) = m
      unfold toI32
      omega
    have hyd : toI32 ((asLASpoint10 (p (n + 1))).y - (asLASpoint10 s.last_item).y) = 0 := by
      rw [hlast, hy, hy]
      rfl
    rw [hxd, hyd]
    have hsame : s.last_dir = (asLASpoint10 (p (n + 1))).scan_direction_flag := by
      rw [i1, hflag]
    unfold record
    simp only [← hsame, if_true, i1, Function.update_same, i2]
    have hmod : n % 3 < 3 := Nat.mod_lt _ (by decide)
    by_cases hwrap : n % 3 + 1 > 2
    · simp only [hwrap, if_true, Function.update_same]
      refine ⟨trivial, by omega, ?_, ?_, ?_⟩
      · intro j hj
        by_cases hjc : j = n % 3
        · subst hjc
          simp only [Function.update_same]
          rw [if_pos (by omega)]
        · simp only [Function.update_noteq hjc, i3 j hj]
          split <;> split <;> first | rfl | omega
      · intro j
        by_cases hjc : j = n % 3
        · subst hjc
          simp only [Function.update_same]
        · simp only [Function.update_noteq hjc, i4 j]
      · intro j hj
        simp only [memcpy, hj, if_true]
    · simp only [hwrap, if_false, Function.update_same]
      refine ⟨trivial, by omega, ?_, ?_, ?_⟩
      · intro j hj
        by_cases hjc : j = n % 3
        · subst hjc
          simp only [Function.update_same]
          rw [if_pos (by omega)]
        · simp only [Function.update_noteq hjc, i3 j hj]
          split <;> split <;> first | rfl | omega
      · intro j
        by_cases hjc : j = n % 3
        · subst hjc
          simp only [Function.update_same]
        · simp only [Function.update_noteq hjc, i4 j]
      · intro j hj
        simp only [memcpy, hj, if_true]

end LASwriteItemCompressed_POINT10_v1

/-! ## Claim on the monotone-x stream (C24) -/

/-- A 32-bit compressor given a value equal to its prediction returns, whatever the
number of iterations allowed to the magnitude loop, and exposes `k = 0`: the corrector
is 0. -/
theorem Compress_32_same (fuel contexts bits_high : Nat) (p : Int) (ctx : Nat)
    (hp1 : I32_MIN ≤ p) (hp2 : p ≤ I32_MAX) :
    foldCorrector (IntegerCompressor 32 contexts bits_high) p p = 0 ∧
    Compress fuel (IntegerCompressor 32 contexts bits_high) p p ctx =
      some ([Event.encodeBits ctx 0, Event.encodeBit 0],
        { IntegerCompressor 32 contexts bits_high with k := 0 }) := by
  obtain ⟨_, hR, hmin, hmax⟩ := SetupCompressor_32
    { ArithmeticIntegerCompressor.new with bits := 32 } contexts bits_high rfl
    (Or.inr (le_refl _))
  have hfold : foldCorrector (IntegerCompressor 32 contexts bits_high) p p = 0 := by
    unfold IntegerCompressor
    rw [(fold_unfold_32 _ _ p p hmin hmax hR hp1 hp2).1, sub_self]
    rfl
  refine ⟨hfold, ?_⟩
  unfold Compress
  rw [hfold]
  unfold writeCorrector
  have h0 : (if (0 : Int) ≤ 0 then toI32 (-0) else toI32 (0 - 1)) = 0 := by decide
  simp only [h0, magnitudeLoop_zero]
  rfl

/-- In the 32-bit mode `Compress(0, I32_MIN, c)` never returns. -/
theorem Compress_32_I32_MIN_none (fuel contexts bits_high c : Nat) :
    Compress fuel (IntegerCompressor 32 contexts bits_high) 0 I32_MIN c = none := by
  have hfold := foldCorrector_32_I32_MIN contexts bits_high
  unfold Compress writeCorrector IntegerCompressor
  rw [hfold]
  have hloop := magnitudeLoop_neg fuel
    (if I32_MIN ≤ 0 then toI32 (-I32_MIN) else toI32 (I32_MIN - 1)) 0 (by decide)
  simp only [hloop]

namespace LASwriteItemCompressed_POINT10_v1

/-- The stream `x = d * i`, `y = 0`, `z = 0`, all other fields constant, scan direction 0,
written from `init` on point 0, for an `I32` step `d`.  In the write of point `n + 1`
(after `n` writes): `x_diff = d`; the prediction `median_x` is 0 in the first two writes
and `d` from the third write onwards; the calls are the three coordinate calls and the
symbol 0 of `changed_values`.  The x corrector is `d` in the first two writes and 0 from
the third write onwards, and for `d` other than `I32_MIN` the x call returns and exposes
the bit length of the corrector, that is `k = 0` from the third write onwards; the y
call and the z call return and expose `k = 0` in every write. -/
theorem monotone_x_stream (getK : IC → Int → Int → Nat → Nat) (bits_high fuel : Nat)
    (d : Int) (p : Nat → Bytes)
    (hx : ∀ i : Nat, (asLASpoint10 (p i)).x = toI32 (d * i))
    (hy : ∀ i : Nat, (asLASpoint10 (p i)).y = 0)
    (hz : ∀ i : Nat, (asLASpoint10 (p i)).z = 0)
    (hconst : ∀ (i j : Nat), 12 ≤ j → j < 20 → p i j = p 0 j)
    (hflag : (asLASpoint10 (p 0)).scan_direction_flag = 0)
    (hd1 : I32_MIN ≤ d) (hd2 : d ≤ I32_MAX) (n : Nat) :
    ((write (writes getK (init (p 0)) ((List.range n).map (fun i => p (i + 1))))
        (p (n + 1))).calls getK).1 =
      [ItemOp.compress IC.ic_dx (if n < 2 then 0 else d) d 0,
        ItemOp.compress IC.ic_dy 0 0 (getK IC.ic_dx (if n < 2 then 0 else d) d 0),
        ItemOp.compress IC.ic_z 0 0
          ((getK IC.ic_dx (if n < 2 then 0 else d) d 0 +
            getK IC.ic_dy 0 0 (getK IC.ic_dx (if n < 2 then 0 else d) d 0))
            % 4294967296 / 2),
        ItemOp.encodeSymbol SymbolModel.m_changed_values 0] ∧
    foldCorrector (compressors bits_high IC.ic_dx) (if n < 2 then 0 else d) d =
      (if n < 2 then d else 0) ∧
    (d ≠ I32_MIN → 31 ≤ fuel →
      ∃ ev e, Compress fuel (compressors bits_high IC.ic_dx) (if n < 2 then 0 else d) d 0 =
          some (ev, e) ∧
        e.k = bitLength (if n < 2 then d else 0) ∧ (2 ≤ n → e.k = 0)) ∧
    (∀ context, ∃ ev e, Compress fuel (compressors bits_high IC.ic_dy) 0 0 context =
      some (ev, e) ∧ e.k = 0) ∧
    (∀ context, ∃ ev e, Compress fuel (compressors bits_high IC.ic_z) 0 0 context =
      some (ev, e) ∧ e.k = 0) := by
  have hflags : ∀ i : Nat, (asLASpoint10 (p i)).scan_direction_flag = 0 := by
    intro i
    have h14 := hconst i 14 (by decide) (by decide)
    simp only [asLASpoint10] at hflag ⊢
    rw [h14]
    exact hflag
  obtain ⟨i1, i2, i3, i4, i5⟩ := monotone_x_state getK d p hx hy hflags hd1 hd2 n
  have hfoldx : foldCorrector (compressors bits_high IC.ic_dx) (if n < 2 then 0 else d) d =
      (if n < 2 then d else 0) := by
    obtain ⟨_, hR, hmin, hmax⟩ := SetupCompressor_32
      { ArithmeticIntegerCompressor.new with bits := 32 } 2 bits_high rfl (Or.inr (le_refl _))
    show foldCorrector (SetupCompressor { ArithmeticIntegerCompressor.new with bits := 32 } 2
      bits_high) _ _ = _
    rw [(fold_unfold_32 _ _ _ d hmin hmax hR hd1 hd2).1]
    split
    · rw [sub_zero]
      unfold I32_MIN at hd1
      unfold I32_MAX at hd2
      exact toI32_of_mem hd1 (by omega)
    · rw [sub_self]
      rfl
  refine ⟨?_, hfoldx, ?_, ?_, ?_⟩
  · generalize writes getK (init (p 0)) ((List.range n).map (fun i => p (i + 1))) = s at *
    have hlast : asLASpoint10 s.last_item = asLASpoint10 (p n) := asLASpoint10_congr _ _ i5
    have hxd : toI32 ((asLASpoint10 (p (n + 1))).x - (asLASpoint10 s.last_item).x) = d := by
      rw [hlast, hx, hx]
      have : d * ((n + 1 : Nat) : Int) = d * (n : Int) + d := by push_cast; ring
      rw [this]
      generalize d * (n : Int) = m
      unfold toI32
      unfold I32_MIN at hd1
      unfold I32_MAX at hd2
      omega
    have hyd : toI32 ((asLASpoint10 (p (n + 1))).y - (asLASpoint10 s.last_item).y) = 0 := by
      rw [hlast, hy, hy]
      rfl
    have hmx : s.median_x = if n < 2 then 0 else d := by
      unfold median_x
      rw [i1, i3 0 (by decide), i3 1 (by decide), i3 2 (by decide)]
      exact median_ring d n
    have hmy : s.median_y = 0 := by
      unfold median_y
      rw [i1, i4, i4, i4]
      rfl
    have hcv : changed_values s.last_item (p (n + 1)) = 0 := by
      rw [changed_values_eq_zero]
      intro j hj1 hj2
      rw [i5 j hj2, hconst (n + 1) j hj1 hj2, hconst n j hj1 hj2]
    obtain ⟨b5, b4, b3, b2, b1, b0⟩ := changed_values_bits s.last_item (p (n + 1))
    rw [hcv] at b5 b4 b3 b2 b1 b0
    have n5 := (not_congr b5).mp (by decide)
    have n4 := (not_congr b4).mp (by decide)
    have n3 := (not_congr b3).mp (by decide)
    have n2 := (not_congr b2).mp (by decide)
    have n1 := (not_congr b1).mp (by decide)
    have n0 := (not_congr b0).mp (by decide)
    rw [write_calls_list, hxd, hyd, hmx, hmy, hcv, i1, if_neg n5, if_neg n4,
      if_neg n3, if_neg n2, if_neg n1, if_neg n0, hlast, hz, hz]
    rfl
  · intro hne hfuel
    by_cases hn : n < 2
    · simp only [hn, if_true]
      obtain ⟨ev, e, _, hc, _, _, hk, _⟩ := IntegerCompressor_round_trip_32 2 bits_high fuel 0 d 0
        [] hfuel hd1 hd2 (by
          rw [sub_zero]
          unfold I32_MIN at hd1 hne ⊢
          unfold I32_MAX at hd2
          rw [toI32_of_mem hd1 (by omega)]
          exact hne)
      refine ⟨ev, e, hc, ?_, fun h => absurd h (by omega)⟩
      rw [hk, sub_zero]
      unfold I32_MIN at hd1
      unfold I32_MAX at hd2
      rw [toI32_of_mem hd1 (by omega)]
    · simp only [hn, if_false]
      refine ⟨_, _, (Compress_32_same fuel 2 bits_high d 0 hd1 hd2).2, ?_, fun _ => rfl⟩
      exact ((bitLength_eq_iff 0 0).mpr (Or.inl ⟨rfl, Or.inl rfl⟩)).symm
  · intro context
    exact ⟨_, _, (Compress_32_same fuel 33 bits_high 0 context (by decide) (by decide)).2, rfl⟩
  · intro context
    exact ⟨_, _, (Compress_32_same fuel 33 bits_high 0 context (by decide) (by decide)).2, rfl⟩

/-- Claim C24, the code at the failing input: the step `d = I32_MIN`.  Point 1 of the stream
has `x = I32_MIN` (byte 3 is 128, all other bytes 0, as in point 0); its write, the first
one after `init` on point 0, predicts `median_x = 0` and calls the x compressor with
`x_diff = I32_MIN`, and that call never returns, whatever the number of iterations
allowed to its magnitude loop: no y call is made and no later write happens. -/
theorem monotone_x_I32_MIN_never_returns (fuel bits_high : Nat) :
    (asLASpoint10 (fun i => if i = 3 then 128 else 0)).x = toI32 (I32_MIN * 1) ∧
    ((write (init (fun _ => 0)) (fun i => if i = 3 then 128 else 0)).calls
      (fun _ _ _ _ => 0)).1.head? = some (ItemOp.compress IC.ic_dx 0 I32_MIN 0) ∧
    Compress fuel (compressors bits_high IC.ic_dx) 0 I32_MIN 0 = none ∧
    (write (init (fun _ => 0)) (fun i => if i = 3 then 128 else 0)).run fuel
      (compressors bits_high) = none := by
  have hc : Compress fuel (compressors bits_high IC.ic_dx) 0 I32_MIN 0 = none :=
    Compress_32_I32_MIN_none fuel 2 bits_high 0
  refine ⟨by decide, by decide, hc, ?_⟩
  have e1 : (init (fun _ => 0)).median_x = 0 := by decide
  have e2 : toI32 ((asLASpoint10 (fun i => if i = 3 then 128 else 0)).x -
      (asLASpoint10 (init (fun _ => 0)).last_item).x) = I32_MIN := by decide
  have e3 : (init (fun _ => 0)).last_dir = 0 := rfl
  simp only [write, Prog.bind_eq, Prog.run_bind, e1, e2, e3]
  have hrun : (compress IC.ic_dx 0 I32_MIN 0).run fuel (compressors bits_high) = none := by
    unfold compress
    simp only [Prog.run, hc]
  simp only [hrun]

end LASwriteItemCompressed_POINT10_v1

/-! ## The monotone-x stream: a realisation of its hypotheses -/

theorem monotone_x_point_x (d : Int) (i : Nat) :
    (asLASpoint10 (monotone_x_point d i)).x = toI32 (d * i) := by
  simp only [asLASpoint10, getI32, monotone_x_point, Fin.ofNat, Fin.val_mk]
  norm_num
  generalize d * (i : Int) = m
  unfold toI32 toU32
  omega

theorem monotone_x_point_zero (d : Int) (i j : Nat) (hj : 4 ≤ j) :
    monotone_x_point d i j = 0 := by
  unfold monotone_x_point
  rw [if_neg (by omega)]

namespace LASwriteItemCompressed_POINT10_v1

/-- The stream of step 100: the third write predicts `median_x = 100` for `x_diff = 100`,
and all three coordinate calls are made with a value equal to the prediction. -/
theorem monotone_x_stream_100 :
    ((write (writes (fun _ _ _ _ => 0) (init (monotone_x_point 100 0))
        [monotone_x_point 100 1, monotone_x_point 100 2]) (monotone_x_point 100 3)).calls
      (fun _ _ _ _ => 0)).1 =
      [ItemOp.compress IC.ic_dx 100 100 0, ItemOp.compress IC.ic_dy 0 0 0,
        ItemOp.compress IC.ic_z 0 0 0,
        ItemOp.encodeSymbol SymbolModel.m_changed_values 0] := by
  have h := (monotone_x_stream (fun _ _ _ _ => 0) 8 32 100 (monotone_x_point 100)
    (monotone_x_point_x 100)
    (by
      intro i
      simp only [asLASpoint10, getI32, monotone_x_point_zero 100 i _ (show 4 ≤ 4 by decide),
        monotone_x_point_zero 100 i _ (show 4 ≤ 4 + 1 by decide),
        monotone_x_point_zero 100 i _ (show 4 ≤ 4 + 2 by decide),
        monotone_x_point_zero 100 i _ (show 4 ≤ 4 + 3 by decide)]
      decide)
    (by
      intro i
      simp only [asLASpoint10, getI32, monotone_x_point_zero 100 i _ (show 4 ≤ 8 by decide),
        monotone_x_point_zero 100 i _ (show 4 ≤ 8 + 1 by decide),
        monotone_x_point_zero 100 i _ (show 4 ≤ 8 + 2 by decide),
        monotone_x_point_zero 100 i _ (show 4 ≤ 8 + 3 by decide)]
      decide)
    (by
      intro i j hj _
      rw [monotone_x_point_zero 100 i j (by omega), monotone_x_point_zero 100 0 j (by omega)])
    (by
      simp only [asLASpoint10, monotone_x_point_zero 100 0 14 (by decide)]
      decide)
    (by decide) (by decide) 2).1
  exact h

end LASwriteItemCompressed_POINT10_v1

/-! ## Claim on the last difference of GPSTIME11 (C28) -/

theorem getI64_bounds (b : Bytes) (off : Nat) :
    -9223372036854775808 ≤ getI64 b off ∧ getI64 b off < 9223372036854775808 := by
  unfold getI64 toI64
  omega

/-- The wraparound difference of two different `I64` values is not zero. -/
theorem toI64_sub_ne_zero (a b : Int) (ha1 : -9223372036854775808 ≤ a)
    (ha2 : a < 9223372036854775808) (hb1 : -9223372036854775808 ≤ b)
    (hb2 : b < 9223372036854775808) (hne : a ≠ b) : toI64 (a - b) ≠ 0 := by
  unfold toI64
  omega

namespace LASwriteItemCompressed_GPSTIME11_v1

/-- The statements on the extreme multipliers either keep the last difference or set it
to the current one. -/
theorem extreme_diff (s : LASwriteItemCompressed_GPSTIME11_v1) (curr_gpstime_diff : Int) :
    (extreme s curr_gpstime_diff).last_gpstime_diff = curr_gpstime_diff ∨
    (extreme s curr_gpstime_diff).last_gpstime_diff = s.last_gpstime_diff := by
  unfold extreme
  simp only
  split
  · exact Or.inl rfl
  · exact Or.inr rfl

/-- One write, in a state whose `last_gpstime` is an `I64`: `last_gpstime` is an `I64`
afterwards, and `last_gpstime_diff` is either unchanged or set to a non-zero value. -/
theorem write_diff (f32multi : Int → Int → Int) (getK : IC → Int → Int → Nat → Nat)
    (s : LASwriteItemCompressed_GPSTIME11_v1) (item : Bytes)
    (hs1 : -9223372036854775808 ≤ s.last_gpstime)
    (hs2 : s.last_gpstime < 9223372036854775808) :
    (-9223372036854775808 ≤ ((write f32multi s item).calls getK).2.last_gpstime ∧
      ((write f32multi s item).calls getK).2.last_gpstime < 9223372036854775808) ∧
    (((write f32multi s item).calls getK).2.last_gpstime_diff = s.last_gpstime_diff ∨
      ((write f32multi s item).calls getK).2.last_gpstime_diff ≠ 0) := by
  obtain ⟨hb1, hb2⟩ := getI64_bounds item 0
  by_cases heq : getI64 item 0 = s.last_gpstime
  · rw [write_state_equal f32multi getK s item heq]
    exact ⟨⟨hs1, hs2⟩, Or.inl rfl⟩
  · have hD := toI64_sub_ne_zero _ _ hb1 hb2 hs1 hs2 heq
    by_cases hfit : -2147483648 ≤ toI64 (getI64 item 0 - s.last_gpstime) ∧
        toI64 (getI64 item 0 - s.last_gpstime) < 2147483648
    · by_cases h0 : s.last_gpstime_diff = 0
      · rw [write_state_first f32multi getK s item h0 heq hfit]
        exact ⟨⟨hb1, hb2⟩, Or.inr hD⟩
      · rw [write_state_multi f32multi getK s item h0 heq hfit]
        have he := extreme_diff s (toI64 (getI64 item 0 - s.last_gpstime))
        split
        · exact ⟨⟨hb1, hb2⟩, Or.inr hD⟩
        · split
          · refine ⟨⟨hb1, hb2⟩, ?_⟩
            rcases he with he | he
            · exact Or.inr (by rw [show ({ extreme s (toI64 (getI64 item 0 - s.last_gpstime))
                with last_gpstime := getI64 item 0 } :
                LASwriteItemCompressed_GPSTIME11_v1).last_gpstime_diff =
                (extreme s (toI64 (getI64 item 0 - s.last_gpstime))).last_gpstime_diff
                from rfl, he]; exact hD)
            · exact Or.inl he
          · exact ⟨⟨hb1, hb2⟩, Or.inl rfl⟩
    · rw [write_state_huge f32multi getK s item hfit]
      exact ⟨⟨hb1, hb2⟩, Or.inl rfl⟩

/-- The state after two lists of writes. -/
theorem writes_gpstime_append (f32multi : Int → Int → Int)
    (getK : IC → Int → Int → Nat → Nat) (l1 l2 : List Bytes) :
    ∀ s : LASwriteItemCompressed_GPSTIME11_v1,
      writes f32multi getK s (l1 ++ l2) = writes f32multi getK (writes f32multi getK s l1) l2 := by
  induction l1 with
  | nil => intro s; rfl
  | cons item l1 ih =>
    intro s
    simp only [List.cons_append, writes]
    exact ih _

/-- Any sequence of writes, from a state whose `last_gpstime` is an `I64`, keeps
`last_gpstime` an `I64` and keeps a non-zero `last_gpstime_diff` non-zero. -/
theorem writes_diff (f32multi : Int → Int → Int) (getK : IC → Int → Int → Nat → Nat)
    (items : List Bytes) :
    ∀ s : LASwriteItemCompressed_GPSTIME11_v1,
      -9223372036854775808 ≤ s.last_gpstime → s.last_gpstime < 9223372036854775808 →
      (-9223372036854775808 ≤ (writes f32multi getK s items).last_gpstime ∧
        (writes f32multi getK s items).last_gpstime < 9223372036854775808) ∧
      (s.last_gpstime_diff ≠ 0 → (writes f32multi getK s items).last_gpstime_diff ≠ 0) := by
  induction items with
  | nil => intro s h1 h2; exact ⟨⟨h1, h2⟩, fun h => h⟩
  | cons item items ih =>
    intro s h1 h2
    obtain ⟨⟨w1, w2⟩, w3⟩ := write_diff f32multi getK s item h1 h2
    obtain ⟨r, i3⟩ := ih _ w1 w2
    unfold writes
    refine ⟨r, ?_⟩
    intro hne
    apply i3
    rcases w3 with w3 | w3
    · rw [w3]; exact hne
    · exact w3

/-- The value of the floating-point expression is used only with a non-zero divisor:
`write` is the same for two functions that agree whenever the divisor is not zero. -/
theorem write_f32multi_congr (f g : Int → Int → Int)
    (hfg : ∀ a b, b ≠ 0 → f a b = g a b) (s : LASwriteItemCompressed_GPSTIME11_v1)
    (item : Bytes) : write f s item = write g s item := by
  by_cases h0 : s.last_gpstime_diff = 0
  · simp only [write, h0, if_true]
  · simp only [write, h0, if_false, hfg _ _ h0]

/-- Claim C28: GPSTIME11 `write` only ever assigns a non-zero value to
`last_gpstime_diff`.  It is 0 after `init`; in every state reached from `init` by a
sequence of writes, a write either leaves it unchanged or sets it to a non-zero value;
once it is non-zero it is non-zero after every later write, and every later write opens
with a symbol of the model of 512 symbols, never of the model of 3 symbols.  The
floating-point quotient is computed only with a non-zero divisor: `write` does not depend
on the value of the expression for the divisor 0. -/
theorem write_diff_stays_nonzero (f32multi : Int → Int → Int)
    (getK : IC → Int → Int → Nat → Nat) (item0 : Bytes) (pre post : List Bytes)
    (item : Bytes) :
    (init item0).last_gpstime_diff = 0 ∧
    (((write f32multi (writes f32multi getK (init item0) pre) item).calls
          getK).2.last_gpstime_diff =
        (writes f32multi getK (init item0) pre).last_gpstime_diff ∨
      ((write f32multi (writes f32multi getK (init item0) pre) item).calls
          getK).2.last_gpstime_diff ≠ 0) ∧
    ((writes f32multi getK (init item0) pre).last_gpstime_diff ≠ 0 →
      (writes f32multi getK (init item0) (pre ++ post)).last_gpstime_diff ≠ 0 ∧
      ∃ sym rest,
        ((write f32multi (writes f32multi getK (init item0) (pre ++ post)) item).calls
          getK).1 = ItemOp.encodeSymbol SymbolModel.m_gpstime_multi sym :: rest ∧
        ∀ sym0, ItemOp.encodeSymbol SymbolModel.m_gpstime_0diff sym0 ∉ rest) ∧
    (∀ g : Int → Int → Int, (∀ a b, b ≠ 0 → f32multi a b = g a b) →
      ∀ s it, write f32multi s it = write g s it) := by
  obtain ⟨b1, b2⟩ := getI64_bounds item0 0
  obtain ⟨⟨p1, p2⟩, _⟩ := writes_diff f32multi getK pre (init item0) b1 b2
  refine ⟨rfl, (write_diff f32multi getK _ item p1 p2).2, ?_,
    fun g hfg s it => write_f32multi_congr f32multi g hfg s it⟩
  intro hne
  have hpost : (writes f32multi getK (init item0) (pre ++ post)).last_gpstime_diff ≠ 0 := by
    rw [writes_gpstime_append]
    exact (writes_diff f32multi getK post _ p1 p2).2 hne
  refine ⟨hpost, ?_⟩
  generalize writes f32multi getK (init item0) (pre ++ post) = s at hpost ⊢
  by_cases heq : getI64 item 0 = s.last_gpstime
  · have hc := congrArg Prod.fst (write_calls_equal f32multi getK s item heq)
    rw [if_neg hpost, if_neg hpost] at hc
    exact ⟨_, _, hc, by simp⟩
  · by_cases hfit : -2147483648 ≤ toI64 (getI64 item 0 - s.last_gpstime) ∧
        toI64 (getI64 item 0 - s.last_gpstime) < 2147483648
    · have hc := congrArg Prod.fst (write_calls_multi f32multi getK s item hpost heq hfit)
      exact ⟨_, _, hc, by simp⟩
    · have hc := congrArg Prod.fst (write_calls_huge f32multi getK s item hfit)
      rw [if_neg hpost, if_neg hpost] at hc
      exact ⟨_, _, hc, by simp⟩

/-- Witness of `write_diff_stays_nonzero`: after `init` on the item of integer 0 and the
write of the item of integer 1, the last difference is 1; it is still not zero after two
writes of equal items. -/
theorem write_diff_stays_nonzero_witness :
    (writes (fun _ _ => 1) (fun _ _ _ _ => 0) (init (fun _ => 0))
      ([fun i => if i = 0 then 1 else 0] ++
        [fun i => if i = 0 then 1 else 0, fun i => if i = 0 then 1 else 0])).last_gpstime_diff
      ≠ 0 :=
  ((write_diff_stays_nonzero (fun _ _ => 1) (fun _ _ _ _ => 0) (fun _ => 0)
    [fun i => if i = 0 then 1 else 0]
    [fun i => if i = 0 then 1 else 0, fun i => if i = 0 then 1 else 0]
    (fun _ => 0)).2.2.1 (by decide)).1

end LASwriteItemCompressed_GPSTIME11_v1

end LASzip
